import Mathlib

/-!
# Verification of the ELIST2 embedded circular doubly linked list

A shallow embedding of `src/ccutil/elst2.cpp` (namespace `tesseract`): the
generic intrusive circular doubly linked list `ELIST2` and its cursor
`ELIST2_ITERATOR`.

Nodes are identified by natural-number ids.  The mutable heap of `next`/`prev`
sibling references, together with every list object's `last` (tail) reference,
is a `World`.  Null pointers are `Option.none`.  Iterator objects are explicit
records threaded through the operations.  Fatal `ERRCODE` aborts become
`Except Err` results.  Loops from the C source carry an explicit fuel
argument; well-formedness theorems show the fuel bound is never the deciding
factor on real lists.

Member functions whose bodies live in the (absent) header `elst2.h` are
modelled from the specification and carry a doc comment starting
`Modelled from the spec:`.  Everything else is translated directly from
`elst2.cpp`.
-/

namespace Elst2

/-- Fatal error conditions of the list/cursor contract (spec section 7). -/
inductive Err where
  | noList
  | deletedElementAccess
  | emptyListAccess
  | nonEmptyDestination
  | crossListRange
  | unterminatedRange
  | outOfFuel
deriving DecidableEq

/-- A pointer: a node id or null. -/
abbrev Ptr := Option Nat

/-- The mutable state: per-node `next`/`prev` sibling references
(`ELIST2_LINK` fields) and per-list `last` (tail) references. -/
structure World where
  nxt : Nat → Ptr
  prv : Nat → Ptr
  lastOf : Nat → Ptr

/-- Write `a->next = p`. -/
def World.setNxt (w : World) (a : Nat) (p : Ptr) : World :=
  { w with nxt := fun n => if n = a then p else w.nxt n }

/-- Write `a->prev = p`. -/
def World.setPrv (w : World) (a : Nat) (p : Ptr) : World :=
  { w with prv := fun n => if n = a then p else w.prv n }

/-- Write `list->last = p` for the list object `lid`. -/
def World.setLast (w : World) (lid : Nat) (p : Ptr) : World :=
  { w with lastOf := fun n => if n = lid then p else w.lastOf n }

/-- Write `q->next = p` through a possibly-null pointer `q` (a null write
would be a fault in the C source; it is a no-op here and every theorem's
hypotheses keep `q` non-null on the paths the source exercises). -/
def World.setNxtP (w : World) (q : Ptr) (p : Ptr) : World :=
  match q with
  | some a => w.setNxt a p
  | none => w

/-- Write `q->prev = p` through a possibly-null pointer `q`. -/
def World.setPrvP (w : World) (q : Ptr) (p : Ptr) : World :=
  match q with
  | some a => w.setPrv a p
  | none => w

/-- `ELIST2::empty`: true iff `last` is unset. -/
def World.emptyList (w : World) (lid : Nat) : Bool :=
  w.lastOf lid == none

/-- The cursor: `ELIST2_ITERATOR`'s fields.  `list` is the id of the bound
list object. -/
structure ELIST2_ITERATOR where
  list : Nat
  current : Ptr
  prev : Ptr
  next : Ptr
  cycle_pt : Ptr
  started_cycling : Bool
  ex_current_was_last : Bool
  ex_current_was_cycle_pt : Bool
deriving DecidableEq

/-- Modelled from the spec: binding a cursor to a list positions it at the
logical head (`last->next`), with `prev` on the tail and `next` one past the
head; on an empty list all position references are null.  (The constructor
`ELIST2_ITERATOR::set_to_list` lives in the absent header `elst2.h`.) -/
def ELIST2_ITERATOR.set_to_list (w : World) (lid : Nat) : ELIST2_ITERATOR :=
  match w.lastOf lid with
  | none => ⟨lid, none, none, none, none, false, false, false⟩
  | some l =>
      ⟨lid, w.nxt l, some l,
        (match w.nxt l with
         | some h => w.nxt h
         | none => none),
        none, false, false, false⟩

/-- Modelled from the spec: `mark_cycle_pt` sets `cycle_pt` to the current
position (or, if `current` is unset, arranges for the next `forward` to set
it via `ex_current_was_cycle_pt`) and clears `started_cycling`.  (Body in the
absent header `elst2.h`.) -/
def ELIST2_ITERATOR.mark_cycle_pt (it : ELIST2_ITERATOR) : ELIST2_ITERATOR :=
  match it.current with
  | some _ => { it with cycle_pt := it.current, started_cycling := false }
  | none => { it with ex_current_was_cycle_pt := true, started_cycling := false }

/-- Modelled from the spec: `cycled_list` is true once traversal has advanced
a full lap past `cycle_pt`, guarded by `started_cycling` so the very first
position is never mistaken for a completed lap; a cursor over an empty list
is vacuously cycled (so that `length()` of an empty list is 0).  (Body in the
absent header `elst2.h`.) -/
def ELIST2_ITERATOR.cycled_list (it : ELIST2_ITERATOR) (w : World) : Bool :=
  w.lastOf it.list == none || (it.started_cycling && it.current == it.cycle_pt)

/-- Modelled from the spec: `at_last` is true when the cursor's current element
is the list's tail.  (Body in the absent header `elst2.h`; used by
`extract_sublist` to record that the walked range contained the source tail.) -/
def ELIST2_ITERATOR.at_last (it : ELIST2_ITERATOR) (w : World) : Bool :=
  match it.current with
  | some c => w.lastOf it.list == some c
  | none => false

/-- `ELIST2_ITERATOR::forward` (elst2.cpp): advance one step.  On an empty
list it returns null leaving the cursor untouched; with a set `current` the
cursor moves to `current->next` (re-read from the live node); with an unset
`current` it resynchronizes from the retained `next`, transferring the cycle
marker if the removed element carried it. -/
def ELIST2_ITERATOR.forward (it : ELIST2_ITERATOR) (w : World) : ELIST2_ITERATOR :=
  if w.lastOf it.list = none then it
  else
    let it1 :=
      match it.current with
      | some c =>
          { it with prev := some c, started_cycling := true, current := w.nxt c }
      | none =>
          { it with
            cycle_pt := if it.ex_current_was_cycle_pt then it.next else it.cycle_pt,
            current := it.next }
    { it1 with
      next :=
        match it1.current with
        | some c => w.nxt c
        | none => none }

/-- Step `k` times through `nxt`, starting from `p` (null propagates). -/
def nth_next (w : World) : Ptr → Nat → Ptr
  | p, 0 => p
  | p, k + 1 =>
      match p with
      | some a => nth_next w (w.nxt a) k
      | none => none

/-- Step `k` times through `prv`, starting from `p` (null propagates). -/
def nth_prev (w : World) : Ptr → Nat → Ptr
  | p, 0 => p
  | p, k + 1 =>
      match p with
      | some a => nth_prev w (w.prv a) k
      | none => none

/-- `ELIST2_ITERATOR::data_relative` (elst2.cpp): the element `offset` steps
from `current` (negative = backward) without moving the cursor.  With an
unset `current`, a non-negative offset counts from the retained `prev` and a
negative offset counts from the retained `next`.  Fatal on an empty list. -/
def ELIST2_ITERATOR.data_relative (it : ELIST2_ITERATOR) (w : World) (offset : Int) :
    Except Err Ptr :=
  if w.lastOf it.list = none then .error .emptyListAccess
  else if offset < 0 then
    .ok (nth_prev w
      (match it.current with
       | some c => some c
       | none => it.next) offset.natAbs)
  else
    .ok (nth_next w
      (match it.current with
       | some c => some c
       | none => it.prev) offset.toNat)

/-- Modelled from the spec: `extract` detaches `current` from the chain
(fixing the neighbours' cross-links and the list's `last` if the removed node
was the tail), leaves `current` unset with `prev`/`next` retained, records in
the `ex_current_was_*` flags whether the removed node was the tail or the
cursor's cycle marker, and returns the detached node.  Fatal if `current` is
already unset.  (Body in the absent header `elst2.h`.) -/
def ELIST2_ITERATOR.extract (it : ELIST2_ITERATOR) (w : World) :
    Except Err (World × ELIST2_ITERATOR × Nat) :=
  match it.current with
  | none => .error .deletedElementAccess
  | some c =>
      let wasLast := w.lastOf it.list = some c
      let w1 :=
        if it.prev = some c then
          w.setLast it.list none
        else
          let wa := (w.setNxtP it.prev it.next).setPrvP it.next it.prev
          if wasLast then wa.setLast it.list it.prev else wa
      let w2 := (w1.setNxt c none).setPrv c none
      .ok (w2,
        { it with
          current := none,
          ex_current_was_last := wasLast,
          ex_current_was_cycle_pt := it.current == it.cycle_pt }, c)

/-- Modelled from the spec: `add_to_end` appends the node at the tail (the
new node becomes `last`) and moves the cursor onto it.  (Body in the absent
header `elst2.h`.) -/
def ELIST2_ITERATOR.add_to_end (it : ELIST2_ITERATOR) (w : World) (n : Nat) :
    World × ELIST2_ITERATOR :=
  match w.lastOf it.list with
  | none =>
      (((w.setNxt n (some n)).setPrv n (some n)).setLast it.list (some n),
        { it with current := some n, prev := some n, next := some n })
  | some l =>
      let h := w.nxt l
      (((((w.setNxt n h).setPrv n (some l)).setNxt l (some n)).setPrvP h
          (some n)).setLast it.list (some n),
        { it with current := some n, prev := some l, next := h })

/-- Modelled from the spec: `add_before_then_move` inserts the node
immediately before `current` and moves the cursor onto it.  (Body in the
absent header `elst2.h`; `add_sorted` only invokes it with a set `current`,
so the unset case is left as the identity.) -/
def ELIST2_ITERATOR.add_before_then_move (it : ELIST2_ITERATOR) (w : World) (n : Nat) :
    World × ELIST2_ITERATOR :=
  match it.current with
  | none => (w, it)
  | some c =>
      let w1 := (((w.setNxt n (some c)).setPrv n it.prev).setNxtP it.prev
          (some n)).setPrv c (some n)
      (w1, { it with current := some n, next := some c })

/-- The four-case relink of `ELIST2_ITERATOR::exchange` (elst2.cpp lines
336-380): doubleton shared list, the two adjacency orientations, and the
general non-adjacent four-pointer relink; `c`/`oc` are the two (set) current
nodes.  Heap writes follow the source's statement order; the returned
iterators carry the source's in-branch `prev`/`next` cache updates. -/
def exchange_relink (w : World) (it other_it : ELIST2_ITERATOR) (c oc : Nat) :
    World × ELIST2_ITERATOR × ELIST2_ITERATOR :=
  if it.next = other_it.current ∨ other_it.next = it.current then
    if it.next = other_it.current ∧ other_it.next = it.current then
      -- doubleton list
      (w, { it with prev := it.current, next := it.current },
        { other_it with prev := other_it.current, next := other_it.current })
    else if other_it.next = it.current then
      -- non-doubleton, adjacent, other before this
      let w1 := ((((((w.setNxtP other_it.prev (some c)).setNxt oc
          it.next).setPrv oc (some c)).setNxt c (some oc)).setPrv c
          other_it.prev).setPrvP it.next (some oc))
      (w1, { it with prev := some c }, { other_it with next := some oc })
    else
      -- non-doubleton, adjacent, this before other
      let w1 := ((((((w.setNxtP it.prev (some oc)).setNxt c
          other_it.next).setPrv c (some oc)).setNxt oc (some c)).setPrv oc
          it.prev).setPrvP other_it.next (some c))
      (w1, { it with next := some c }, { other_it with prev := some oc })
  else
    -- no overlap
    let w1 := ((((((((w.setNxtP it.prev (some oc)).setNxt c
        other_it.next).setPrv c other_it.prev).setPrvP it.next
        (some oc)).setNxtP other_it.prev (some c)).setNxt oc
        it.next).setPrv oc it.prev).setPrvP other_it.next (some c))
    (w1, it, other_it)

/-- The `last`/`cycle_pt` role updates and the final current swap of
`ELIST2_ITERATOR::exchange` (elst2.cpp lines 382-403), applied to the relink
result.  The two `last` checks and the two `cycle_pt` assignments are
sequential exactly as in the source (the second reads the possibly already
updated state of the first). -/
def exchange_roles (r : World × ELIST2_ITERATOR × ELIST2_ITERATOR) :
    World × ELIST2_ITERATOR × ELIST2_ITERATOR :=
  let w1 := r.1
  let it1 := r.2.1
  let ot1 := r.2.2
  let w2 :=
    if w1.lastOf it1.list = it1.current then w1.setLast it1.list ot1.current
    else w1
  let w3 :=
    if w2.lastOf ot1.list = ot1.current then w2.setLast ot1.list it1.current
    else w2
  let cp1 := if it1.current = it1.cycle_pt then ot1.cycle_pt else it1.cycle_pt
  let cp2 := if ot1.current = ot1.cycle_pt then cp1 else ot1.cycle_pt
  (w3, { it1 with cycle_pt := cp1, current := ot1.current },
    { ot1 with cycle_pt := cp2, current := it1.current })

/-- `ELIST2_ITERATOR::exchange` (elst2.cpp): swap the chain positions of the
two cursors' current nodes (possibly across two lists).  No-op if either list
is empty or both cursors reference the same node (pointer equality, so two
unset currents also compare equal); fatal if a remaining `current` is unset.
Otherwise it is the four-case relink followed by the role updates and the
current swap. -/
def ELIST2_ITERATOR.exchange (it : ELIST2_ITERATOR) (w : World)
    (other_it : ELIST2_ITERATOR) :
    Except Err (World × ELIST2_ITERATOR × ELIST2_ITERATOR) :=
  if w.lastOf it.list = none ∨ w.lastOf other_it.list = none ∨
      it.current = other_it.current then
    .ok (w, it, other_it)
  else
    match it.current, other_it.current with
    | some c, some oc => .ok (exchange_roles (exchange_relink w it other_it c oc))
    | _, _ => .error .deletedElementAccess

/-- The range walk of `ELIST2_ITERATOR::extract_sublist` (elst2.cpp lines
445-467): a temporary cursor walks forward from this cursor's position to
`other_it`'s current inclusive, recording whether the source tail or either
cursor's cycle marker lies inside the range and re-targeting the source's
`last` at this cursor's `prev` when the tail is passed.  `itprev`, `cp1`,
`cp2` and `ocur` are this cursor's `prev`, the two cursors' `cycle_pt`s and
`other_it`'s current, all fixed for the duration of the walk. -/
def extract_sublist_loop (w : World) (lid : Nat) (itprev cp1 cp2 ocur : Ptr)
    (temp : ELIST2_ITERATOR) (exl e1 e2 : Bool) :
    Nat → Except Err (World × Bool × Bool × Bool × ELIST2_ITERATOR)
  | 0 => .error .outOfFuel
  | fuel + 1 =>
      if temp.cycled_list w then .error .unterminatedRange
      else
        let w' := if temp.at_last w then w.setLast lid itprev else w
        let exl' := exl || temp.at_last w
        let e1' := e1 || temp.current == cp1
        let e2' := e2 || temp.current == cp2
        let temp' := temp.forward w'
        if temp'.prev = ocur then .ok (w', exl', e1', e2', temp')
        else extract_sublist_loop w' lid itprev cp1 cp2 ocur temp' exl' e1' e2' fuel

/-- `ELIST2_ITERATOR::extract_sublist` (elst2.cpp): remove the inclusive run
from this cursor's current through `other_it`'s current (forward order),
splice it into a standalone circular chain and return its tail.  If the range
is the whole list the source becomes empty and both cursors go unset;
otherwise the boundary references are relinked around the gap.  Fatal when
the cursors are on different lists, the list is empty, a current is unset, or
the walk laps without meeting `other_it` (`BAD_SUBLIST`). -/
def ELIST2_ITERATOR.extract_sublist (it : ELIST2_ITERATOR) (w : World)
    (other_it : ELIST2_ITERATOR) (fuel : Nat) :
    Except Err (World × ELIST2_ITERATOR × ELIST2_ITERATOR × Ptr) :=
  if it.list ≠ other_it.list then .error .crossListRange
  else if w.lastOf it.list = none then .error .emptyListAccess
  else if it.current = none ∨ other_it.current = none then
    .error .deletedElementAccess
  else
    -- temp_it = *this; temp_it.mark_cycle_pt()  (current is known set here)
    let temp := { it with cycle_pt := it.current, started_cycling := false }
    match extract_sublist_loop w it.list it.prev it.cycle_pt other_it.cycle_pt
        other_it.current temp false false false fuel with
    | .error e => .error e
    | .ok (w1, exl, e1, e2, _) =>
        -- circularise sublist
        let w2 := (w1.setNxtP other_it.current it.current).setPrvP it.current
            other_it.current
        let endp := other_it.current
        if it.prev = other_it.current then
          -- sublist = whole list
          let w3 := w2.setLast it.list none
          .ok (w3,
            { it with
              prev := none, current := none, next := none,
              ex_current_was_last := exl, ex_current_was_cycle_pt := e1 },
            { other_it with
              prev := none, current := none, next := none,
              ex_current_was_last := exl, ex_current_was_cycle_pt := e2 },
            endp)
        else
          let w3 := (w2.setNxtP it.prev other_it.next).setPrvP other_it.next
              it.prev
          .ok (w3,
            { it with
              current := none, next := other_it.next,
              ex_current_was_last := exl, ex_current_was_cycle_pt := e1 },
            { other_it with
              current := none, prev := it.prev,
              ex_current_was_last := exl, ex_current_was_cycle_pt := e2 },
            endp)

/-- `ELIST2::assign_to_sublist` (elst2.cpp): adopt an extracted inclusive
range as this (necessarily empty) list's chain, its tail at `end_it`'s
position. -/
def ELIST2.assign_to_sublist (w : World) (lid : Nat)
    (start_it end_it : ELIST2_ITERATOR) (fuel : Nat) :
    Except Err (World × ELIST2_ITERATOR × ELIST2_ITERATOR) :=
  if ¬ w.lastOf lid = none then .error .nonEmptyDestination
  else
    match start_it.extract_sublist w end_it fuel with
    | .error e => .error e
    | .ok (w1, it1, ot1, endp) => .ok (w1.setLast lid endp, it1, ot1)

/-- The counting loop of `ELIST2::length` (elst2.cpp):
`for (mark_cycle_pt; !cycled_list; forward) count++`. -/
def ELIST2.length_loop (w : World) (it : ELIST2_ITERATOR) : Nat → Nat
  | 0 => 0
  | fuel + 1 =>
      if it.cycled_list w then 0
      else ELIST2.length_loop w (it.forward w) fuel + 1

/-- `ELIST2::length` (elst2.cpp): count elements by one full private-cursor
traversal. -/
def ELIST2.length (w : World) (lid : Nat) (fuel : Nat) : Nat :=
  ELIST2.length_loop w ((ELIST2_ITERATOR.set_to_list w lid).mark_cycle_pt) fuel

/-- The extraction loop of `ELIST2::sort` (elst2.cpp):
`for (mark_cycle_pt; !cycled_list; forward) *current++ = extract()`, returning
the extracted node ids in traversal order. -/
def ELIST2.sort_extract (w : World) (it : ELIST2_ITERATOR) :
    Nat → World × ELIST2_ITERATOR × List Nat
  | 0 => (w, it, [])
  | fuel + 1 =>
      if it.cycled_list w then (w, it, [])
      else
        match it.extract w with
        | .error _ => (w, it, [])
        | .ok (w1, it1, c) =>
            let it2 := it1.forward w1
            let r := ELIST2.sort_extract w1 it2 fuel
            (r.1, r.2.1, c :: r.2.2)

/-- Modelled from the spec: the C library `qsort` on the extracted pointer
array (the spec only requires that the array be sorted with the comparator);
modelled as insertion sort under the comparator's non-strict order. -/
def qsort_model (cmp : Nat → Nat → Int) (l : List Nat) : List Nat :=
  l.insertionSort (fun a b => cmp a b ≤ 0)

/-- `ELIST2::sort` (elst2.cpp): extract every node into an array in traversal
order, sort the array with the comparator, and rebuild the list by appending
in sorted order.  (`malloc`/`free` of the pointer array have no observable
effect; `count` bounds how many sorted entries the rebuild loop reads, as in
the source's `for (i = 0; i < count; i++)`.) -/
def ELIST2.sort (w : World) (lid : Nat) (cmp : Nat → Nat → Int) (fuel : Nat) :
    World :=
  let count := ELIST2.length w lid fuel
  let r := ELIST2.sort_extract w
      ((ELIST2_ITERATOR.set_to_list w lid).mark_cycle_pt) fuel
  let sorted := (qsort_model cmp r.2.2).take count
  (sorted.foldl (fun p c => p.2.add_to_end p.1 c) (r.1, r.2.1)).1

/-- The scan loop of `ELIST2::add_sorted` (elst2.cpp): walk from the head
until an element strictly greater than the new link is found (or the cursor
cycles). -/
def ELIST2.add_sorted_scan (w : World) (cmp : Nat → Nat → Int) (new_link : Nat)
    (it : ELIST2_ITERATOR) : Nat → Option ELIST2_ITERATOR
  | 0 => none
  | fuel + 1 =>
      if it.cycled_list w then some it
      else
        match it.current with
        | some link =>
            if 0 < cmp link new_link then some it
            else ELIST2.add_sorted_scan w cmp new_link (it.forward w) fuel
        | none => none

/-- `ELIST2::add_sorted` (elst2.cpp): insert `new_link` into an
already-sorted list.  Fast path: append after `last` when the list is empty
or `cmp last new < 0`; otherwise scan from the head and insert before the
first strictly greater element, or at the end if the scan cycles.  (The
source comparator takes addresses of the two node pointers; per the spec this
double indirection is normalized to comparing the two node ids directly.) -/
def ELIST2.add_sorted (w : World) (lid : Nat) (cmp : Nat → Nat → Int)
    (new_link : Nat) (fuel : Nat) : World :=
  match w.lastOf lid with
  | none =>
      ((w.setNxt new_link (some new_link)).setPrv new_link
        (some new_link)).setLast lid (some new_link)
  | some l =>
      if cmp l new_link < 0 then
        let h := w.nxt l
        ((((w.setNxt new_link h).setPrv new_link (some l)).setNxt l
            (some new_link)).setPrvP h (some new_link)).setLast lid
          (some new_link)
      else
        match ELIST2.add_sorted_scan w cmp new_link
            ((ELIST2_ITERATOR.set_to_list w lid).mark_cycle_pt) fuel with
        | none => w
        | some it =>
            if it.cycled_list w then (it.add_to_end w new_link).1
            else (it.add_before_then_move w new_link).1

/-- The destruction walk of `ELIST2::internal_clear` (elst2.cpp lines 47-51):
follow `next` from the detached head until null, returning the node ids in
zapper-invocation order.  The world it reads is the one in which the circle
has already been broken and the list marked empty. -/
def zap_walk (w : World) : Ptr → Nat → List Nat
  | none, _ => []
  | some _, 0 => []
  | some p, fuel + 1 => p :: zap_walk w (w.nxt p) fuel

/-- `ELIST2::internal_clear` (elst2.cpp): if non-empty, break the circle at
`last`, mark the list empty, then walk the detached chain head-to-tail; the
returned list is the sequence of nodes passed to the zapper, in order. -/
def ELIST2.internal_clear (w : World) (lid : Nat) (fuel : Nat) :
    World × List Nat :=
  match w.lastOf lid with
  | none => (w, [])
  | some l =>
      let first := w.nxt l
      let w1 := (w.setNxt l none).setLast lid none
      (w1, zap_walk w1 first fuel)

/-! ## Abstraction: representing a circular chain by the node list in forward
order, head first -/

/-- The node at cyclic index `i` of `L` (head = index 0). -/
def cyc (L : List Nat) (i : Nat) : Nat := L.getD (i % L.length) 0

/-- `chainOk w L`: the distinct nodes of `L` form a standalone circular
doubly-linked chain, in the forward order given by `L`: every cyclically
consecutive pair (including the wrap from the last node back to the first) is
linked `next`/`prev`-wise. -/
def chainOk (w : World) (L : List Nat) : Prop :=
  L.Nodup ∧ ∀ i < L.length,
    w.nxt (cyc L i) = some (cyc L (i + 1)) ∧ w.prv (cyc L (i + 1)) = some (cyc L i)

/-- `represents w lid L`: list object `lid` holds exactly the circular chain
`L` (forward order, head first), i.e. `last` targets the final element of `L`
and the chain invariant holds; an empty `L` means `last` is unset.  This is
the spec's circularity invariant. -/
def represents (w : World) (lid : Nat) (L : List Nat) : Prop :=
  if L = [] then w.lastOf lid = none
  else w.lastOf lid = some (L.getD (L.length - 1) 0) ∧ chainOk w L

/-- A cursor sits at forward position `i` of the chain `L`: its `current`,
`prev` and `next` caches agree with the chain. -/
def posAt (L : List Nat) (i : Nat) (it : ELIST2_ITERATOR) : Prop :=
  it.current = some (cyc L i) ∧ it.prev = some (cyc L (i + L.length - 1)) ∧
    it.next = some (cyc L (i + 1))

instance (w : World) (L : List Nat) : Decidable (chainOk w L) := by
  unfold chainOk; infer_instance

instance (w : World) (lid : Nat) (L : List Nat) : Decidable (represents w lid L) := by
  unfold represents; infer_instance

instance (L : List Nat) (i : Nat) (it : ELIST2_ITERATOR) : Decidable (posAt L i it) := by
  unfold posAt; infer_instance

/-- The canonical state of a private traversal cursor that has already taken
at least one `forward` step: positioned at forward index `i` of chain `L`
(indices may exceed `L.length`; they count total steps), cycle point `cp`,
mid-cycle flags clear. -/
def marchAt (lid : Nat) (L : List Nat) (i : Nat) (cp : Ptr) : ELIST2_ITERATOR :=
  ⟨lid, some (cyc L i), some (cyc L (i + L.length - 1)), some (cyc L (i + 1)),
    cp, true, false, false⟩

/-- The all-null world: no nodes linked, every list empty. -/
def emptyWorld : World := ⟨fun _ => none, fun _ => none, fun _ => none⟩

/-- Link the nodes of `L` into a circular chain owned by list `lid`
(convenience builder for concrete test worlds). -/
def linkRing (w : World) (lid : Nat) (L : List Nat) : World :=
  match L with
  | [] => w.setLast lid none
  | a :: t =>
      let n := (a :: t).length
      (List.range n).foldl
        (fun acc i =>
          (acc.setNxt (cyc (a :: t) i) (some (cyc (a :: t) (i + 1)))).setPrv
            (cyc (a :: t) (i + 1)) (some (cyc (a :: t) i)))
        (w.setLast lid (some ((a :: t).getD ((a :: t).length - 1) 0)))

/-- Fixed comparator for concrete scenarios: ascending node identifier. -/
def cmpId (a b : Nat) : Int := (a : Int) - b

/-- Concrete world: list object 0 holds the chain `[0, 1, 2]`. -/
def w3 : World := linkRing emptyWorld 0 [0, 1, 2]

/-- Concrete world: list object 0 holds the chain `[0, 1, 2, 3]`. -/
def w4 : World := linkRing emptyWorld 0 [0, 1, 2, 3]

/-- Concrete world: list object 0 holds `[3, 1, 0, 2]` (the spec's scenario A
insertion order D, B, A, C with identifiers D=3, B=1, A=0, C=2). -/
def wA : World := linkRing emptyWorld 0 [3, 1, 0, 2]

/-- Concrete world for the singleton cross-list exchange: list 1 holds `[5]`,
list 2 holds `[6, 7]`. -/
def wSing : World := linkRing (linkRing emptyWorld 1 [5]) 2 [6, 7]

/-- Cursor on `w3`'s list 0 whose current was removed between nodes 0 and 1:
`current` unset, resumable from retained `prev = 0` / `next = 1`. -/
def itGap1 : ELIST2_ITERATOR := ⟨0, none, some 0, some 1, none, false, false, false⟩

/-- Cursor on `w3`'s list 0 unset at a different gap (between 1 and 2). -/
def itGap2 : ELIST2_ITERATOR := ⟨0, none, some 1, some 2, none, false, false, false⟩

/-- Cursor on `w3` at node 2 (the tail), whose own cycle marker is node 2. -/
def itTail3 : ELIST2_ITERATOR := ⟨0, some 2, some 1, some 0, some 2, false, false, false⟩

/-- Cursor on `w3` at node 0 (the head), with cycle marker at node 1. -/
def otHead3 : ELIST2_ITERATOR := ⟨0, some 0, some 2, some 1, some 1, false, false, false⟩

/-- Cursor on `w3` at node 2 (the tail), no cycle marker. -/
def itC4a : ELIST2_ITERATOR := ⟨0, some 2, some 1, some 0, none, false, false, false⟩

/-- Cursor on `w3` at node 0 (the head), no cycle marker. -/
def otC4a : ELIST2_ITERATOR := ⟨0, some 0, some 2, some 1, none, false, false, false⟩

/-- Cursor on `wSing`'s singleton list 1, at node 5. -/
def itSing : ELIST2_ITERATOR := ⟨1, some 5, some 5, some 5, none, false, false, false⟩

/-- Cursor on `wSing`'s list 2, at node 7 (the tail). -/
def otSing : ELIST2_ITERATOR := ⟨2, some 7, some 6, some 6, none, false, false, false⟩

/-- Cursor on `w4` at forward position 1 (node 1). -/
def itPos1 : ELIST2_ITERATOR := ⟨0, some 1, some 0, some 2, none, false, false, false⟩

/-- Cursor on `w4` at forward position 2 (node 2). -/
def otPos2 : ELIST2_ITERATOR := ⟨0, some 2, some 1, some 3, none, false, false, false⟩

/-- Concrete world for the cross-list exchange involution: list 1 holds
`[0, 1]`, list 2 holds `[2, 3, 4]`. -/
def wX : World := linkRing (linkRing emptyWorld 1 [0, 1]) 2 [2, 3, 4]

/-- Cursor on `wX`'s list 1 at forward position 0 (node 0). -/
def itX : ELIST2_ITERATOR := ⟨1, some 0, some 1, some 1, none, false, false, false⟩

/-- Cursor on `wX`'s list 2 at forward position 1 (node 3). -/
def otX : ELIST2_ITERATOR := ⟨2, some 3, some 2, some 4, none, false, false, false⟩

/-- Comparator with ties: compares node identifiers modulo 2 (so 2 and 4
compare equal). -/
def cmpMod (a b : Nat) : Int := ((a % 2 : Nat) : Int) - ((b % 2 : Nat) : Int)

/-- Concrete world for the tie-breaking insertion: list 0 holds `[2, 1]`,
which is sorted under `cmpMod` (2 % 2 = 0 precedes 1 % 2 = 1). -/
def wC5 : World := linkRing emptyWorld 0 [2, 1]

/-! ## Basic lemmas: heap updates and cyclic indexing -/

@[simp]
theorem nxt_setNxt (w : World) (a : Nat) (p : Ptr) (n : Nat) :
    (w.setNxt a p).nxt n = if n = a then p else w.nxt n := rfl

@[simp]
theorem prv_setNxt (w : World) (a : Nat) (p : Ptr) (n : Nat) :
    (w.setNxt a p).prv n = w.prv n := rfl

@[simp]
theorem lastOf_setNxt (w : World) (a : Nat) (p : Ptr) (n : Nat) :
    (w.setNxt a p).lastOf n = w.lastOf n := rfl

@[simp]
theorem nxt_setPrv (w : World) (a : Nat) (p : Ptr) (n : Nat) :
    (w.setPrv a p).nxt n = w.nxt n := rfl

@[simp]
theorem prv_setPrv (w : World) (a : Nat) (p : Ptr) (n : Nat) :
    (w.setPrv a p).prv n = if n = a then p else w.prv n := rfl

@[simp]
theorem lastOf_setPrv (w : World) (a : Nat) (p : Ptr) (n : Nat) :
    (w.setPrv a p).lastOf n = w.lastOf n := rfl

@[simp]
theorem nxt_setLast (w : World) (lid : Nat) (p : Ptr) (n : Nat) :
    (w.setLast lid p).nxt n = w.nxt n := rfl

@[simp]
theorem prv_setLast (w : World) (lid : Nat) (p : Ptr) (n : Nat) :
    (w.setLast lid p).prv n = w.prv n := rfl

@[simp]
theorem lastOf_setLast (w : World) (lid : Nat) (p : Ptr) (n : Nat) :
    (w.setLast lid p).lastOf n = if n = lid then p else w.lastOf n := rfl

@[simp]
theorem setNxtP_some (w : World) (a : Nat) (p : Ptr) :
    w.setNxtP (some a) p = w.setNxt a p := rfl

@[simp]
theorem setNxtP_none (w : World) (p : Ptr) : w.setNxtP none p = w := rfl

@[simp]
theorem setPrvP_some (w : World) (a : Nat) (p : Ptr) :
    w.setPrvP (some a) p = w.setPrv a p := rfl

@[simp]
theorem setPrvP_none (w : World) (p : Ptr) : w.setPrvP none p = w := rfl

@[simp]
theorem lastOf_setNxtP (w : World) (q p : Ptr) (n : Nat) :
    (w.setNxtP q p).lastOf n = w.lastOf n := by
  cases q <;> rfl

@[simp]
theorem lastOf_setPrvP (w : World) (q p : Ptr) (n : Nat) :
    (w.setPrvP q p).lastOf n = w.lastOf n := by
  cases q <;> rfl

@[simp]
theorem prv_setNxtP (w : World) (q p : Ptr) (n : Nat) :
    (w.setNxtP q p).prv n = w.prv n := by
  cases q <;> rfl

@[simp]
theorem nxt_setPrvP (w : World) (q p : Ptr) (n : Nat) :
    (w.setPrvP q p).nxt n = w.nxt n := by
  cases q <;> rfl

theorem cyc_mod (L : List Nat) (i : Nat) : cyc L (i % L.length) = cyc L i := by
  unfold cyc
  rw [Nat.mod_mod_of_dvd i dvd_rfl]

theorem cyc_of_lt {L : List Nat} {i : Nat} (h : i < L.length) :
    cyc L i = L.getD i 0 := by
  unfold cyc
  rw [Nat.mod_eq_of_lt h]

theorem cyc_add_length (L : List Nat) (i : Nat) :
    cyc L (i + L.length) = cyc L i := by
  unfold cyc
  rw [Nat.add_mod_right]

theorem cyc_succ_mod (L : List Nat) (i : Nat) :
    cyc L (i % L.length + 1) = cyc L (i + 1) := by
  unfold cyc
  congr 1
  rw [Nat.add_mod (i % L.length) 1, Nat.mod_mod_of_dvd i dvd_rfl, ← Nat.add_mod]

theorem cyc_mem {L : List Nat} (h : L ≠ []) (i : Nat) : cyc L i ∈ L := by
  have hlen : 0 < L.length := List.length_pos.mpr h
  have hm : i % L.length < L.length := Nat.mod_lt _ hlen
  rw [cyc, List.getD_eq_getElem L 0 hm]
  exact List.getElem_mem _

theorem cyc_inj {L : List Nat} (hnd : L.Nodup) {i j : Nat} (hi : i < L.length)
    (hj : j < L.length) (h : cyc L i = cyc L j) : i = j := by
  rw [cyc_of_lt hi, cyc_of_lt hj, List.getD_eq_getElem L 0 hi,
    List.getD_eq_getElem L 0 hj] at h
  exact List.Nodup.getElem_inj_iff hnd |>.mp h

theorem cyc_congr_mod {L : List Nat} {i j : Nat} (h : i % L.length = j % L.length) :
    cyc L i = cyc L j := by
  unfold cyc
  rw [h]

theorem chainOk_nxt {w : World} {L : List Nat} (hc : chainOk w L) (hL : L ≠ [])
    (i : Nat) : w.nxt (cyc L i) = some (cyc L (i + 1)) := by
  have hlen : 0 < L.length := List.length_pos.mpr hL
  have hm : i % L.length < L.length := Nat.mod_lt _ hlen
  have := (hc.2 (i % L.length) hm).1
  rwa [cyc_mod, cyc_succ_mod] at this

theorem chainOk_prv {w : World} {L : List Nat} (hc : chainOk w L) (hL : L ≠ [])
    (i : Nat) : w.prv (cyc L (i + 1)) = some (cyc L i) := by
  have hlen : 0 < L.length := List.length_pos.mpr hL
  have hm : i % L.length < L.length := Nat.mod_lt _ hlen
  have := (hc.2 (i % L.length) hm).2
  rwa [cyc_mod, cyc_succ_mod] at this

theorem represents_lastOf {w : World} {lid : Nat} {L : List Nat}
    (h : represents w lid L) (hL : L ≠ []) :
    w.lastOf lid = some (cyc L (L.length - 1)) := by
  have hlen : 0 < L.length := List.length_pos.mpr hL
  rw [represents, if_neg hL] at h
  rw [cyc_of_lt (by omega : L.length - 1 < L.length)]
  exact h.1

theorem represents_chainOk {w : World} {lid : Nat} {L : List Nat}
    (h : represents w lid L) (hL : L ≠ []) : chainOk w L := by
  rw [represents, if_neg hL] at h
  exact h.2

theorem represents_nil {w : World} {lid : Nat} (h : represents w lid []) :
    w.lastOf lid = none := by
  rwa [represents, if_pos rfl] at h

theorem getD_mem {L : List Nat} {i : Nat} (h : i < L.length) : L.getD i 0 ∈ L := by
  rw [List.getD_eq_getElem L 0 h]
  exact List.getElem_mem h

theorem getD_ne {L : List Nat} {i n : Nat} (h : i < L.length) (hn : n ∉ L) :
    ¬ L.getD i 0 = n := fun he => hn (he ▸ getD_mem h)

theorem getD_inj {L : List Nat} (hnd : L.Nodup) {i j : Nat} (hi : i < L.length)
    (hj : j < L.length) (h : L.getD i 0 = L.getD j 0) : i = j := by
  rw [List.getD_eq_getElem L 0 hi, List.getD_eq_getElem L 0 hj] at h
  exact hnd.getElem_inj_iff.mp h

/-! ## Traversal lemmas: cursors marching along a represented chain -/

theorem cycled_list_iff (it : ELIST2_ITERATOR) (w : World) :
    it.cycled_list w = true ↔
      (w.lastOf it.list = none ∨
        (it.started_cycling = true ∧ it.current = it.cycle_pt)) := by
  simp [ELIST2_ITERATOR.cycled_list]

theorem set_to_list_spec {w : World} {lid : Nat} {L : List Nat}
    (hrep : represents w lid L) (hL : L ≠ []) :
    ELIST2_ITERATOR.set_to_list w lid =
      ⟨lid, some (cyc L 0), some (cyc L (L.length - 1)), some (cyc L 1), none,
        false, false, false⟩ := by
  have hlen : 0 < L.length := List.length_pos.mpr hL
  have hc := represents_chainOk hrep hL
  have hlast := represents_lastOf hrep hL
  have h0 : w.nxt (cyc L (L.length - 1)) = some (cyc L 0) := by
    have := chainOk_nxt hc hL (L.length - 1)
    rwa [(by omega : L.length - 1 + 1 = 0 + L.length), cyc_add_length] at this
  have h1 : w.nxt (cyc L 0) = some (cyc L 1) := chainOk_nxt hc hL 0
  rw [ELIST2_ITERATOR.set_to_list, hlast]
  simp [h0, h1]

theorem forward_march {w : World} {lid : Nat} {L : List Nat} (hc : chainOk w L)
    (hL : L ≠ []) (hne : ¬ w.lastOf lid = none) (i : Nat) (cp : Ptr)
    (b : Bool) :
    ({ marchAt lid L i cp with started_cycling := b }).forward w =
      marchAt lid L (i + 1) cp := by
  have hlen : 0 < L.length := List.length_pos.mpr hL
  have h1 : w.nxt (cyc L i) = some (cyc L (i + 1)) := chainOk_nxt hc hL i
  have h2 : w.nxt (cyc L (i + 1)) = some (cyc L (i + 2)) := chainOk_nxt hc hL (i + 1)
  have hprev : cyc L i = cyc L (i + 1 + L.length - 1) := by
    rw [(by omega : i + 1 + L.length - 1 = i + L.length), cyc_add_length]
  have hrw : ({ marchAt lid L i cp with started_cycling := b } : ELIST2_ITERATOR) =
      ⟨lid, some (cyc L i), some (cyc L (i + L.length - 1)), some (cyc L (i + 1)),
        cp, b, false, false⟩ := rfl
  rw [hrw, ELIST2_ITERATOR.forward]
  simp [marchAt, hne, h1, h2, ELIST2_ITERATOR.mk.injEq, ← hprev, cyc_add_length]

theorem marchAt_started (lid : Nat) (L : List Nat) (i : Nat) (cp : Ptr) :
    { marchAt lid L i cp with started_cycling := true } = marchAt lid L i cp :=
  rfl

theorem length_loop_march {w : World} {lid : Nat} {L : List Nat}
    (hc : chainOk w L) (hL : L ≠ []) (hne : ¬ w.lastOf lid = none) :
    ∀ m i fuel, i + m = L.length → 1 ≤ i → m ≤ fuel →
      ELIST2.length_loop w (marchAt lid L i (some (cyc L 0))) fuel = m := by
  have hlen : 0 < L.length := List.length_pos.mpr hL
  intro m
  induction m with
  | zero =>
      intro i fuel hi _ _
      have hcyc : (marchAt lid L i (some (cyc L 0))).cycled_list w = true := by
        rw [cycled_list_iff]
        refine Or.inr ⟨rfl, ?_⟩
        show some (cyc L i) = some (cyc L 0)
        rw [(by omega : i = 0 + L.length), cyc_add_length]
      cases fuel with
      | zero => rfl
      | succ f => rw [ELIST2.length_loop, if_pos hcyc]
  | succ k ih =>
      intro i fuel hi h1 hfuel
      have hik : i < L.length := by omega
      have hcyc : ¬ (marchAt lid L i (some (cyc L 0))).cycled_list w = true := by
        rw [cycled_list_iff]
        push_neg
        refine ⟨hne, fun _ h => ?_⟩
        have : cyc L i = cyc L 0 := by
          simpa [marchAt] using h
        have := cyc_inj hc.1 hik hlen this
        omega
      cases fuel with
      | zero => omega
      | succ f =>
          rw [ELIST2.length_loop, if_neg hcyc, ← marchAt_started lid L i,
            forward_march hc hL hne, ih (i + 1) f (by omega) (by omega) (by omega)]

theorem length_spec {w : World} {lid : Nat} {L : List Nat}
    (hrep : represents w lid L) (fuel : Nat) (hfuel : L.length ≤ fuel) :
    ELIST2.length w lid fuel = L.length := by
  by_cases hL : L = []
  · subst hL
    have hnone := represents_nil hrep
    rw [ELIST2.length, ELIST2_ITERATOR.set_to_list, hnone]
    have hcyc : (ELIST2_ITERATOR.mark_cycle_pt
        ⟨lid, none, none, none, none, false, false, false⟩).cycled_list w = true := by
      rw [cycled_list_iff]
      exact Or.inl hnone
    cases fuel with
    | zero => rfl
    | succ f => rw [ELIST2.length_loop, if_pos hcyc]; rfl
  · have hlen : 0 < L.length := List.length_pos.mpr hL
    have hc := represents_chainOk hrep hL
    have hne : ¬ w.lastOf lid = none := by
      rw [represents_lastOf hrep hL]
      simp
    rw [ELIST2.length, set_to_list_spec hrep hL]
    have hmark : ELIST2_ITERATOR.mark_cycle_pt
        ⟨lid, some (cyc L 0), some (cyc L (L.length - 1)), some (cyc L 1), none,
          false, false, false⟩ =
        { marchAt lid L 0 (some (cyc L 0)) with started_cycling := false } := by
      rw [ELIST2_ITERATOR.mark_cycle_pt]
      simp only [marchAt]
      rw [ELIST2_ITERATOR.mk.injEq]
      refine ⟨rfl, rfl, congrArg some (congrArg (cyc L) ?_), rfl, rfl, rfl, rfl, rfl⟩
      omega
    rw [hmark]
    obtain ⟨f, rfl⟩ : ∃ f, fuel = f + 1 := ⟨fuel - 1, by omega⟩
    have hcyc : ¬ ({ marchAt lid L 0 (some (cyc L 0)) with
        started_cycling := false } : ELIST2_ITERATOR).cycled_list w = true := by
      rw [cycled_list_iff]
      push_neg
      exact ⟨hne, fun h _ => by simp at h⟩
    rw [ELIST2.length_loop, if_neg hcyc, forward_march hc hL hne]
    simp only [Nat.zero_add]
    rw [length_loop_march hc hL hne (L.length - 1) 1 f (by omega) (by omega)
        (by omega)]
    omega

/-! ## Claim C9: sorting an empty list -/

/-- `sort` on an empty list returns the world unchanged. -/
theorem sort_on_empty {w : World} {lid : Nat} (h : w.lastOf lid = none)
    (cmp : Nat → Nat → Int) (fuel : Nat) : ELIST2.sort w lid cmp fuel = w := by
  have hcur : ELIST2_ITERATOR.set_to_list w lid =
      ⟨lid, none, none, none, none, false, false, false⟩ := by
    rw [ELIST2_ITERATOR.set_to_list, h]
  have hmark : (ELIST2_ITERATOR.set_to_list w lid).mark_cycle_pt =
      ⟨lid, none, none, none, none, false, false, true⟩ := by
    rw [hcur]; rfl
  have hcyc : ((ELIST2_ITERATOR.set_to_list w lid).mark_cycle_pt).cycled_list w
      = true := by
    rw [hmark, cycled_list_iff]
    exact Or.inl h
  have hex : ELIST2.sort_extract w
      ((ELIST2_ITERATOR.set_to_list w lid).mark_cycle_pt) fuel =
      (w, (ELIST2_ITERATOR.set_to_list w lid).mark_cycle_pt, []) := by
    cases fuel with
    | zero => rfl
    | succ f => rw [ELIST2.sort_extract, if_pos hcyc]
  rw [ELIST2.sort, hex]
  simp [qsort_model, List.take_nil]

/-- Claim C9: calling `sort` on an empty list is a no-op — the list (indeed
the whole world) is unchanged, so it remains empty, the comparator is never
consulted (the result does not depend on `cmp`), and no error is raised. -/
theorem claim_C9_sort_empty {w : World} {lid : Nat} (h : w.lastOf lid = none)
    (cmp : Nat → Nat → Int) (fuel : Nat) : ELIST2.sort w lid cmp fuel = w :=
  sort_on_empty h cmp fuel

/-- Witness for C9 at a concrete input: the empty world, list 0, the
identifier comparator. -/
theorem claim_C9_sort_empty_witness :
    emptyWorld.lastOf 0 = none ∧ ELIST2.sort emptyWorld 0 cmpId 5 = emptyWorld :=
  ⟨rfl, claim_C9_sort_empty rfl cmpId 5⟩

/-! ## Claim C10: data_relative on a cursor whose current is unset -/

/-- Claim C10: on a non-empty list, `data_relative` never raises the
deleted-element error for a cursor whose `current` is unset: a non-negative
offset counts from the retained `prev` (so offset 0 returns the predecessor
of the removed position) and a negative offset counts from the retained
`next`. -/
theorem claim_C10_data_relative_unset {w : World} {it : ELIST2_ITERATOR}
    (hcur : it.current = none) (hne : ¬ w.lastOf it.list = none) :
    (∀ off : Int, 0 ≤ off →
      it.data_relative w off = .ok (nth_next w it.prev off.toNat)) ∧
    (∀ off : Int, off < 0 →
      it.data_relative w off = .ok (nth_prev w it.next off.natAbs)) ∧
    it.data_relative w 0 = .ok it.prev := by
  refine ⟨fun off hoff => ?_, fun off hoff => ?_, ?_⟩
  · rw [ELIST2_ITERATOR.data_relative, if_neg hne, if_neg (by omega : ¬ off < 0),
      hcur]
  · rw [ELIST2_ITERATOR.data_relative, if_neg hne, if_pos hoff, hcur]
  · rw [ELIST2_ITERATOR.data_relative, if_neg hne,
      if_neg (by omega : ¬ (0 : Int) < 0), hcur]
    rfl

/-- Witness for C10: the unset cursor `itGap1` on the non-empty `w3`;
`data_relative 0` yields the retained predecessor, node 0. -/
theorem claim_C10_data_relative_unset_witness :
    itGap1.current = none ∧ ¬ w3.lastOf itGap1.list = none ∧
    itGap1.data_relative w3 0 = .ok (some 0) :=
  ⟨rfl, by decide,
    (@claim_C10_data_relative_unset w3 itGap1 rfl (by decide)).2.2⟩

/-! ## Claim C8: exchange preconditions (corrected) -/

/-- Claim C8 counterexample: two cursors of a non-empty list whose currents
are BOTH unset (two distinct removal gaps).  The claim as stated demands the
fatal deleted-element error whenever either current is unset while the
cursors do not reference the same node (here they reference no node at all,
and stand at different gaps); but the source compares the raw `current`
pointers, null equals null, and exchange returns as a silent no-op. -/
theorem claim_C8_counterexample :
    itGap1.current = none ∧ itGap2.current = none ∧ itGap1.prev ≠ itGap2.prev ∧
    ¬ w3.lastOf 0 = none ∧
    itGap1.exchange w3 itGap2 = .ok (w3, itGap1, itGap2) := by
  refine ⟨rfl, rfl, by decide, by decide, ?_⟩
  rfl

/-- Claim C8 (amended): exchange is a no-op whenever either cursor's list is
empty or the two `current` pointers are equal — which covers both cursors
referencing the same node and also both currents being unset; it fails
fatally with the deleted-element error exactly when both lists are non-empty
and exactly one of the two currents is unset.  (On non-empty lists with set,
distinct currents it proceeds to the relink.) -/
theorem claim_C8_amended {w : World} {it ot : ELIST2_ITERATOR} :
    ((w.lastOf it.list = none ∨ w.lastOf ot.list = none ∨
        it.current = ot.current) → it.exchange w ot = .ok (w, it, ot)) ∧
    (¬ w.lastOf it.list = none → ¬ w.lastOf ot.list = none →
      ¬ it.current = ot.current → (it.current = none ∨ ot.current = none) →
      it.exchange w ot = .error .deletedElementAccess) := by
  constructor
  · intro hpre
    rw [ELIST2_ITERATOR.exchange, if_pos hpre]
  · intro h1 h2 hne hun
    rw [ELIST2_ITERATOR.exchange,
      if_neg (by
        push_neg
        exact ⟨h1, h2, hne⟩)]
    rcases hi : it.current with _ | c
    · cases ho : ot.current <;> rfl
    · rcases hun with hu | hu
      · rw [hi] at hu
        exact Option.noConfusion hu
      · rw [hu]

/-- Witness for the amended C8 at concrete inputs: `itGap1` (unset) against
`otHead3` (set, node 0) on the non-empty `w3` triggers the fatal error. -/
theorem claim_C8_amended_witness :
    (¬ w3.lastOf itGap1.list = none) ∧ (¬ w3.lastOf otHead3.list = none) ∧
    (¬ itGap1.current = otHead3.current) ∧
    (itGap1.current = none ∨ otHead3.current = none) ∧
    itGap1.exchange w3 otHead3 = .error .deletedElementAccess :=
  ⟨by decide, by decide, by decide, Or.inl rfl,
    (@claim_C8_amended w3 itGap1 otHead3).2 (by decide)
      (by decide) (by decide) (Or.inl rfl)⟩

/-! ## Surgery lemmas: appending at the tail -/

theorem cyc_append_lt {L B : List Nat} {i : Nat} (hi : i < L.length) :
    cyc (L ++ B) i = L.getD i 0 := by
  have h2 : i < (L ++ B).length := by
    rw [List.length_append]
    omega
  rw [cyc_of_lt h2, List.getD_append _ _ _ _ hi]

theorem nodup_append_singleton {L : List Nat} {n : Nat} (hnd : L.Nodup)
    (hn : n ∉ L) : (L ++ [n]).Nodup := by
  rw [List.nodup_append]
  exact ⟨hnd, List.nodup_singleton n, by simpa using hn⟩

/-- The world produced by `add_to_end` (appending `n` after the tail)
represents `L ++ [n]`; the cursor stays on the same list. -/
theorem add_to_end_represents {w : World} {lid : Nat} {L : List Nat}
    {it : ELIST2_ITERATOR} {n : Nat} (hrep : represents w lid L) (hn : n ∉ L)
    (hl : it.list = lid) :
    represents (it.add_to_end w n).1 lid (L ++ [n]) ∧
    (it.add_to_end w n).2.list = lid := by
  by_cases hL : L = []
  · subst hL
    have h0 := represents_nil hrep
    rw [ELIST2_ITERATOR.add_to_end, hl, h0]
    refine ⟨?_, rfl⟩
    rw [represents, if_neg (by simp)]
    refine ⟨by simp [cyc], List.nodup_singleton n, ?_⟩
    intro i hi
    have hi0 : i = 0 := by simpa using hi
    subst hi0
    refine ⟨?_, ?_⟩ <;> simp [cyc]
  · have hlen : 0 < L.length := List.length_pos.mpr hL
    have hnd : L.Nodup := (represents_chainOk hrep hL).1
    have hc := represents_chainOk hrep hL
    have hlast := represents_lastOf hrep hL
    have hlast' : w.lastOf lid = some (L.getD (L.length - 1) 0) := by
      rwa [cyc_of_lt (by omega)] at hlast
    have hhd : w.nxt (L.getD (L.length - 1) 0) = some (L.getD 0 0) := by
      have := chainOk_nxt hc hL (L.length - 1)
      rwa [cyc_of_lt (by omega), (by omega : L.length - 1 + 1 = L.length),
        (by
          show cyc L L.length = L.getD 0 0
          unfold cyc
          rw [Nat.mod_self] : cyc L L.length = L.getD 0 0)] at this
    rw [ELIST2_ITERATOR.add_to_end, hl, hlast']
    dsimp only
    rw [hhd]
    refine ⟨?_, rfl⟩
    have hne2 : ¬ (L ++ [n] : List Nat) = [] := by simp
    rw [represents, if_neg hne2]
    have hlapp : (L ++ [n]).length = L.length + 1 := by simp
    have hcycn : cyc (L ++ [n]) L.length = n := by
      rw [cyc_of_lt (by omega), List.getD_append_right _ _ _ _ (le_refl _),
        Nat.sub_self]
      rfl
    have hcychd : cyc (L ++ [n]) (L.length + 1) = L.getD 0 0 := by
      unfold cyc
      rw [hlapp, Nat.mod_self, List.getD_append _ _ _ _ hlen]
    have hndn : ¬ n = L.getD (L.length - 1) 0 :=
      fun he => (getD_ne (by omega) hn) he.symm
    have hnhd : ¬ n = L.getD 0 0 := fun he => (getD_ne (by omega) hn) he.symm
    refine ⟨?_, nodup_append_singleton hnd hn, ?_⟩
    · rw [hlapp, Nat.add_sub_cancel]
      simp only [lastOf_setLast, if_pos rfl]
      rw [List.getD_append_right _ _ _ _ (le_refl _), Nat.sub_self]
      rfl
    · intro i hi
      rw [hlapp] at hi
      rcases (by omega : i + 1 < L.length ∨ i = L.length - 1 ∨ i = L.length)
        with hA | hB | hC
      · rw [cyc_append_lt (by omega), cyc_append_lt (by omega)]
        have hx1 : ¬ L.getD i 0 = L.getD (L.length - 1) 0 :=
          fun he => by have := getD_inj hnd (by omega) (by omega) he; omega
        have hx2 : ¬ L.getD i 0 = n := getD_ne (by omega) hn
        have hy1 : ¬ L.getD (i + 1) 0 = L.getD 0 0 :=
          fun he => by have := getD_inj hnd (by omega) (by omega) he; omega
        have hy2 : ¬ L.getD (i + 1) 0 = n := getD_ne (by omega) hn
        have h1 := (hc.2 i (by omega)).1
        have h2 := (hc.2 i (by omega)).2
        rw [cyc_of_lt (by omega : i < L.length),
          cyc_of_lt (by omega : i + 1 < L.length)] at h1 h2
        constructor
        · simp only [nxt_setLast, nxt_setPrvP, setPrvP_some, nxt_setPrv,
            nxt_setNxt]
          rw [if_neg hx1, if_neg hx2]
          exact h1
        · simp only [prv_setLast, setPrvP_some, prv_setPrv, prv_setNxt]
          rw [if_neg hy1, if_neg hy2]
          exact h2
      · have hB' : i = L.length - 1 := hB
        subst hB'
        rw [cyc_append_lt (by omega), (by omega : L.length - 1 + 1 = L.length),
          hcycn]
        constructor
        · simp only [nxt_setLast, nxt_setPrvP, setPrvP_some, nxt_setPrv,
            nxt_setNxt]
          simp
        · simp only [prv_setLast, setPrvP_some, prv_setPrv, prv_setNxt]
          rw [List.getD_eq_getElem?_getD] at hnhd
          simp [hnhd]
      · subst hC
        rw [hcycn, hcychd]
        constructor
        · simp only [nxt_setLast, nxt_setPrvP, setPrvP_some, nxt_setPrv,
            nxt_setNxt]
          rw [List.getD_eq_getElem?_getD] at hndn
          simp [hndn]
        · simp only [prv_setLast, setPrvP_some, prv_setPrv, prv_setNxt]
          simp

/-- Folding `add_to_end` over fresh nodes appends them all. -/
theorem fold_add_to_end_represents {lid : Nat} :
    ∀ (ns : List Nat) (w : World) (it : ELIST2_ITERATOR) (L : List Nat),
    represents w lid L → it.list = lid → (L ++ ns).Nodup →
    represents (ns.foldl (fun p c => p.2.add_to_end p.1 c) (w, it)).1 lid
      (L ++ ns) ∧
    (ns.foldl (fun p c => p.2.add_to_end p.1 c) (w, it)).2.list = lid := by
  intro ns
  induction ns with
  | nil =>
      intro w it L hrep hl _
      simpa using ⟨hrep, hl⟩
  | cons a t ih =>
      intro w it L hrep hl hnd
      have hna : a ∉ L := by
        intro hmem
        exact (List.nodup_append.mp hnd).2.2 hmem (by simp)
      obtain ⟨h1, h2⟩ := add_to_end_represents hrep hna hl
      have hnd2 : ((L ++ [a]) ++ t).Nodup := by
        rw [← List.append_cons]
        exact hnd
      have := ih (it.add_to_end w a).1 (it.add_to_end w a).2 (L ++ [a]) h1 h2 hnd2
      rw [← List.append_cons] at this
      exact this

/-! ## Surgery lemmas: extracting the head element -/

/-- `extract` on a cursor at the head of a represented chain removes the head;
the world then represents the tail, and the cursor goes unset retaining its
`prev`/`next`. -/
theorem extract_head_represents {w : World} {lid : Nat} {L : List Nat}
    {it : ELIST2_ITERATOR} (hrep : represents w lid L) (hL : L ≠ [])
    (hl : it.list = lid) (hcur : it.current = some (L.getD 0 0))
    (hprev : it.prev = some (L.getD (L.length - 1) 0))
    (hnext : it.next = some (cyc L 1)) :
    it.extract w = .ok (((((if it.prev = it.current then w.setLast it.list none
        else
          let wa := (w.setNxtP it.prev it.next).setPrvP it.next it.prev
          if w.lastOf it.list = some (L.getD 0 0) then wa.setLast it.list it.prev
          else wa)).setNxt (L.getD 0 0) none).setPrv (L.getD 0 0) none),
      { it with
        current := none,
        ex_current_was_last := w.lastOf it.list = some (L.getD 0 0),
        ex_current_was_cycle_pt := it.current == it.cycle_pt }, L.getD 0 0) ∧
    represents (((((if it.prev = it.current then w.setLast it.list none
        else
          let wa := (w.setNxtP it.prev it.next).setPrvP it.next it.prev
          if w.lastOf it.list = some (L.getD 0 0) then wa.setLast it.list it.prev
          else wa)).setNxt (L.getD 0 0) none).setPrv (L.getD 0 0) none)) lid
      (L.drop 1) := by
  have hlen : 0 < L.length := List.length_pos.mpr hL
  have hnd : L.Nodup := (represents_chainOk hrep hL).1
  have hc := represents_chainOk hrep hL
  have hlast : w.lastOf lid = some (L.getD (L.length - 1) 0) := by
    have := represents_lastOf hrep hL
    rwa [cyc_of_lt (by omega)] at this
  constructor
  · rw [ELIST2_ITERATOR.extract, hcur]
  · by_cases h1 : L.length = 1
    · -- singleton: the branch `prev = current` fires and the list goes empty
      have hpc : it.prev = it.current := by
        rw [hcur, hprev, h1]
      rw [if_pos hpc]
      have hdrop : L.drop 1 = [] := by
        rw [List.drop_eq_nil_iff]
        omega
      rw [hdrop, represents, if_pos rfl]
      simp [hl]
    · -- at least two elements
      have hlen2 : 2 ≤ L.length := by omega
      have hpc : ¬ it.prev = it.current := by
        rw [hcur, hprev]
        intro he
        have := getD_inj hnd (by omega) (by omega) (Option.some.injEq _ _ ▸ he)
        omega
      rw [if_neg hpc]
      have hwl : ¬ w.lastOf it.list = some (L.getD 0 0) := by
        rw [hl, hlast]
        intro he
        have := getD_inj hnd (by omega) (by omega) (Option.some.injEq _ _ ▸ he)
        omega
      rw [if_neg hwl]
      rw [hprev, hnext, cyc_of_lt (by omega : 1 < L.length)]
      have hdne : ¬ L.drop 1 = [] := by
        rw [List.drop_eq_nil_iff]
        omega
      have hdlen : (L.drop 1).length = L.length - 1 := by simp
      have hdget : ∀ j, j < L.length - 1 → (L.drop 1).getD j 0 = L.getD (1 + j) 0 := by
        intro j hj
        have hjl : j < (L.drop 1).length := by omega
        have hjl2 : 1 + j < L.length := by omega
        rw [List.getD_eq_getElem _ _ hjl, List.getD_eq_getElem _ _ hjl2,
          List.getElem_drop]
      rw [represents, if_neg hdne]
      have hndd : (L.drop 1).Nodup := hnd.sublist (List.drop_sublist 1 L)
      refine ⟨?_, hndd, ?_⟩
      · simp only [lastOf_setPrv, lastOf_setNxt, lastOf_setPrvP, lastOf_setNxtP,
          hl, hlast]
        rw [hdlen, hdget (L.length - 1 - 1) (by omega)]
        congr 2
        omega
      · intro i hi
        rw [hdlen] at hi
        have e0 : ¬ L.getD 0 0 = L.getD (L.length - 1) 0 := by
          intro he
          have := getD_inj hnd (by omega) (by omega) he
          omega
        rcases (by omega : i + 1 < L.length - 1 ∨ i = L.length - 1 - 1) with hA | hB
        · rw [cyc_of_lt (by omega), cyc_of_lt (by omega), hdget i (by omega),
            hdget (i + 1) (by omega)]
          have hx1 : ¬ L.getD (1 + i) 0 = L.getD 0 0 := by
            intro he
            have := getD_inj hnd (by omega) (by omega) he
            omega
          have hx2 : ¬ L.getD (1 + i) 0 = L.getD (L.length - 1) 0 := by
            intro he
            have := getD_inj hnd (by omega) (by omega) he
            omega
          have hy1 : ¬ L.getD (1 + (i + 1)) 0 = L.getD 0 0 := by
            intro he
            have := getD_inj hnd (by omega) (by omega) he
            omega
          have hy2 : ¬ L.getD (1 + (i + 1)) 0 = L.getD 1 0 := by
            intro he
            have := getD_inj hnd (by omega) (by omega) he
            omega
          have h1' := (hc.2 (1 + i) (by omega)).1
          have h2' := (hc.2 (1 + i) (by omega)).2
          rw [cyc_of_lt (by omega : 1 + i < L.length),
            cyc_of_lt (by omega : 1 + i + 1 < L.length)] at h1' h2'
          constructor
          · simp only [nxt_setPrv, nxt_setNxt, nxt_setPrvP, setNxtP_some,
              setPrvP_some]
            rw [if_neg hx1, if_neg hx2]
            rw [(by omega : 1 + (i + 1) = 1 + i + 1)] at *
            exact h1'
          · simp only [prv_setPrv, prv_setNxt, setPrvP_some, prv_setNxtP]
            rw [if_neg hy1, if_neg hy2]
            rw [(by omega : 1 + (i + 1) = 1 + i + 1)] at *
            exact h2'
        · -- wrap pair: (last, new head)
          have hcy1 : cyc (L.drop 1) i = L.getD (L.length - 1) 0 := by
            rw [cyc_of_lt (by omega), hdget i (by omega)]
            congr 1
            omega
          have hcy2 : cyc (L.drop 1) (i + 1) = L.getD 1 0 := by
            have hiv : i + 1 = (L.drop 1).length := by
              rw [hdlen]
              omega
            unfold cyc
            rw [hiv, Nat.mod_self, hdget 0 (by omega)]
          rw [hcy1, hcy2]
          constructor
          · simp only [nxt_setPrv, nxt_setNxt, nxt_setPrvP, setNxtP_some,
              setPrvP_some]
            rw [if_neg (fun he => e0 he.symm)]
            simp
          · simp only [prv_setPrv, prv_setNxt, setPrvP_some, prv_setNxtP]
            have hz1 : ¬ L.getD 1 0 = L.getD 0 0 := by
              intro he
              have := getD_inj hnd (by omega) (by omega) he
              omega
            rw [if_neg hz1]
            simp

/-- Existential packaging of `extract_head_represents` with the resulting
iterator written as an explicit record. -/
theorem extract_head_ex {w : World} {lid : Nat} {L : List Nat}
    {it : ELIST2_ITERATOR} (hrep : represents w lid L) (hL : L ≠ [])
    (hl : it.list = lid) (hcur : it.current = some (L.getD 0 0))
    (hprev : it.prev = some (L.getD (L.length - 1) 0))
    (hnext : it.next = some (cyc L 1)) :
    ∃ w1, it.extract w = .ok (w1,
      ⟨it.list, none, it.prev, it.next, it.cycle_pt, it.started_cycling,
        decide (w.lastOf it.list = some (L.getD 0 0)),
        it.current == it.cycle_pt⟩, L.getD 0 0) ∧
      represents w1 lid (L.drop 1) := by
  obtain ⟨h1, h2⟩ := extract_head_represents hrep hL hl hcur hprev hnext
  exact ⟨_, h1, h2⟩

/-- The extraction loop of `sort` empties the list, collecting the nodes in
forward order; it needs only as much fuel as there are nodes. -/
theorem sort_extract_spec {lid : Nat} :
    ∀ (M : List Nat) (w : World) (it : ELIST2_ITERATOR) (fuel : Nat),
    represents w lid M → M ≠ [] →
    it.list = lid → it.current = some (M.getD 0 0) →
    it.prev = some (M.getD (M.length - 1) 0) → it.next = some (cyc M 1) →
    it.cycle_pt = some (M.getD 0 0) → it.started_cycling = false →
    M.length ≤ fuel →
    (ELIST2.sort_extract w it fuel).2.2 = M ∧
    (ELIST2.sort_extract w it fuel).1.lastOf lid = none ∧
    (ELIST2.sort_extract w it fuel).2.1.list = lid := by
  intro M
  induction M with
  | nil => exact fun _ _ _ _ h => absurd rfl h
  | cons a t ih =>
      intro w it fuel hrep hne hl hcur hprev hnext hcp hst hfuel
      have hlen : 0 < (a :: t).length := by simp
      obtain ⟨f, rfl⟩ : ∃ f, fuel = f + 1 := ⟨fuel - 1, by omega⟩
      have hlast : w.lastOf lid = some ((a :: t).getD ((a :: t).length - 1) 0) := by
        have := represents_lastOf hrep hne
        rwa [cyc_of_lt (by omega)] at this
      have hnotc : ¬ it.cycled_list w = true := by
        rw [cycled_list_iff]
        push_neg
        refine ⟨by rw [hl, hlast]; simp, fun hs => absurd (hst ▸ hs) (by simp)⟩
      rw [ELIST2.sort_extract, if_neg hnotc]
      obtain ⟨w1, hex, hrep'⟩ := extract_head_ex hrep hne hl hcur hprev hnext
      rw [hex]
      dsimp only
      have hcpb : (it.current == it.cycle_pt) = true := by
        rw [hcur, hcp]
        simp
      by_cases ht : t = []
      · -- last element: after extraction the list is empty and the loop stops
        subst ht
        have h0 : w1.lastOf lid = none := represents_nil hrep'
        have hfwd : (⟨it.list, none, it.prev, it.next, it.cycle_pt,
            it.started_cycling, decide (w.lastOf it.list = some ([a].getD 0 0)),
            it.current == it.cycle_pt⟩ : ELIST2_ITERATOR).forward w1 =
            ⟨it.list, none, it.prev, it.next, it.cycle_pt, it.started_cycling,
              decide (w.lastOf it.list = some ([a].getD 0 0)),
              it.current == it.cycle_pt⟩ := by
          rw [ELIST2_ITERATOR.forward, if_pos (by rw [hl]; exact h0)]
        rw [hfwd]
        have hstop : ∀ g, ELIST2.sort_extract w1
            (⟨it.list, none, it.prev, it.next, it.cycle_pt, it.started_cycling,
              decide (w.lastOf it.list = some ([a].getD 0 0)),
              it.current == it.cycle_pt⟩ : ELIST2_ITERATOR) g =
            (w1, ⟨it.list, none, it.prev, it.next, it.cycle_pt,
              it.started_cycling,
              decide (w.lastOf it.list = some ([a].getD 0 0)),
              it.current == it.cycle_pt⟩, []) := by
          intro g
          cases g with
          | zero => rfl
          | succ g' =>
              rw [ELIST2.sort_extract, if_pos ?_]
              rw [cycled_list_iff]
              exact Or.inl (by rw [hl]; exact h0)
        rw [hstop]
        exact ⟨rfl, h0, hl⟩
      · -- more elements remain: the cursor resynchronizes onto the new head
        have htlen : 0 < t.length := List.length_pos.mpr ht
        have ht0 : (a :: t).getD 1 0 = t.getD 0 0 := rfl
        have hnext' : it.next = some (t.getD 0 0) := by
          rw [hnext, cyc_of_lt (by simp; omega : 1 < (a :: t).length), ht0]
        have hne1 : ¬ w1.lastOf lid = none := by
          rw [represents_lastOf hrep' (by simpa using ht)]
          simp
        have hchain := represents_chainOk hrep' (by simpa using ht)
        have hnx : w1.nxt (t.getD 0 0) = some (cyc t 1) := by
          have h00 : (List.drop 1 (a :: t)) = t := rfl
          rw [h00] at hchain
          have := chainOk_nxt hchain ht 0
          rwa [cyc_of_lt (by omega)] at this
        have hfwd : (⟨it.list, none, it.prev, it.next, it.cycle_pt,
            it.started_cycling,
            decide (w.lastOf it.list = some ((a :: t).getD 0 0)),
            it.current == it.cycle_pt⟩ : ELIST2_ITERATOR).forward w1 =
            ⟨it.list, some (t.getD 0 0), it.prev, some (cyc t 1),
              some (t.getD 0 0), it.started_cycling,
              decide (w.lastOf it.list = some ((a :: t).getD 0 0)), true⟩ := by
          rw [List.getD_eq_getElem?_getD] at hnx
          rw [ELIST2_ITERATOR.forward, if_neg (by rw [hl]; exact hne1)]
          simp [hcpb, hnext', hnx, ELIST2_ITERATOR.mk.injEq]
        rw [hfwd]
        have hrep2 : represents w1 lid t := by
          have h00 : (List.drop 1 (a :: t)) = t := rfl
          rwa [h00] at hrep'
        have := ih w1 (⟨it.list, some (t.getD 0 0), it.prev, some (cyc t 1),
            some (t.getD 0 0), it.started_cycling,
            decide (w.lastOf it.list = some ((a :: t).getD 0 0)), true⟩ :
            ELIST2_ITERATOR) f hrep2 ht hl rfl ?_ rfl rfl (by exact hst)
            (by simp at hfuel ⊢; omega)
        · obtain ⟨e1, e2, e3⟩ := this
          refine ⟨?_, e2, e3⟩
          rw [e1]
          rfl
        · show it.prev = some (t.getD (t.length - 1) 0)
          rw [hprev]
          have h3 : (a :: t).getD ((a :: t).length - 1) 0 = t.getD (t.length - 1) 0 := by
            have h2 : (a :: t).length - 1 = (t.length - 1) + 1 := by
              simp
              omega
            rw [h2]
            rfl
          rw [h3]

/-! ## Surgery lemmas: inserting before a position -/

theorem getD_insert_lt {L : List Nat} {n k i : Nat} (hk : k ≤ L.length)
    (hi : i < k) : (L.take k ++ n :: L.drop k).getD i 0 = L.getD i 0 := by
  have htl : (L.take k).length = k := by
    rw [List.length_take]
    omega
  rw [List.getD_append _ _ _ _ (by omega)]
  have h2 : i < (L.take k).length := by omega
  have h3 : i < L.length := by omega
  rw [List.getD_eq_getElem _ _ h2, List.getD_eq_getElem _ _ h3, List.getElem_take]

theorem getD_insert_self {L : List Nat} {n k : Nat} (hk : k ≤ L.length) :
    (L.take k ++ n :: L.drop k).getD k 0 = n := by
  have htl : (L.take k).length = k := by
    rw [List.length_take]
    omega
  rw [List.getD_append_right _ _ _ _ (by omega), htl, Nat.sub_self]
  rfl

theorem getD_insert_gt {L : List Nat} {n k i : Nat} (hk : k ≤ L.length)
    (hik : k < i) (hi : i ≤ L.length) :
    (L.take k ++ n :: L.drop k).getD i 0 = L.getD (i - 1) 0 := by
  have htl : (L.take k).length = k := by
    rw [List.length_take]
    omega
  rw [List.getD_append_right _ _ _ _ (by omega), htl]
  obtain ⟨d, hd⟩ : ∃ d, i - k = d + 1 := ⟨i - k - 1, by omega⟩
  rw [hd]
  show (L.drop k).getD d 0 = L.getD (i - 1) 0
  have h1 : d < (L.drop k).length := by
    rw [List.length_drop]
    omega
  have h2 : i - 1 < L.length := by omega
  rw [List.getD_eq_getElem _ _ h1, List.getD_eq_getElem _ _ h2,
    List.getElem_drop]
  congr 1
  omega

theorem length_insert {L : List Nat} {n k : Nat} (hk : k ≤ L.length) :
    (L.take k ++ n :: L.drop k).length = L.length + 1 := by
  simp
  omega

theorem nodup_insert_mid {L : List Nat} {n k : Nat} (hnd : L.Nodup)
    (hn : n ∉ L) : (L.take k ++ n :: L.drop k).Nodup := by
  rw [List.nodup_append]
  refine ⟨hnd.sublist (List.take_sublist k L), ?_, ?_⟩
  · rw [List.nodup_cons]
    exact ⟨fun hm => hn (List.drop_subset k L hm),
      hnd.sublist (List.drop_sublist k L)⟩
  · intro x hx hx2
    rcases List.mem_cons.mp hx2 with he | hm
    · exact hn (he ▸ List.take_subset k L hx)
    · have := List.nodup_append.mp (List.take_append_drop k L ▸ hnd)
      exact this.2.2 hx hm

/-- The world produced by `add_before_then_move` at forward position `k`
represents the chain with the new node inserted at position `k`. -/
theorem add_before_represents {w : World} {lid : Nat} {L : List Nat}
    {it : ELIST2_ITERATOR} {n k : Nat} (hrep : represents w lid L)
    (hn : n ∉ L) (hk : k < L.length) (hl : it.list = lid)
    (hcur : it.current = some (cyc L k))
    (hprev : it.prev = some (cyc L (k + L.length - 1))) :
    represents (it.add_before_then_move w n).1 lid
      (L.take k ++ n :: L.drop k) := by
  have hL : L ≠ [] := by
    intro he
    subst he
    simp at hk
  have hlen : 0 < L.length := List.length_pos.mpr hL
  have hnd : L.Nodup := (represents_chainOk hrep hL).1
  have hc := represents_chainOk hrep hL
  have hlast : w.lastOf lid = some (L.getD (L.length - 1) 0) := by
    have := represents_lastOf hrep hL
    rwa [cyc_of_lt (by omega)] at this
  -- the cursor's cached prev is the cyclic predecessor
  have hpn : k + L.length - 1 = (if k = 0 then L.length - 1 else k - 1) +
      (if k = 0 then 0 else L.length) := by
    split_ifs with h0
    · omega
    · omega
  have hprev' : it.prev = some (L.getD (if k = 0 then L.length - 1 else k - 1) 0) := by
    rw [hprev]
    congr 1
    rw [hpn]
    split_ifs with h0
    · rw [Nat.add_zero, cyc_of_lt (by omega)]
    · rw [cyc_add_length, cyc_of_lt (by omega)]
  rw [ELIST2_ITERATOR.add_before_then_move, hcur]
  dsimp only
  rw [hprev', cyc_of_lt (by omega : k < L.length)]
  have hne2 : ¬ (L.take k ++ n :: L.drop k) = [] := by simp
  rw [represents, if_neg hne2]
  have hli := @length_insert L n k (by omega)
  refine ⟨?_, nodup_insert_mid hnd hn, ?_⟩
  · simp only [lastOf_setPrv, lastOf_setNxtP, lastOf_setNxt, hlast]
    rw [hli, Nat.add_sub_cancel, getD_insert_gt (by omega) (by omega)
      (by omega)]
  · intro i hi
    rw [hli] at hi
    -- node addresses touched: nxt at {n, pn}, prv at {n, c}
    -- where pn = predecessor of position k, c = L.getD k
    have hpnmem : (if k = 0 then L.length - 1 else k - 1) < L.length := by
      split_ifs <;> omega
    have hwrap : cyc (L.take k ++ n :: L.drop k) (L.length + 1) =
        (L.take k ++ n :: L.drop k).getD 0 0 := by
      unfold cyc
      rw [hli, Nat.mod_self]
    rcases (by omega : (i + 1 < k) ∨ (i + 1 = k) ∨ (i = k) ∨
        (k < i ∧ i + 1 < L.length + 1) ∨ (k < i ∧ i + 1 = L.length + 1))
      with hA | hB | hC | ⟨hD1, hD2⟩ | ⟨hE1, hE2⟩
    · -- both inside the prefix
      rw [cyc_of_lt (by omega), cyc_of_lt (by omega),
        getD_insert_lt (by omega) (by omega), getD_insert_lt (by omega)
          (by omega)]
      have hx1 : ¬ L.getD i 0 = L.getD (if k = 0 then L.length - 1 else k - 1) 0 := by
        intro he
        have := getD_inj hnd (by omega) hpnmem he
        split_ifs at this <;> omega
      have hx2 : ¬ L.getD i 0 = n := getD_ne (by omega) hn
      have hy1 : ¬ L.getD (i + 1) 0 = L.getD k 0 := by
        intro he
        have := getD_inj hnd (by omega) (by omega) he
        omega
      have hy2 : ¬ L.getD (i + 1) 0 = n := getD_ne (by omega) hn
      have h1 := (hc.2 i (by omega)).1
      have h2 := (hc.2 i (by omega)).2
      rw [cyc_of_lt (by omega : i < L.length),
        cyc_of_lt (by omega : i + 1 < L.length)] at h1 h2
      constructor
      · simp only [nxt_setPrv, setNxtP_some, nxt_setNxt]
        rw [if_neg hx1, if_neg hx2]
        exact h1
      · simp only [prv_setPrv, setNxtP_some, prv_setNxtP, prv_setNxt]
        rw [if_neg hy1, if_neg hy2]
        exact h2
    · -- the pair (position k-1, the new node)
      have hk1 : 1 ≤ k := by omega
      rw [cyc_of_lt (by omega), cyc_of_lt (by omega),
        getD_insert_lt (by omega) (by omega), hB, getD_insert_self (by omega)]
      have hpnk : (if k = 0 then L.length - 1 else k - 1) = i := by
        split_ifs <;> omega
      constructor
      · simp only [nxt_setPrv, setNxtP_some, nxt_setNxt]
        rw [hpnk, if_pos rfl]
      · simp only [prv_setPrv, setNxtP_some, prv_setNxtP, prv_setNxt]
        have hnc : ¬ n = L.getD k 0 :=
          fun he => (getD_ne (by omega) hn) he.symm
        rw [List.getD_eq_getElem?_getD] at hnc
        simp [hpnk, hnc]
    · -- the pair (the new node, position k)
      subst hC
      rw [cyc_of_lt (by omega), cyc_of_lt (by omega), getD_insert_self
        (by omega), getD_insert_gt (by omega) (by omega) (by omega),
        Nat.add_sub_cancel]
      have hnpn : ¬ n = L.getD (if i = 0 then L.length - 1 else i - 1) 0 :=
        fun he => (getD_ne hpnmem hn) he.symm
      constructor
      · simp only [nxt_setPrv, setNxtP_some, nxt_setNxt]
        rw [List.getD_eq_getElem?_getD] at hnpn
        simp [hnpn]
      · simp only [prv_setPrv, setNxtP_some, prv_setNxtP, prv_setNxt]
        simp
    · -- both inside the suffix
      rw [cyc_of_lt (by omega), cyc_of_lt (by omega),
        getD_insert_gt (by omega) (by omega) (by omega),
        getD_insert_gt (by omega) (by omega) (by omega), Nat.add_sub_cancel]
      have hx1 : ¬ L.getD (i - 1) 0 =
          L.getD (if k = 0 then L.length - 1 else k - 1) 0 := by
        intro he
        have := getD_inj hnd (by omega) hpnmem he
        split_ifs at this <;> omega
      have hx2 : ¬ L.getD (i - 1) 0 = n := getD_ne (by omega) hn
      have hy1 : ¬ L.getD i 0 = L.getD k 0 := by
        intro he
        have := getD_inj hnd (by omega) (by omega) he
        omega
      have hy2 : ¬ L.getD i 0 = n := getD_ne (by omega) hn
      have h1 := (hc.2 (i - 1) (by omega)).1
      have h2 := (hc.2 (i - 1) (by omega)).2
      rw [cyc_of_lt (by omega : i - 1 < L.length),
        (by omega : i - 1 + 1 = i), cyc_of_lt (by omega : i < L.length)]
        at h1 h2
      constructor
      · simp only [nxt_setPrv, setNxtP_some, nxt_setNxt]
        rw [if_neg hx1, if_neg hx2]
        exact h1
      · simp only [prv_setPrv, setNxtP_some, prv_setNxtP, prv_setNxt]
        rw [if_neg hy1, if_neg hy2]
        exact h2
    · -- the wrap pair
      have hie : i = L.length := by omega
      rw [cyc_of_lt (by omega), getD_insert_gt (by omega) (by omega)
        (by omega), hE2, hwrap]
      by_cases h0 : k = 0
      · subst h0
        rw [getD_insert_self (by omega)]
        constructor
        · simp only [nxt_setPrv, setNxtP_some, nxt_setNxt]
          rw [if_pos (by rw [hie]; simp)]
        · simp only [prv_setPrv, setNxtP_some, prv_setNxtP, prv_setNxt]
          have hnc : ¬ n = L.getD 0 0 :=
            fun he => (getD_ne (by omega) hn) he.symm
          rw [List.getD_eq_getElem?_getD] at hnc
          simp [hie, hnc]
      · rw [getD_insert_lt (by omega) (by omega)]
        have hx1 : ¬ L.getD (i - 1) 0 =
            L.getD (if k = 0 then L.length - 1 else k - 1) 0 := by
          intro he
          have := getD_inj hnd (by omega) hpnmem he
          split_ifs at this <;> omega
        have hx2 : ¬ L.getD (i - 1) 0 = n := getD_ne (by omega) hn
        have hy1 : ¬ L.getD 0 0 = L.getD k 0 := by
          intro he
          have := getD_inj hnd (by omega) (by omega) he
          omega
        have hy2 : ¬ L.getD 0 0 = n := getD_ne (by omega) hn
        have h1 := chainOk_nxt hc hL (L.length - 1)
        have h2 := chainOk_prv hc hL (L.length - 1)
        rw [cyc_of_lt (by omega : L.length - 1 < L.length),
          (by omega : L.length - 1 + 1 = L.length),
          (by
            show cyc L L.length = L.getD 0 0
            unfold cyc
            rw [Nat.mod_self] : cyc L L.length = L.getD 0 0)] at h1 h2
        constructor
        · simp only [nxt_setPrv, setNxtP_some, nxt_setNxt]
          rw [if_neg (by rw [hie] at hx1 ⊢; exact hx1), if_neg
            (by rw [hie] at hx2 ⊢; exact hx2)]
          rw [hie]
          exact h1
        · simp only [prv_setPrv, setNxtP_some, prv_setNxtP, prv_setNxt]
          rw [if_neg hy1, if_neg hy2, hie]
          exact h2

/-! ## Claim C5: add_sorted keeps the list sorted, ties inserted last -/

theorem takeWhile_getD_true {p : Nat → Bool} :
    ∀ (L : List Nat) (j : Nat), j < (L.takeWhile p).length →
      p (L.getD j 0) = true := by
  intro L
  induction L with
  | nil => intro j hj; simp at hj
  | cons a t ih =>
      intro j hj
      by_cases hp : p a = true
      · rw [List.takeWhile_cons, if_pos hp] at hj
        cases j with
        | zero => simpa using hp
        | succ i =>
            rw [List.getD_cons_succ]
            exact ih i (by simpa using hj)
      · rw [List.takeWhile_cons, if_neg hp] at hj
        simp at hj

theorem takeWhile_getD_false {p : Nat → Bool} :
    ∀ (L : List Nat), (L.takeWhile p).length < L.length →
      p (L.getD (L.takeWhile p).length 0) = false := by
  intro L
  induction L with
  | nil => intro h; simp at h
  | cons a t ih =>
      intro h
      by_cases hp : p a = true
      · rw [List.takeWhile_cons, if_pos hp] at h ⊢
        simp only [List.length_cons] at h ⊢
        rw [List.getD_cons_succ]
        exact ih (by omega)
      · rw [List.takeWhile_cons, if_neg hp] at h ⊢
        simpa using hp

/-- Adjacent pairs of a `Chain'` list, through `getD`. -/
theorem chain'_getD {cmp : Nat → Nat → Int} :
    ∀ {L : List Nat}, List.Chain' (fun a b => cmp a b ≤ 0) L →
      ∀ i, i + 1 < L.length → cmp (L.getD i 0) (L.getD (i + 1) 0) ≤ 0 := by
  intro L
  induction L with
  | nil => intro _ i hi; simp at hi
  | cons a t ih =>
      intro hc i hi
      cases t with
      | nil => simp at hi
      | cons b t2 =>
          rw [List.chain'_cons] at hc
          cases i with
          | zero => simpa using hc.1
          | succ j =>
              rw [List.getD_cons_succ, List.getD_cons_succ]
              exact ih hc.2 j
                (by simp only [List.length_cons] at hi ⊢; omega)

/-- Transitive reach along a `Chain'` list: any earlier element compares
`≤ 0` against any strictly later one. -/
theorem chain_getD_le {cmp : Nat → Nat → Int} {L : List Nat}
    (htrans : ∀ a b c, cmp a b ≤ 0 → cmp b c ≤ 0 → cmp a c ≤ 0)
    (hc : List.Chain' (fun a b => cmp a b ≤ 0) L) :
    ∀ j i, i < j → j < L.length → cmp (L.getD i 0) (L.getD j 0) ≤ 0 := by
  intro j
  induction j with
  | zero => intro i hi _; omega
  | succ m ih =>
      intro i hi hj
      rcases (by omega : i = m ∨ i < m) with he | hlt
      · subst he
        exact chain'_getD hc i (by omega)
      · exact htrans _ _ _ (ih i hlt (by omega)) (chain'_getD hc m (by omega))

/-- Inserting `n` at position `k` preserves the adjacency chain when `n`
relates `≤ 0`-wise to its new neighbours. -/
theorem chain'_insert_mid {cmp : Nat → Nat → Int} {L : List Nat} {n k : Nat}
    (hk : k ≤ L.length) (hc : List.Chain' (fun a b => cmp a b ≤ 0) L)
    (hpre : 0 < k → cmp (L.getD (k - 1) 0) n ≤ 0)
    (hpost : k < L.length → cmp n (L.getD k 0) ≤ 0) :
    List.Chain' (fun a b => cmp a b ≤ 0) (L.take k ++ n :: L.drop k) := by
  rw [List.chain'_append]
  refine ⟨hc.take k, ?_, ?_⟩
  · rw [List.chain'_cons']
    refine ⟨?_, hc.drop k⟩
    intro y hy
    rw [List.head?_drop] at hy
    rcases Nat.lt_or_ge k L.length with hklt | hkge
    · rw [List.getElem?_eq_getElem hklt] at hy
      simp only [Option.mem_def, Option.some.injEq] at hy
      subst hy
      have := hpost hklt
      rwa [List.getD_eq_getElem L 0 hklt] at this
    · rw [List.getElem?_eq_none hkge] at hy
      simp at hy
  · intro x hx y hy
    simp only [List.head?_cons, Option.mem_def, Option.some.injEq] at hy
    subst hy
    by_cases h0 : k = 0
    · subst h0
      simp at hx
    · rw [List.getLast?_eq_getElem?, List.length_take] at hx
      have hmin : min k L.length - 1 = k - 1 := by omega
      rw [hmin, List.getElem?_take, if_pos (by omega)] at hx
      have hk1 : k - 1 < L.length := by omega
      rw [List.getElem?_eq_getElem hk1] at hx
      simp only [Option.mem_def, Option.some.injEq] at hx
      subst hx
      have := hpre (by omega)
      rwa [List.getD_eq_getElem L 0 hk1] at this

/-- The `add_sorted` scan loop, started strictly inside the first lap, stops
at the first position whose element strictly exceeds the new link. -/
theorem add_sorted_scan_march {w : World} {lid : Nat} {L : List Nat}
    {cmp : Nat → Nat → Int} {n k : Nat} (hc : chainOk w L) (hL : L ≠ [])
    (hne : ¬ w.lastOf lid = none) (hk : k < L.length)
    (hstop : 0 < cmp (cyc L k) n)
    (hbef : ∀ j, j < k → cmp (cyc L j) n ≤ 0) :
    ∀ m i fuel, i + m = k → 1 ≤ i → m < fuel →
      ELIST2.add_sorted_scan w cmp n (marchAt lid L i (some (cyc L 0))) fuel =
        some (marchAt lid L k (some (cyc L 0))) := by
  have hlen : 0 < L.length := List.length_pos.mpr hL
  intro m
  induction m with
  | zero =>
      intro i fuel hi h1 hfuel
      obtain ⟨f, rfl⟩ : ∃ f, fuel = f + 1 := ⟨fuel - 1, by omega⟩
      have heq : i = k := by omega
      subst heq
      have hcyc : ¬ (marchAt lid L i (some (cyc L 0))).cycled_list w = true := by
        rw [cycled_list_iff]
        push_neg
        refine ⟨hne, fun _ h => ?_⟩
        have hii : cyc L i = cyc L 0 := by simpa [marchAt] using h
        have := cyc_inj hc.1 (by omega) hlen hii
        omega
      rw [ELIST2.add_sorted_scan, if_neg hcyc]
      show (if 0 < cmp (cyc L i) n
          then some (marchAt lid L i (some (cyc L 0)))
          else ELIST2.add_sorted_scan w cmp n
            ((marchAt lid L i (some (cyc L 0))).forward w) f) =
        some (marchAt lid L i (some (cyc L 0)))
      rw [if_pos hstop]
  | succ m ih =>
      intro i fuel hi h1 hfuel
      obtain ⟨f, rfl⟩ : ∃ f, fuel = f + 1 := ⟨fuel - 1, by omega⟩
      have hik : i < k := by omega
      have hcyc : ¬ (marchAt lid L i (some (cyc L 0))).cycled_list w = true := by
        rw [cycled_list_iff]
        push_neg
        refine ⟨hne, fun _ h => ?_⟩
        have hii : cyc L i = cyc L 0 := by simpa [marchAt] using h
        have := cyc_inj hc.1 (by omega) hlen hii
        omega
      rw [ELIST2.add_sorted_scan, if_neg hcyc]
      show (if 0 < cmp (cyc L i) n
          then some (marchAt lid L i (some (cyc L 0)))
          else ELIST2.add_sorted_scan w cmp n
            ((marchAt lid L i (some (cyc L 0))).forward w) f) =
        some (marchAt lid L k (some (cyc L 0)))
      rw [if_neg (by have := hbef i hik; omega), ← marchAt_started lid L i,
        forward_march hc hL hne]
      exact ih (i + 1) f (by omega) (by omega) (by omega)

/-- The `add_sorted` scan loop, when every element compares `≤ 0` against the
new link, walks the whole lap and stops having cycled back to the head. -/
theorem add_sorted_scan_cycles {w : World} {lid : Nat} {L : List Nat}
    {cmp : Nat → Nat → Int} {n : Nat} (hc : chainOk w L) (hL : L ≠ [])
    (hne : ¬ w.lastOf lid = none)
    (hall : ∀ j, j < L.length → cmp (cyc L j) n ≤ 0) :
    ∀ m i fuel, i + m = L.length → 1 ≤ i → m < fuel →
      ELIST2.add_sorted_scan w cmp n (marchAt lid L i (some (cyc L 0))) fuel =
        some (marchAt lid L L.length (some (cyc L 0))) := by
  have hlen : 0 < L.length := List.length_pos.mpr hL
  intro m
  induction m with
  | zero =>
      intro i fuel hi h1 hfuel
      obtain ⟨f, rfl⟩ : ∃ f, fuel = f + 1 := ⟨fuel - 1, by omega⟩
      have heq : i = L.length := by omega
      subst heq
      have hcyc : (marchAt lid L L.length
          (some (cyc L 0))).cycled_list w = true := by
        rw [cycled_list_iff]
        refine Or.inr ⟨rfl, ?_⟩
        show some (cyc L L.length) = some (cyc L 0)
        rw [(by omega : L.length = 0 + L.length), cyc_add_length]
      rw [ELIST2.add_sorted_scan, if_pos hcyc]
  | succ m ih =>
      intro i fuel hi h1 hfuel
      obtain ⟨f, rfl⟩ : ∃ f, fuel = f + 1 := ⟨fuel - 1, by omega⟩
      have hik : i < L.length := by omega
      have hcyc : ¬ (marchAt lid L i (some (cyc L 0))).cycled_list w = true := by
        rw [cycled_list_iff]
        push_neg
        refine ⟨hne, fun _ h => ?_⟩
        have hii : cyc L i = cyc L 0 := by simpa [marchAt] using h
        have := cyc_inj hc.1 hik hlen hii
        omega
      rw [ELIST2.add_sorted_scan, if_neg hcyc]
      show (if 0 < cmp (cyc L i) n
          then some (marchAt lid L i (some (cyc L 0)))
          else ELIST2.add_sorted_scan w cmp n
            ((marchAt lid L i (some (cyc L 0))).forward w) f) =
        some (marchAt lid L L.length (some (cyc L 0)))
      rw [if_neg (by have := hall i hik; omega), ← marchAt_started lid L i,
        forward_march hc hL hne]
      exact ih (i + 1) f (by omega) (by omega) (by omega)

/-- `add_sorted` on a represented sorted chain inserts the new link exactly
after the longest prefix comparing `≤ 0` against it. -/
theorem add_sorted_represents {w : World} {lid : Nat} {L : List Nat}
    {cmp : Nat → Nat → Int} {n fuel : Nat}
    (hrep : represents w lid L) (hn : n ∉ L)
    (hchain : List.Chain' (fun a b => cmp a b ≤ 0) L)
    (htrans : ∀ a b c, cmp a b ≤ 0 → cmp b c ≤ 0 → cmp a c ≤ 0)
    (hfuel : L.length + 1 ≤ fuel) :
    represents (ELIST2.add_sorted w lid cmp n fuel) lid
      (L.take (L.takeWhile (fun a => decide (cmp a n ≤ 0))).length ++
        n :: L.drop (L.takeWhile (fun a => decide (cmp a n ≤ 0))).length) := by
  by_cases hL : L = []
  · subst hL
    have h0 := represents_nil hrep
    rw [ELIST2.add_sorted, h0]
    have hade := (@add_to_end_represents w lid []
        ⟨lid, none, none, none, none, false, false, false⟩ n hrep (by simp)
        rfl).1
    rw [ELIST2_ITERATOR.add_to_end] at hade
    dsimp only at hade
    rw [h0] at hade
    exact hade
  · have hlen : 0 < L.length := List.length_pos.mpr hL
    have hc := represents_chainOk hrep hL
    have hlast := represents_lastOf hrep hL
    have hlast' : w.lastOf lid = some (L.getD (L.length - 1) 0) := by
      rwa [cyc_of_lt (by omega)] at hlast
    have hne : ¬ w.lastOf lid = none := by rw [hlast']; simp
    have hKle : (L.takeWhile (fun a => decide (cmp a n ≤ 0))).length ≤
        L.length := (List.takeWhile_sublist _).length_le
    set K := (L.takeWhile (fun a => decide (cmp a n ≤ 0))).length with hKdef
    have hbefK : ∀ j, j < K → cmp (L.getD j 0) n ≤ 0 := by
      intro j hj
      exact of_decide_eq_true (takeWhile_getD_true L j hj)
    have hstopK : K < L.length → 0 < cmp (L.getD K 0) n := by
      intro hlt
      rw [hKdef]
      have hf := of_decide_eq_false (takeWhile_getD_false L hlt)
      omega
    rw [ELIST2.add_sorted, hlast']
    dsimp only
    by_cases hfast : cmp (L.getD (L.length - 1) 0) n < 0
    · rw [if_pos hfast]
      have hall : ∀ j, j < L.length → cmp (L.getD j 0) n ≤ 0 := by
        intro j hj
        rcases (by omega : j = L.length - 1 ∨ j < L.length - 1) with he | hlt
        · rw [he]
          omega
        · exact htrans _ _ _
            (chain_getD_le htrans hchain (L.length - 1) j hlt (by omega))
            (by omega)
      have hKeq : K = L.length := by
        rcases Nat.lt_or_ge K L.length with hlt | hge
        · have h1 := hstopK hlt
          have h2 := hall K hlt
          omega
        · omega
      rw [hKeq, List.take_length, List.drop_length]
      have hade := (@add_to_end_represents w lid L
          ⟨lid, none, none, none, none, false, false, false⟩ n hrep hn rfl).1
      rw [ELIST2_ITERATOR.add_to_end] at hade
      dsimp only at hade
      rw [hlast'] at hade
      exact hade
    · rw [if_neg hfast]
      obtain ⟨f, rfl⟩ : ∃ f, fuel = f + 1 := ⟨fuel - 1, by omega⟩
      have hstart : ELIST2_ITERATOR.mark_cycle_pt
          ⟨lid, some (cyc L 0), some (cyc L (L.length - 1)), some (cyc L 1),
            none, false, false, false⟩ =
          { marchAt lid L 0 (some (cyc L 0)) with started_cycling := false } := by
        rw [ELIST2_ITERATOR.mark_cycle_pt]
        simp only [marchAt]
        rw [ELIST2_ITERATOR.mk.injEq]
        refine ⟨rfl, rfl, congrArg some (congrArg (cyc L) ?_), rfl, rfl, rfl,
          rfl, rfl⟩
        omega
      rw [set_to_list_spec hrep hL, hstart]
      have hcyc0 : ¬ ({ marchAt lid L 0 (some (cyc L 0)) with
          started_cycling := false } : ELIST2_ITERATOR).cycled_list w = true := by
        rw [cycled_list_iff]
        push_neg
        exact ⟨hne, fun h _ => by simp at h⟩
      rcases (by omega : K = 0 ∨ (1 ≤ K ∧ K < L.length) ∨ K = L.length)
        with hK0 | ⟨hK1, hK2⟩ | hKfull
      · have hstop0 : 0 < cmp (cyc L 0) n := by
          have := hstopK (by omega)
          rw [hK0] at this
          rwa [← cyc_of_lt (by omega)] at this
        have hscan : ELIST2.add_sorted_scan w cmp n
            ({ marchAt lid L 0 (some (cyc L 0)) with
              started_cycling := false }) (f + 1) =
            some ({ marchAt lid L 0 (some (cyc L 0)) with
              started_cycling := false }) := by
          rw [ELIST2.add_sorted_scan, if_neg hcyc0]
          show (if 0 < cmp (cyc L 0) n
              then some ({ marchAt lid L 0 (some (cyc L 0)) with
                started_cycling := false } : ELIST2_ITERATOR)
              else ELIST2.add_sorted_scan w cmp n
                (({ marchAt lid L 0 (some (cyc L 0)) with
                  started_cycling := false } : ELIST2_ITERATOR).forward w) f) =
            some ({ marchAt lid L 0 (some (cyc L 0)) with
              started_cycling := false } : ELIST2_ITERATOR)
          rw [if_pos hstop0]
        rw [hscan]
        dsimp only
        rw [if_neg hcyc0, hK0]
        exact add_before_represents hrep hn (by omega) rfl rfl rfl
      · have hstop : 0 < cmp (cyc L K) n := by
          have := hstopK hK2
          rwa [← cyc_of_lt hK2] at this
        have hbef : ∀ j, j < K → cmp (cyc L j) n ≤ 0 := by
          intro j hj
          have := hbefK j hj
          rwa [← cyc_of_lt (by omega)] at this
        have hscan : ELIST2.add_sorted_scan w cmp n
            ({ marchAt lid L 0 (some (cyc L 0)) with
              started_cycling := false }) (f + 1) =
            some (marchAt lid L K (some (cyc L 0))) := by
          rw [ELIST2.add_sorted_scan, if_neg hcyc0]
          show (if 0 < cmp (cyc L 0) n
              then some ({ marchAt lid L 0 (some (cyc L 0)) with
                started_cycling := false } : ELIST2_ITERATOR)
              else ELIST2.add_sorted_scan w cmp n
                (({ marchAt lid L 0 (some (cyc L 0)) with
                  started_cycling := false } : ELIST2_ITERATOR).forward w) f) =
            some (marchAt lid L K (some (cyc L 0)))
          have h0 : cmp (cyc L 0) n ≤ 0 := hbef 0 (by omega)
          rw [if_neg (by omega), forward_march hc hL hne]
          exact add_sorted_scan_march hc hL hne hK2 hstop hbef (K - 1) 1 f
            (by omega) (by omega) (by omega)
        rw [hscan]
        dsimp only
        have hcycK : ¬ (marchAt lid L K
            (some (cyc L 0))).cycled_list w = true := by
          rw [cycled_list_iff]
          push_neg
          refine ⟨hne, fun _ h => ?_⟩
          have hii : cyc L K = cyc L 0 := by simpa [marchAt] using h
          have := cyc_inj hc.1 hK2 hlen hii
          omega
        rw [if_neg hcycK]
        exact add_before_represents hrep hn hK2 rfl rfl rfl
      · have hall : ∀ j, j < L.length → cmp (cyc L j) n ≤ 0 := by
          intro j hj
          have := hbefK j (by omega)
          rwa [← cyc_of_lt hj] at this
        have hscan : ELIST2.add_sorted_scan w cmp n
            ({ marchAt lid L 0 (some (cyc L 0)) with
              started_cycling := false }) (f + 1) =
            some (marchAt lid L L.length (some (cyc L 0))) := by
          rw [ELIST2.add_sorted_scan, if_neg hcyc0]
          show (if 0 < cmp (cyc L 0) n
              then some ({ marchAt lid L 0 (some (cyc L 0)) with
                started_cycling := false } : ELIST2_ITERATOR)
              else ELIST2.add_sorted_scan w cmp n
                (({ marchAt lid L 0 (some (cyc L 0)) with
                  started_cycling := false } : ELIST2_ITERATOR).forward w) f) =
            some (marchAt lid L L.length (some (cyc L 0)))
          have h0 : cmp (cyc L 0) n ≤ 0 := hall 0 (by omega)
          rw [if_neg (by omega), forward_march hc hL hne]
          exact add_sorted_scan_cycles hc hL hne hall (L.length - 1) 1 f
            (by omega) (by omega) (by omega)
        rw [hscan]
        dsimp only
        have hcycL : (marchAt lid L L.length
            (some (cyc L 0))).cycled_list w = true := by
          rw [cycled_list_iff]
          refine Or.inr ⟨rfl, ?_⟩
          show some (cyc L L.length) = some (cyc L 0)
          rw [(by omega : L.length = 0 + L.length), cyc_add_length]
        rw [if_pos hcycL, hKfull, List.take_length, List.drop_length]
        exact (add_to_end_represents hrep hn rfl).1

/-- **C5** (ordered-insert invariant and tie-breaking): inserting a fresh
link with `add_sorted` into a represented chain that is sorted under the
comparator (all adjacent pairs `≤ 0`) yields the chain with the new link
placed at position `k`, where `k` is exactly the length of the longest
prefix comparing `≤ 0` against it — i.e. after all existing equal elements,
at the first position whose predecessor does not strictly exceed it — and
the result is again sorted: every adjacent forward pair of the new chain
compares `≤ 0`.  Starting from the empty chain this invariant is preserved
by every single insertion. -/
theorem claim_C5_add_sorted {w : World} {lid : Nat} {L : List Nat}
    {cmp : Nat → Nat → Int} {n fuel : Nat}
    (hrep : represents w lid L) (hn : n ∉ L)
    (hchain : List.Chain' (fun a b => cmp a b ≤ 0) L)
    (hanti : ∀ a b, 0 < cmp a b → cmp b a ≤ 0)
    (htrans : ∀ a b c, cmp a b ≤ 0 → cmp b c ≤ 0 → cmp a c ≤ 0)
    (hfuel : L.length + 1 ≤ fuel) :
    ∃ k, k = (L.takeWhile (fun a => decide (cmp a n ≤ 0))).length ∧
      (∀ j, j < k → cmp (L.getD j 0) n ≤ 0) ∧
      (k < L.length → 0 < cmp (L.getD k 0) n) ∧
      represents (ELIST2.add_sorted w lid cmp n fuel) lid
        (L.take k ++ n :: L.drop k) ∧
      List.Chain' (fun a b => cmp a b ≤ 0) (L.take k ++ n :: L.drop k) := by
  refine ⟨(L.takeWhile (fun a => decide (cmp a n ≤ 0))).length, rfl, ?_, ?_,
    add_sorted_represents hrep hn hchain htrans hfuel, ?_⟩
  · intro j hj
    exact of_decide_eq_true (takeWhile_getD_true L j hj)
  · intro hlt
    have hf := of_decide_eq_false (takeWhile_getD_false L hlt)
    omega
  · refine chain'_insert_mid ((List.takeWhile_sublist _).length_le) hchain
      (fun h0 => ?_) (fun hlt => ?_)
    · exact of_decide_eq_true
        (@takeWhile_getD_true (fun a => decide (cmp a n ≤ 0)) L
          ((L.takeWhile (fun a => decide (cmp a n ≤ 0))).length - 1) (by omega))
    · have hf := of_decide_eq_false (takeWhile_getD_false L hlt)
      exact hanti _ _ (by omega)

/-- Witness for C5: inserting node 4 into the chain `[2, 1]` of `wC5`
(sorted under `cmpMod`, where 2 and 4 compare equal) places 4 after the
equal element 2 and before 1, yielding `[2, 4, 1]`. -/
theorem claim_C5_add_sorted_witness :
    ∃ k, k = (([2, 1] : List Nat).takeWhile
        (fun a => decide (cmpMod a 4 ≤ 0))).length ∧
      (∀ j, j < k → cmpMod (([2, 1] : List Nat).getD j 0) 4 ≤ 0) ∧
      (k < ([2, 1] : List Nat).length →
        0 < cmpMod (([2, 1] : List Nat).getD k 0) 4) ∧
      represents (ELIST2.add_sorted wC5 0 cmpMod 4 3) 0
        (([2, 1] : List Nat).take k ++ 4 :: ([2, 1] : List Nat).drop k) ∧
      List.Chain' (fun a b => cmpMod a b ≤ 0)
        (([2, 1] : List Nat).take k ++ 4 :: ([2, 1] : List Nat).drop k) :=
  @claim_C5_add_sorted wC5 0 [2, 1] cmpMod 4 3 (by decide) (by decide)
    (by rw [List.chain'_cons]; exact ⟨by decide, by simp⟩)
    (fun a b h => by unfold cmpMod at h ⊢; omega)
    (fun a b c h1 h2 => by unfold cmpMod at h1 h2 ⊢; omega) (by decide)

/-! ## Claim C4: the exchange involution across two disjoint lists -/

theorem set_getD_self : ∀ (L : List Nat) (i : Nat), i < L.length →
    L.set i (L.getD i 0) = L := by
  intro L
  induction L with
  | nil => intro i hi; simp at hi
  | cons a t ih =>
      intro i hi
      cases i with
      | zero => rfl
      | succ k =>
          rw [List.getD_cons_succ, List.set_cons_succ]
          rw [ih k (by simpa using hi)]

theorem getD_set_self {L : List Nat} {i : Nat} {a : Nat} (h : i < L.length) :
    (L.set i a).getD i 0 = a := by
  rw [List.getD_eq_getElem?_getD, List.getElem?_set_self (by omega)]
  rfl

theorem getD_set_ne {L : List Nat} {i k : Nat} {a : Nat} (h : ¬ i = k) :
    (L.set i a).getD k 0 = L.getD k 0 := by
  rw [List.getD_eq_getElem?_getD, List.getElem?_set_ne h,
    ← List.getD_eq_getElem?_getD]

theorem nodup_set : ∀ {L : List Nat} {i : Nat} {a : Nat}, L.Nodup → a ∉ L →
    (L.set i a).Nodup := by
  intro L
  induction L with
  | nil => intro i a _ _; simp
  | cons b t ih =>
      intro i a hnd ha
      rw [List.nodup_cons] at hnd
      cases i with
      | zero =>
          rw [List.set_cons_zero, List.nodup_cons]
          exact ⟨fun hm => ha (List.mem_cons_of_mem b hm), hnd.2⟩
      | succ k =>
          rw [List.set_cons_succ, List.nodup_cons]
          refine ⟨fun hm => ?_, ih hnd.2 (fun hm => ha (List.mem_cons_of_mem b hm))⟩
          rcases List.mem_or_eq_of_mem_set hm with hmt | hba
          · exact hnd.1 hmt
          · exact ha (hba ▸ List.mem_cons_self b t)

/-- `cyc` of a one-position overwrite, below the wrap. -/
theorem cyc_set_of_lt {L : List Nat} {i k : Nat} {a : Nat} (hk : k < L.length) :
    cyc (L.set i a) k = if k = i then a else L.getD k 0 := by
  rw [cyc_of_lt (by rw [List.length_set]; omega)]
  split_ifs with he
  · rw [he, getD_set_self (by omega)]
  · rw [getD_set_ne (fun hh => he hh.symm)]

/-- `cyc` of a one-position overwrite, at the wrap. -/
theorem cyc_set_wrap {L : List Nat} {i : Nat} {a : Nat} (hL : L ≠ []) :
    cyc (L.set i a) L.length = if 0 = i then a else L.getD 0 0 := by
  have hlen : 0 < L.length := List.length_pos.mpr hL
  have : cyc (L.set i a) L.length = (L.set i a).getD 0 0 := by
    unfold cyc
    rw [List.length_set, Nat.mod_self]
  rw [this]
  split_ifs with he
  · rw [← he, getD_set_self (by omega)]
  · rw [getD_set_ne (fun hh => he hh.symm)]

/-- Replacing the node at position `i` of a chain by a fresh node `x`
preserves the chain shape, provided the world links `x` in at exactly that
position and leaves every other link of the chain untouched. -/
theorem chainOk_set {w W : World} {L : List Nat} {i x : Nat}
    (hc : chainOk w L) (h2 : 2 ≤ L.length) (hi : i < L.length) (hx : x ∉ L)
    (hnxtp : W.nxt (L.getD (if i = 0 then L.length - 1 else i - 1) 0) = some x)
    (hnxtx : W.nxt x = some (L.getD (if i = L.length - 1 then 0 else i + 1) 0))
    (hprvx : W.prv x = some (L.getD (if i = 0 then L.length - 1 else i - 1) 0))
    (hprvn : W.prv (L.getD (if i = L.length - 1 then 0 else i + 1) 0) = some x)
    (hont : ∀ y, y ∈ L →
      ¬ y = L.getD (if i = 0 then L.length - 1 else i - 1) 0 →
      ¬ y = L.getD i 0 → W.nxt y = w.nxt y)
    (honp : ∀ y, y ∈ L →
      ¬ y = L.getD (if i = L.length - 1 then 0 else i + 1) 0 →
      ¬ y = L.getD i 0 → W.prv y = w.prv y) :
    chainOk W (L.set i x) := by
  have hL : L ≠ [] := by intro h; rw [h] at h2; simp at h2
  have hnd := hc.1
  have hsuccL : ∀ m, m < L.length →
      cyc L (m + 1) = L.getD (if m = L.length - 1 then 0 else m + 1) 0 := by
    intro m hm
    by_cases hm1 : m = L.length - 1
    · rw [if_pos hm1, hm1, (by omega : L.length - 1 + 1 = L.length)]
      unfold cyc
      rw [Nat.mod_self]
    · rw [if_neg hm1, cyc_of_lt (by omega)]
  have hwnxt : ∀ m, m < L.length → w.nxt (L.getD m 0) =
      some (L.getD (if m = L.length - 1 then 0 else m + 1) 0) := by
    intro m hm
    have h := (hc.2 m hm).1
    rw [cyc_of_lt hm, hsuccL m hm] at h
    exact h
  have hwprv : ∀ m, m < L.length →
      w.prv (L.getD (if m = L.length - 1 then 0 else m + 1) 0) =
        some (L.getD m 0) := by
    intro m hm
    have h := (hc.2 m hm).2
    rw [cyc_of_lt hm, hsuccL m hm] at h
    exact h
  refine ⟨nodup_set hnd hx, ?_⟩
  intro k hk
  rw [List.length_set] at hk
  set ip := if i = 0 then L.length - 1 else i - 1 with hipdef
  set inx := if i = L.length - 1 then 0 else i + 1 with hinxdef
  have hiplt : ip < L.length := by rw [hipdef]; split_ifs <;> omega
  have hinxlt : inx < L.length := by rw [hinxdef]; split_ifs <;> omega
  have hipne : ¬ ip = i := by rw [hipdef]; split_ifs <;> omega
  rcases (by omega : k = i ∨ k = ip ∨ (¬ k = i ∧ ¬ k = ip))
    with hA | hB | ⟨hC1, hC2⟩
  · subst hA
    have hcyc0 : cyc (L.set k x) k = x := by
      rw [cyc_set_of_lt hk, if_pos rfl]
    have hcyc1 : cyc (L.set k x) (k + 1) = L.getD inx 0 := by
      by_cases hil : k = L.length - 1
      · rw [(by omega : k + 1 = L.length), cyc_set_wrap hL,
          if_neg (by omega), hinxdef, if_pos hil]
      · rw [cyc_set_of_lt (by omega : k + 1 < L.length), if_neg (by omega),
          hinxdef, if_neg hil]
    constructor
    · rw [hcyc0, hcyc1]
      exact hnxtx
    · rw [hcyc1, hcyc0]
      exact hprvn
  · subst hB
    have hcyc0 : cyc (L.set i x) ip = L.getD ip 0 := by
      rw [cyc_set_of_lt hiplt, if_neg hipne]
    have hcyc1 : cyc (L.set i x) (ip + 1) = x := by
      by_cases hi0 : i = 0
      · rw [hipdef, if_pos hi0, (by omega : L.length - 1 + 1 = L.length),
          cyc_set_wrap hL, if_pos (by omega)]
      · rw [hipdef, if_neg hi0, (by omega : i - 1 + 1 = i), cyc_set_of_lt hi,
          if_pos rfl]
    constructor
    · rw [hcyc0, hcyc1]
      exact hnxtp
    · rw [hcyc1, hcyc0]
      exact hprvx
  · have hcyc0 : cyc (L.set i x) k = L.getD k 0 := by
      rw [cyc_set_of_lt hk, if_neg hC1]
    have hks : ¬ (if k = L.length - 1 then 0 else k + 1) = i := by
      split_ifs with hkl
      · intro h0
        apply hC2
        rw [hipdef, if_pos (by omega)]
        omega
      · intro hsi
        apply hC2
        rw [hipdef, if_neg (by omega)]
        omega
    have hcyc1 : cyc (L.set i x) (k + 1) =
        L.getD (if k = L.length - 1 then 0 else k + 1) 0 := by
      by_cases hkl : k = L.length - 1
      · have h0 : ¬ (0 : Nat) = i := by rw [if_pos hkl] at hks; exact hks
        rw [(by omega : k + 1 = L.length), cyc_set_wrap hL, if_neg h0,
          if_pos hkl]
      · have hsx : ¬ (k + 1) = i := by rw [if_neg hkl] at hks; exact hks
        rw [cyc_set_of_lt (by omega), if_neg hsx, if_neg hkl]
    have hknp : ¬ L.getD k 0 = L.getD ip 0 := by
      intro he
      exact hC2 (getD_inj hnd hk hiplt he)
    have hknc : ¬ L.getD k 0 = L.getD i 0 := by
      intro he
      exact hC1 (getD_inj hnd hk hi he)
    have hslt : (if k = L.length - 1 then 0 else k + 1) < L.length := by
      split_ifs <;> omega
    have hsinx : ¬ L.getD (if k = L.length - 1 then 0 else k + 1) 0 =
        L.getD inx 0 := by
      intro he
      have hee := getD_inj hnd hslt hinxlt he
      rw [hinxdef] at hee
      split_ifs at hee <;> omega
    have hsc : ¬ L.getD (if k = L.length - 1 then 0 else k + 1) 0 =
        L.getD i 0 := by
      intro he
      exact hks (getD_inj hnd hslt hi he)
    constructor
    · rw [hcyc0, hcyc1, hont (L.getD k 0) (getD_mem hk) hknp hknc]
      exact hwnxt k hk
    · rw [hcyc1, hcyc0,
        honp (L.getD (if k = L.length - 1 then 0 else k + 1) 0)
          (getD_mem hslt) hsinx hsc]
      exact hwprv k hk

theorem cyc_set_self {L : List Nat} {i : Nat} {a : Nat} (hi : i < L.length) :
    cyc (L.set i a) i = a := by
  rw [cyc_set_of_lt hi]
  simp

theorem cyc_set_pred {L : List Nat} {i : Nat} {a : Nat} (h2 : 2 ≤ L.length)
    (hi : i < L.length) :
    cyc (L.set i a) (i + L.length - 1) =
      L.getD (if i = 0 then L.length - 1 else i - 1) 0 := by
  by_cases h0 : i = 0
  · rw [h0, (by omega : 0 + L.length - 1 = L.length - 1),
      cyc_set_of_lt (by omega)]
    rw [if_neg (by omega)]
    simp
  · rw [(by omega : i + L.length - 1 = (i - 1) + L.length)]
    unfold cyc
    rw [List.length_set, Nat.add_mod_right, Nat.mod_eq_of_lt (by omega),
      getD_set_ne (by omega), if_neg h0]

theorem cyc_set_succ {L : List Nat} {i : Nat} {a : Nat} (h2 : 2 ≤ L.length)
    (hi : i < L.length) :
    cyc (L.set i a) (i + 1) =
      L.getD (if i = L.length - 1 then 0 else i + 1) 0 := by
  by_cases hil : i = L.length - 1
  · rw [(by omega : i + 1 = L.length),
      cyc_set_wrap (by intro h; rw [h] at h2; simp at h2),
      if_neg (by omega), if_pos hil]
  · rw [cyc_set_of_lt (by omega), if_neg (by omega), if_neg hil]

theorem chainOk_of_links {W V : World} {L : List Nat}
    (hn : V.nxt = W.nxt) (hp : V.prv = W.prv) (h : chainOk W L) :
    chainOk V L := by
  refine ⟨h.1, ?_⟩
  intro k hk
  rw [hn, hp]
  exact h.2 k hk

theorem exchange_roles_fields (r : World × ELIST2_ITERATOR × ELIST2_ITERATOR) :
    (exchange_roles r).2.1.list = r.2.1.list ∧
    (exchange_roles r).2.1.prev = r.2.1.prev ∧
    (exchange_roles r).2.1.next = r.2.1.next ∧
    (exchange_roles r).2.2.list = r.2.2.list ∧
    (exchange_roles r).2.2.prev = r.2.2.prev ∧
    (exchange_roles r).2.2.next = r.2.2.next := by
  unfold exchange_roles
  exact ⟨rfl, rfl, rfl, rfl, rfl, rfl⟩

theorem exchange_roles_links (r : World × ELIST2_ITERATOR × ELIST2_ITERATOR) :
    (exchange_roles r).1.nxt = r.1.nxt ∧ (exchange_roles r).1.prv = r.1.prv := by
  constructor
  · simp only [exchange_roles]
    split_ifs <;> rfl
  · simp only [exchange_roles]
    split_ifs <;> rfl

/-- Membership in a one-position overwrite of a duplicate-free list: the
member is the new value, or an untouched original element. -/
theorem mem_set_cases {L : List Nat} {i a x : Nat} (hnd : L.Nodup)
    (hi : i < L.length) (hx : x ∈ L.set i a) :
    x = a ∨ (x ∈ L ∧ ¬ x = L.getD i 0) := by
  rw [List.mem_iff_getElem] at hx
  obtain ⟨m, hm, hval⟩ := hx
  rw [List.length_set] at hm
  have hval' : (L.set i a).getD m 0 = x := by
    rw [List.getD_eq_getElem]
    exact hval
  by_cases hmi : m = i
  · left
    rw [← hval', hmi, getD_set_self hi]
  · right
    rw [getD_set_ne (fun hh => hmi hh.symm)] at hval'
    refine ⟨hval' ▸ getD_mem hm, fun he => hmi ?_⟩
    rw [← hval'] at he
    exact getD_inj hnd hm hi he

/-! ## Exchange: projection lemmas and the role-update claims -/

theorem exchange_relink_proj (w : World) (it ot : ELIST2_ITERATOR) (c oc : Nat) :
    (exchange_relink w it ot c oc).2.1.list = it.list ∧
    (exchange_relink w it ot c oc).2.1.current = it.current ∧
    (exchange_relink w it ot c oc).2.1.cycle_pt = it.cycle_pt ∧
    (exchange_relink w it ot c oc).2.2.list = ot.list ∧
    (exchange_relink w it ot c oc).2.2.current = ot.current ∧
    (exchange_relink w it ot c oc).2.2.cycle_pt = ot.cycle_pt ∧
    ∀ l, (exchange_relink w it ot c oc).1.lastOf l = w.lastOf l := by
  unfold exchange_relink
  split_ifs <;> simp

theorem exchange_roles_currents (r : World × ELIST2_ITERATOR × ELIST2_ITERATOR) :
    (exchange_roles r).2.1.current = r.2.2.current ∧
    (exchange_roles r).2.2.current = r.2.1.current ∧
    (exchange_roles r).2.1.cycle_pt =
      (if r.2.1.current = r.2.1.cycle_pt then r.2.2.cycle_pt else r.2.1.cycle_pt) ∧
    (exchange_roles r).2.2.cycle_pt =
      (if r.2.2.current = r.2.2.cycle_pt then
        (if r.2.1.current = r.2.1.cycle_pt then r.2.2.cycle_pt else r.2.1.cycle_pt)
       else r.2.2.cycle_pt) := by
  unfold exchange_roles
  exact ⟨rfl, rfl, rfl, rfl⟩

theorem exchange_roles_lastOf (r : World × ELIST2_ITERATOR × ELIST2_ITERATOR)
    (l : Nat) :
    (exchange_roles r).1.lastOf l =
      (if (if r.1.lastOf r.2.1.list = r.2.1.current then
            r.1.setLast r.2.1.list r.2.2.current else r.1).lastOf r.2.2.list
          = r.2.2.current then
        ((if r.1.lastOf r.2.1.list = r.2.1.current then
            r.1.setLast r.2.1.list r.2.2.current else r.1).setLast r.2.2.list
          r.2.1.current).lastOf l
      else (if r.1.lastOf r.2.1.list = r.2.1.current then
            r.1.setLast r.2.1.list r.2.2.current else r.1).lastOf l) := by
  simp only [exchange_roles]
  rw [apply_ite (fun ww : World => ww.lastOf l)]

/-- On the non-no-op path with both currents set, `exchange` succeeds with
the relink followed by the role updates. -/
theorem exchange_ok {w : World} {it ot : ELIST2_ITERATOR} {c oc : Nat}
    (hne1 : ¬ w.lastOf it.list = none) (hne2 : ¬ w.lastOf ot.list = none)
    (hdist : ¬ it.current = ot.current)
    (hic : it.current = some c) (hoc : ot.current = some oc) :
    it.exchange w ot = .ok (exchange_roles (exchange_relink w it ot c oc)) := by
  rw [ELIST2_ITERATOR.exchange,
    if_neg (by
      push_neg
      exact ⟨hne1, hne2, hdist⟩), hic, hoc]

/-- A successful `exchange` between cursors on two disjoint lists (each of
length at least two) swaps the two current nodes in place: each list keeps
its shape with the other cursor's node at the exchanged position, both
`last` references follow the position, and both cursors stay at their
positions with currents swapped. -/
theorem exchange_cross {w : World} {l1 l2 : Nat} {L1 L2 : List Nat}
    {it ot : ELIST2_ITERATOR} {i j : Nat}
    (hrep1 : represents w l1 L1) (hrep2 : represents w l2 L2)
    (hdisj : ∀ x, x ∈ L1 → x ∉ L2) (hl12 : ¬ l1 = l2)
    (h1 : 2 ≤ L1.length) (h2 : 2 ≤ L2.length)
    (hitl : it.list = l1) (hotl : ot.list = l2)
    (hpos1 : posAt L1 i it) (hpos2 : posAt L2 j ot)
    (hi : i < L1.length) (hj : j < L2.length) :
    ∃ w' it' ot', it.exchange w ot = .ok (w', it', ot') ∧
      represents w' l1 (L1.set i (L2.getD j 0)) ∧
      represents w' l2 (L2.set j (L1.getD i 0)) ∧
      it'.list = l1 ∧ ot'.list = l2 ∧
      posAt (L1.set i (L2.getD j 0)) i it' ∧
      posAt (L2.set j (L1.getD i 0)) j ot' := by
  have hL1 : L1 ≠ [] := by intro h; rw [h] at h1; simp at h1
  have hL2 : L2 ≠ [] := by intro h; rw [h] at h2; simp at h2
  have hc1 := represents_chainOk hrep1 hL1
  have hc2 := represents_chainOk hrep2 hL2
  have hnd1 := hc1.1
  have hnd2 := hc2.1
  have hlast1 : w.lastOf l1 = some (L1.getD (L1.length - 1) 0) := by
    have := represents_lastOf hrep1 hL1
    rwa [cyc_of_lt (by omega)] at this
  have hlast2 : w.lastOf l2 = some (L2.getD (L2.length - 1) 0) := by
    have := represents_lastOf hrep2 hL2
    rwa [cyc_of_lt (by omega)] at this
  obtain ⟨hcur1, hprev1, hnext1⟩ := hpos1
  obtain ⟨hcur2, hprev2, hnext2⟩ := hpos2
  rw [cyc_of_lt hi] at hcur1
  rw [cyc_of_lt hj] at hcur2
  have hip1lt : (if i = 0 then L1.length - 1 else i - 1) < L1.length := by
    split_ifs <;> omega
  have hinx1lt : (if i = L1.length - 1 then 0 else i + 1) < L1.length := by
    split_ifs <;> omega
  have hjp2lt : (if j = 0 then L2.length - 1 else j - 1) < L2.length := by
    split_ifs <;> omega
  have hjnx2lt : (if j = L2.length - 1 then 0 else j + 1) < L2.length := by
    split_ifs <;> omega
  have hip1ne : ¬ (if i = 0 then L1.length - 1 else i - 1) = i := by
    split_ifs <;> omega
  have hinx1ne : ¬ (if i = L1.length - 1 then 0 else i + 1) = i := by
    split_ifs <;> omega
  have hjp2ne : ¬ (if j = 0 then L2.length - 1 else j - 1) = j := by
    split_ifs <;> omega
  have hjnx2ne : ¬ (if j = L2.length - 1 then 0 else j + 1) = j := by
    split_ifs <;> omega
  have hprev1' : it.prev =
      some (L1.getD (if i = 0 then L1.length - 1 else i - 1) 0) := by
    rw [hprev1]
    congr 1
    rw [(by split_ifs <;> omega :
      i + L1.length - 1 = (if i = 0 then L1.length - 1 else i - 1) +
        (if i = 0 then 0 else L1.length))]
    split_ifs with h0
    · rw [Nat.add_zero, cyc_of_lt (by omega)]
    · rw [cyc_add_length, cyc_of_lt (by omega)]
  have hnext1' : it.next =
      some (L1.getD (if i = L1.length - 1 then 0 else i + 1) 0) := by
    rw [hnext1]
    congr 1
    by_cases hil : i = L1.length - 1
    · rw [if_pos hil, hil, (by omega : L1.length - 1 + 1 = L1.length)]
      unfold cyc
      rw [Nat.mod_self]
    · rw [if_neg hil, cyc_of_lt (by omega)]
  have hprev2' : ot.prev =
      some (L2.getD (if j = 0 then L2.length - 1 else j - 1) 0) := by
    rw [hprev2]
    congr 1
    rw [(by split_ifs <;> omega :
      j + L2.length - 1 = (if j = 0 then L2.length - 1 else j - 1) +
        (if j = 0 then 0 else L2.length))]
    split_ifs with h0
    · rw [Nat.add_zero, cyc_of_lt (by omega)]
    · rw [cyc_add_length, cyc_of_lt (by omega)]
  have hnext2' : ot.next =
      some (L2.getD (if j = L2.length - 1 then 0 else j + 1) 0) := by
    rw [hnext2]
    congr 1
    by_cases hjl : j = L2.length - 1
    · rw [if_pos hjl, hjl, (by omega : L2.length - 1 + 1 = L2.length)]
      unfold cyc
      rw [Nat.mod_self]
    · rw [if_neg hjl, cyc_of_lt (by omega)]
  have hx12 : ∀ a b, a < L1.length → b < L2.length →
      ¬ L1.getD a 0 = L2.getD b 0 := by
    intro a b ha hb he
    exact hdisj _ (getD_mem ha) (by rw [he]; exact getD_mem hb)
  have hx21 : ∀ a b, a < L2.length → b < L1.length →
      ¬ L2.getD a 0 = L1.getD b 0 := by
    intro a b ha hb he
    exact hdisj _ (getD_mem hb) (by rw [← he]; exact getD_mem ha)
  have hne11 : ∀ a b, a < L1.length → b < L1.length → ¬ a = b →
      ¬ L1.getD a 0 = L1.getD b 0 := by
    intro a b ha hb hab he
    exact hab (getD_inj hnd1 ha hb he)
  have hne22 : ∀ a b, a < L2.length → b < L2.length → ¬ a = b →
      ¬ L2.getD a 0 = L2.getD b 0 := by
    intro a b ha hb hab he
    exact hab (getD_inj hnd2 ha hb he)
  have hne1 : ¬ w.lastOf it.list = none := by rw [hitl, hlast1]; simp
  have hne2 : ¬ w.lastOf ot.list = none := by rw [hotl, hlast2]; simp
  have hdist : ¬ it.current = ot.current := by
    rw [hcur1, hcur2]
    simp only [Option.some.injEq]
    exact hx12 i j hi hj
  have hadj : ¬ (it.next = ot.current ∨ ot.next = it.current) := by
    push_neg
    constructor
    · rw [hnext1', hcur2]
      simp only [ne_eq, Option.some.injEq]
      exact hx12 _ j hinx1lt hj
    · rw [hnext2', hcur1]
      simp only [ne_eq, Option.some.injEq]
      exact hx21 _ i hjnx2lt hi
  have hexch := exchange_ok hne1 hne2 hdist hcur1 hcur2
  rw [exchange_relink, if_neg hadj, hprev1', hnext1', hprev2', hnext2']
    at hexch
  simp only [setNxtP_some, setPrvP_some] at hexch
  obtain ⟨BW, hBW⟩ : ∃ BW,
      ((((((((w.setNxt (L1.getD (if i = 0 then L1.length - 1 else i - 1) 0)
        (some (L2.getD j 0))).setNxt (L1.getD i 0)
        (some (L2.getD (if j = L2.length - 1 then 0 else j + 1) 0))).setPrv
        (L1.getD i 0)
        (some (L2.getD (if j = 0 then L2.length - 1 else j - 1) 0))).setPrv
        (L1.getD (if i = L1.length - 1 then 0 else i + 1) 0)
        (some (L2.getD j 0))).setNxt
        (L2.getD (if j = 0 then L2.length - 1 else j - 1) 0)
        (some (L1.getD i 0))).setNxt (L2.getD j 0)
        (some (L1.getD (if i = L1.length - 1 then 0 else i + 1) 0))).setPrv
        (L2.getD j 0)
        (some (L1.getD (if i = 0 then L1.length - 1 else i - 1) 0))).setPrv
        (L2.getD (if j = L2.length - 1 then 0 else j + 1) 0)
        (some (L1.getD i 0))) = BW := ⟨_, rfl⟩
  rw [hBW] at hexch
  have hBWlast : ∀ l, BW.lastOf l = w.lastOf l := by
    intro l
    rw [← hBW]
    simp only [lastOf_setNxt, lastOf_setPrv]
  have hBWnxt : ∀ z, BW.nxt z =
      if z = L2.getD j 0 then
        some (L1.getD (if i = L1.length - 1 then 0 else i + 1) 0)
      else if z = L2.getD (if j = 0 then L2.length - 1 else j - 1) 0 then
        some (L1.getD i 0)
      else if z = L1.getD i 0 then
        some (L2.getD (if j = L2.length - 1 then 0 else j + 1) 0)
      else if z = L1.getD (if i = 0 then L1.length - 1 else i - 1) 0 then
        some (L2.getD j 0)
      else w.nxt z := by
    intro z
    rw [← hBW]
    simp only [nxt_setPrv, nxt_setNxt]
  have hBWprv : ∀ z, BW.prv z =
      if z = L2.getD (if j = L2.length - 1 then 0 else j + 1) 0 then
        some (L1.getD i 0)
      else if z = L2.getD j 0 then
        some (L1.getD (if i = 0 then L1.length - 1 else i - 1) 0)
      else if z = L1.getD (if i = L1.length - 1 then 0 else i + 1) 0 then
        some (L2.getD j 0)
      else if z = L1.getD i 0 then
        some (L2.getD (if j = 0 then L2.length - 1 else j - 1) 0)
      else w.prv z := by
    intro z
    rw [← hBW]
    simp only [prv_setNxt, prv_setPrv]
  have hnxtp1 : BW.nxt (L1.getD (if i = 0 then L1.length - 1 else i - 1) 0) =
      some (L2.getD j 0) := by
    rw [hBWnxt]
    rw [if_neg (hx12 _ j hip1lt hj), if_neg (hx12 _ _ hip1lt hjp2lt),
      if_neg (hne11 _ i hip1lt hi hip1ne)]
    simp
  have hnxtx1 : BW.nxt (L2.getD j 0) =
      some (L1.getD (if i = L1.length - 1 then 0 else i + 1) 0) := by
    rw [hBWnxt]
    simp
  have hprvx1 : BW.prv (L2.getD j 0) =
      some (L1.getD (if i = 0 then L1.length - 1 else i - 1) 0) := by
    rw [hBWprv]
    rw [if_neg (hne22 j _ hj hjnx2lt (fun he => hjnx2ne he.symm))]
    simp
  have hprvn1 : BW.prv (L1.getD (if i = L1.length - 1 then 0 else i + 1) 0) =
      some (L2.getD j 0) := by
    rw [hBWprv]
    rw [if_neg (hx12 _ _ hinx1lt hjnx2lt), if_neg (hx12 _ j hinx1lt hj)]
    simp
  have hont1 : ∀ y, y ∈ L1 →
      ¬ y = L1.getD (if i = 0 then L1.length - 1 else i - 1) 0 →
      ¬ y = L1.getD i 0 → BW.nxt y = w.nxt y := by
    intro y hy hyp hyc
    rw [hBWnxt]
    rw [if_neg (fun he : y = L2.getD j 0 =>
        hdisj y hy (he.symm ▸ getD_mem hj)),
      if_neg (fun he : y = L2.getD (if j = 0 then L2.length - 1 else j - 1) 0
        => hdisj y hy (he.symm ▸ getD_mem hjp2lt)),
      if_neg hyc, if_neg hyp]
  have honp1 : ∀ y, y ∈ L1 →
      ¬ y = L1.getD (if i = L1.length - 1 then 0 else i + 1) 0 →
      ¬ y = L1.getD i 0 → BW.prv y = w.prv y := by
    intro y hy hyn hyc
    rw [hBWprv]
    rw [if_neg
        (fun he : y = L2.getD (if j = L2.length - 1 then 0 else j + 1) 0
          => hdisj y hy (he.symm ▸ getD_mem hjnx2lt)),
      if_neg (fun he : y = L2.getD j 0 =>
        hdisj y hy (he.symm ▸ getD_mem hj)),
      if_neg hyn, if_neg hyc]
  have hnxtp2 : BW.nxt (L2.getD (if j = 0 then L2.length - 1 else j - 1) 0) =
      some (L1.getD i 0) := by
    rw [hBWnxt]
    rw [if_neg (hne22 _ j hjp2lt hj hjp2ne)]
    simp
  have hnxtx2 : BW.nxt (L1.getD i 0) =
      some (L2.getD (if j = L2.length - 1 then 0 else j + 1) 0) := by
    rw [hBWnxt]
    rw [if_neg (hx12 i j hi hj), if_neg (hx12 i _ hi hjp2lt)]
    simp
  have hprvx2 : BW.prv (L1.getD i 0) =
      some (L2.getD (if j = 0 then L2.length - 1 else j - 1) 0) := by
    rw [hBWprv]
    rw [if_neg (hx12 i _ hi hjnx2lt), if_neg (hx12 i j hi hj),
      if_neg (hne11 i _ hi hinx1lt (fun he => hinx1ne he.symm))]
    simp
  have hprvn2 : BW.prv (L2.getD (if j = L2.length - 1 then 0 else j + 1) 0) =
      some (L1.getD i 0) := by
    rw [hBWprv]
    simp
  have hont2 : ∀ y, y ∈ L2 →
      ¬ y = L2.getD (if j = 0 then L2.length - 1 else j - 1) 0 →
      ¬ y = L2.getD j 0 → BW.nxt y = w.nxt y := by
    intro y hy hyp hyc
    rw [hBWnxt]
    rw [if_neg hyc, if_neg hyp,
      if_neg (fun he : y = L1.getD i 0 =>
        hdisj _ (getD_mem hi) (he ▸ hy)),
      if_neg (fun he : y = L1.getD (if i = 0 then L1.length - 1 else i - 1) 0
        => hdisj _ (getD_mem hip1lt) (he ▸ hy))]
  have honp2 : ∀ y, y ∈ L2 →
      ¬ y = L2.getD (if j = L2.length - 1 then 0 else j + 1) 0 →
      ¬ y = L2.getD j 0 → BW.prv y = w.prv y := by
    intro y hy hyn hyc
    rw [hBWprv]
    rw [if_neg hyn, if_neg hyc,
      if_neg
        (fun he : y = L1.getD (if i = L1.length - 1 then 0 else i + 1) 0
          => hdisj _ (getD_mem hinx1lt) (he ▸ hy)),
      if_neg (fun he : y = L1.getD i 0 =>
        hdisj _ (getD_mem hi) (he ▸ hy))]
  have hok1 : chainOk BW (L1.set i (L2.getD j 0)) :=
    chainOk_set hc1 h1 hi (fun hm => hdisj _ hm (getD_mem hj)) hnxtp1 hnxtx1
      hprvx1 hprvn1 hont1 honp1
  have hok2 : chainOk BW (L2.set j (L1.getD i 0)) :=
    chainOk_set hc2 h2 hj (hdisj _ (getD_mem hi)) hnxtp2 hnxtx2 hprvx2 hprvn2
      hont2 honp2
  have hgetD1 : (L1.set i (L2.getD j 0)).getD (L1.length - 1) 0 =
      if i = L1.length - 1 then L2.getD j 0 else L1.getD (L1.length - 1) 0 := by
    split_ifs with hi1
    · rw [← hi1, getD_set_self hi]
    · rw [getD_set_ne hi1]
  have hgetD2 : (L2.set j (L1.getD i 0)).getD (L2.length - 1) 0 =
      if j = L2.length - 1 then L1.getD i 0 else L2.getD (L2.length - 1) 0 := by
    split_ifs with hj1
    · rw [← hj1, getD_set_self hj]
    · rw [getD_set_ne hj1]
  have hsetne1 : ¬ L1.set i (L2.getD j 0) = [] := by
    intro h
    have hlen := congrArg List.length h
    rw [List.length_set] at hlen
    simp only [List.length_nil] at hlen
    omega
  have hsetne2 : ¬ L2.set j (L1.getD i 0) = [] := by
    intro h
    have hlen := congrArg List.length h
    rw [List.length_set] at hlen
    simp only [List.length_nil] at hlen
    omega
  refine ⟨(exchange_roles (BW, it, ot)).1, (exchange_roles (BW, it, ot)).2.1,
    (exchange_roles (BW, it, ot)).2.2, hexch, ?_, ?_, ?_, ?_, ?_, ?_⟩
  · rw [represents, if_neg hsetne1]
    refine ⟨?_, chainOk_of_links (exchange_roles_links (BW, it, ot)).1
      (exchange_roles_links (BW, it, ot)).2 hok1⟩
    rw [exchange_roles_lastOf]
    dsimp only
    rw [List.length_set, hgetD1, hitl, hotl, hcur1, hcur2, hBWlast, hlast1]
    by_cases hi1 : i = L1.length - 1
    · have hc1t : (some (L1.getD (L1.length - 1) 0) : Ptr) =
          some (L1.getD i 0) := by rw [hi1]
      rw [if_pos hc1t, if_pos hi1]
      simp only [lastOf_setLast, hBWlast, hlast2]
      rw [if_neg (fun hh : l2 = l1 => hl12 hh.symm)]
      by_cases hj1 : j = L2.length - 1
      · have hc2t : (some (L2.getD (L2.length - 1) 0) : Ptr) =
            some (L2.getD j 0) := by rw [hj1]
        rw [if_pos hc2t, if_neg hl12]
        simp
      · have hc2f : ¬ (some (L2.getD (L2.length - 1) 0) : Ptr) =
            some (L2.getD j 0) := by
          simp only [Option.some.injEq]
          exact hne22 _ j (by omega) hj (fun hh => hj1 hh.symm)
        rw [if_neg hc2f]
        simp
    · have hc1f : ¬ (some (L1.getD (L1.length - 1) 0) : Ptr) =
          some (L1.getD i 0) := by
        simp only [Option.some.injEq]
        exact hne11 _ i (by omega) hi (fun hh => hi1 hh.symm)
      rw [if_neg hc1f, if_neg hi1]
      simp only [lastOf_setLast, hBWlast, hlast2]
      by_cases hj1 : j = L2.length - 1
      · have hc2t : (some (L2.getD (L2.length - 1) 0) : Ptr) =
            some (L2.getD j 0) := by rw [hj1]
        rw [if_pos hc2t, if_neg hl12]
        exact hlast1
      · have hc2f : ¬ (some (L2.getD (L2.length - 1) 0) : Ptr) =
            some (L2.getD j 0) := by
          simp only [Option.some.injEq]
          exact hne22 _ j (by omega) hj (fun hh => hj1 hh.symm)
        rw [if_neg hc2f]
        exact hlast1
  · rw [represents, if_neg hsetne2]
    refine ⟨?_, chainOk_of_links (exchange_roles_links (BW, it, ot)).1
      (exchange_roles_links (BW, it, ot)).2 hok2⟩
    rw [exchange_roles_lastOf]
    dsimp only
    rw [List.length_set, hgetD2, hitl, hotl, hcur1, hcur2, hBWlast, hlast1]
    by_cases hi1 : i = L1.length - 1
    · have hc1t : (some (L1.getD (L1.length - 1) 0) : Ptr) =
          some (L1.getD i 0) := by rw [hi1]
      rw [if_pos hc1t]
      simp only [lastOf_setLast, hBWlast, hlast2]
      rw [if_neg (fun hh : l2 = l1 => hl12 hh.symm)]
      by_cases hj1 : j = L2.length - 1
      · have hc2t : (some (L2.getD (L2.length - 1) 0) : Ptr) =
            some (L2.getD j 0) := by rw [hj1]
        rw [if_pos hc2t, if_pos hj1]
        simp
      · have hc2f : ¬ (some (L2.getD (L2.length - 1) 0) : Ptr) =
            some (L2.getD j 0) := by
          simp only [Option.some.injEq]
          exact hne22 _ j (by omega) hj (fun hh => hj1 hh.symm)
        rw [if_neg hc2f, if_neg hj1]
    · have hc1f : ¬ (some (L1.getD (L1.length - 1) 0) : Ptr) =
          some (L1.getD i 0) := by
        simp only [Option.some.injEq]
        exact hne11 _ i (by omega) hi (fun hh => hi1 hh.symm)
      rw [if_neg hc1f]
      simp only [lastOf_setLast, hBWlast, hlast2]
      by_cases hj1 : j = L2.length - 1
      · have hc2t : (some (L2.getD (L2.length - 1) 0) : Ptr) =
            some (L2.getD j 0) := by rw [hj1]
        rw [if_pos hc2t, if_pos hj1]
        simp
      · have hc2f : ¬ (some (L2.getD (L2.length - 1) 0) : Ptr) =
            some (L2.getD j 0) := by
          simp only [Option.some.injEq]
          exact hne22 _ j (by omega) hj (fun hh => hj1 hh.symm)
        rw [if_neg hc2f, if_neg hj1]
  · exact (exchange_roles_fields (BW, it, ot)).1.trans hitl
  · exact (exchange_roles_fields (BW, it, ot)).2.2.2.1.trans hotl
  · refine ⟨?_, ?_, ?_⟩
    · rw [(exchange_roles_currents (BW, it, ot)).1]
      dsimp only
      rw [hcur2, cyc_set_self hi]
    · rw [(exchange_roles_fields (BW, it, ot)).2.1]
      dsimp only
      rw [hprev1', List.length_set, cyc_set_pred h1 hi]
    · rw [(exchange_roles_fields (BW, it, ot)).2.2.1]
      dsimp only
      rw [hnext1', cyc_set_succ h1 hi]
  · refine ⟨?_, ?_, ?_⟩
    · rw [(exchange_roles_currents (BW, it, ot)).2.1]
      dsimp only
      rw [hcur1, cyc_set_self hj]
    · rw [(exchange_roles_fields (BW, it, ot)).2.2.2.2.1]
      dsimp only
      rw [hprev2', List.length_set, cyc_set_pred h2 hj]
    · rw [(exchange_roles_fields (BW, it, ot)).2.2.2.2.2]
      dsimp only
      rw [hnext2', cyc_set_succ h2 hj]

/-- Cyclic predecessor index, as a plain conditional. -/
theorem cyc_pred_idx {L : List Nat} {m : Nat} (hm : m < L.length) :
    cyc L (m + L.length - 1) =
      L.getD (if m = 0 then L.length - 1 else m - 1) 0 := by
  rw [(by split_ifs <;> omega :
    m + L.length - 1 = (if m = 0 then L.length - 1 else m - 1) +
      (if m = 0 then 0 else L.length))]
  split_ifs with h0
  · rw [Nat.add_zero, cyc_of_lt (by omega)]
  · rw [cyc_add_length, cyc_of_lt (by omega)]

/-- Cyclic successor index, as a plain conditional. -/
theorem cyc_succ_idx {L : List Nat} {m : Nat} (hm : m < L.length) :
    cyc L (m + 1) = L.getD (if m = L.length - 1 then 0 else m + 1) 0 := by
  by_cases hm1 : m = L.length - 1
  · rw [if_pos hm1, hm1, (by omega : L.length - 1 + 1 = L.length)]
    unfold cyc
    rw [Nat.mod_self]
  · rw [if_neg hm1, cyc_of_lt (by omega)]

/-- Build `chainOk` from the per-index link obligations in conditional
(index) form. -/
theorem chainOk_getD {W : World} {S : List Nat} (hnd : S.Nodup)
    (h : ∀ k, k < S.length →
      W.nxt (S.getD k 0) =
        some (S.getD (if k = S.length - 1 then 0 else k + 1) 0) ∧
      W.prv (S.getD (if k = S.length - 1 then 0 else k + 1) 0) =
        some (S.getD k 0)) :
    chainOk W S := by
  refine ⟨hnd, ?_⟩
  intro k hk
  rw [cyc_of_lt hk, cyc_succ_idx hk]
  exact h k hk

/-- A list whose in-range `getD` reads are injective has no duplicates. -/
theorem nodup_of_getD_inj {S : List Nat}
    (h : ∀ p q, p < S.length → q < S.length →
      S.getD p 0 = S.getD q 0 → p = q) :
    S.Nodup := by
  rw [List.nodup_iff_injective_get]
  intro x y he
  obtain ⟨p, hp⟩ := x
  obtain ⟨q, hq⟩ := y
  apply Fin.ext
  refine h p q hp hq ?_
  rw [List.getD_eq_getElem S 0 hp, List.getD_eq_getElem S 0 hq]
  simpa [List.get_eq_getElem] using he

/-- Reading the two-position swap of a list. -/
theorem swap_getD {L : List Nat} {i j : Nat} (hi : i < L.length)
    (hj : j < L.length) (k : Nat) :
    ((L.set i (L.getD j 0)).set j (L.getD i 0)).getD k 0 =
      if k = j then L.getD i 0
      else if k = i then L.getD j 0
      else L.getD k 0 := by
  split_ifs with h1 h2
  · rw [h1, getD_set_self (by rw [List.length_set]; omega)]
  · rw [getD_set_ne (fun hh => h1 hh.symm), h2, getD_set_self hi]
  · rw [getD_set_ne (fun hh => h1 hh.symm), getD_set_ne (fun hh => h2 hh.symm)]

/-- Swapping two positions of a duplicate-free list keeps it
duplicate-free. -/
theorem nodup_swap {L : List Nat} {i j : Nat} (hnd : L.Nodup)
    (hi : i < L.length) (hj : j < L.length) :
    ((L.set i (L.getD j 0)).set j (L.getD i 0)).Nodup := by
  have hSlen : ((L.set i (L.getD j 0)).set j (L.getD i 0)).length =
      L.length := by
    rw [List.length_set, List.length_set]
  apply nodup_of_getD_inj
  intro p q hp hq he
  rw [hSlen] at hp hq
  rw [swap_getD hi hj p, swap_getD hi hj q] at he
  split_ifs at he <;>
    (have hg := getD_inj hnd (by omega) (by omega) he; omega)

/-- The sequential `last` bookkeeping of `exchange` when both cursors live
on the same list `lid` whose `last` is node `t`: if `t` was this cursor's
current the first check moves `last` to the other current and the second
check immediately refires, returning it to this cursor's former current;
if `t` was the other cursor's current only the second check fires, moving
`last` to this cursor's current; otherwise `last` is untouched.  Other
lists' `last` references never move. -/
theorem exchange_roles_last_same
    (r : World × ELIST2_ITERATOR × ELIST2_ITERATOR) (lid t a b : Nat)
    (hl1 : r.2.1.list = lid) (hl2 : r.2.2.list = lid)
    (hc1 : r.2.1.current = some a) (hc2 : r.2.2.current = some b)
    (hlast : r.1.lastOf lid = some t) :
    (exchange_roles r).1.lastOf lid =
      some (if t = a ∨ t = b then a else t) ∧
    ∀ l, ¬ l = lid → (exchange_roles r).1.lastOf l = r.1.lastOf l := by
  constructor
  · rw [exchange_roles_lastOf r lid, hl1, hl2, hc1, hc2, hlast]
    by_cases hta : t = a
    · have he1 : (some t : Ptr) = some a := by rw [hta]
      rw [if_pos he1]
      have he2 : (r.1.setLast lid (some b)).lastOf lid = some b := by
        rw [lastOf_setLast, if_pos rfl]
      rw [if_pos he2]
      simp only [lastOf_setLast]
      simp [hta]
    · have he1 : ¬ (some t : Ptr) = some a := by
        simp only [Option.some.injEq]
        exact hta
      rw [if_neg he1, hlast]
      by_cases htb : t = b
      · have he2 : (some t : Ptr) = some b := by rw [htb]
        rw [if_pos he2, lastOf_setLast, if_pos rfl,
          if_pos (Or.inr htb)]
      · have he2 : ¬ (some t : Ptr) = some b := by
          simp only [Option.some.injEq]
          exact htb
        rw [if_neg he2, if_neg (by push_neg; exact ⟨hta, htb⟩)]
  · intro l hl
    rw [exchange_roles_lastOf r l, hl1, hl2, hc1, hc2, hlast]
    split_ifs <;> simp [lastOf_setLast, hl]

/-- A successful `exchange` between two cursors on one shared list (length
at least two, `last` at node `t`, distinct positions `i ≠ j`) swaps the two
current nodes in place: the chain becomes the position-swapped list, each
cursor stays at its position with the currents swapped, and `last` moves by
the source's sequential rule: to this cursor's former current when either
swapped node held the `last` role (when this cursor's own current held it
the second check refires), untouched otherwise.  All four relink shapes
(doubleton, the two adjacent orders, no overlap) are covered. -/
theorem exchange_same {w : World} {lid t : Nat} {L : List Nat}
    {it ot : ELIST2_ITERATOR} {i j : Nat}
    (hch : chainOk w L) (hlen : 2 ≤ L.length)
    (hlast : w.lastOf lid = some t)
    (hitl : it.list = lid) (hotl : ot.list = lid)
    (hpos1 : posAt L i it) (hpos2 : posAt L j ot)
    (hi : i < L.length) (hj : j < L.length) (hij : ¬ i = j) :
    ∃ w' it' ot', it.exchange w ot = .ok (w', it', ot') ∧
      chainOk w' ((L.set i (L.getD j 0)).set j (L.getD i 0)) ∧
      w'.lastOf lid =
        some (if t = L.getD i 0 ∨ t = L.getD j 0 then L.getD i 0 else t) ∧
      (∀ l, ¬ l = lid → w'.lastOf l = w.lastOf l) ∧
      it'.list = lid ∧ ot'.list = lid ∧
      posAt ((L.set i (L.getD j 0)).set j (L.getD i 0)) i it' ∧
      posAt ((L.set i (L.getD j 0)).set j (L.getD i 0)) j ot' := by
  have hL : L ≠ [] := by intro h; rw [h] at hlen; simp at hlen
  have hnd := hch.1
  obtain ⟨hcur1, hprev1, hnext1⟩ := hpos1
  obtain ⟨hcur2, hprev2, hnext2⟩ := hpos2
  rw [cyc_of_lt hi] at hcur1
  rw [cyc_of_lt hj] at hcur2
  rw [cyc_pred_idx hi] at hprev1
  rw [cyc_succ_idx hi] at hnext1
  rw [cyc_pred_idx hj] at hprev2
  rw [cyc_succ_idx hj] at hnext2
  set ip := if i = 0 then L.length - 1 else i - 1 with hip
  set inx := if i = L.length - 1 then 0 else i + 1 with hinx
  set jp := if j = 0 then L.length - 1 else j - 1 with hjp
  set jn := if j = L.length - 1 then 0 else j + 1 with hjn
  have hiplt : ip < L.length := by rw [hip]; split_ifs <;> omega
  have hinxlt : inx < L.length := by rw [hinx]; split_ifs <;> omega
  have hjplt : jp < L.length := by rw [hjp]; split_ifs <;> omega
  have hjnlt : jn < L.length := by rw [hjn]; split_ifs <;> omega
  have hipi : ¬ ip = i := by rw [hip]; split_ifs <;> omega
  have hinxi : ¬ inx = i := by rw [hinx]; split_ifs <;> omega
  have hjpj : ¬ jp = j := by rw [hjp]; split_ifs <;> omega
  have hjnj : ¬ jn = j := by rw [hjn]; split_ifs <;> omega
  have hipjn : ip = j ↔ jn = i := by rw [hip, hjn]; split_ifs <;> omega
  have hjpinx : jp = i ↔ inx = j := by rw [hjp, hinx]; split_ifs <;> omega
  have hne : ∀ p q, p < L.length → q < L.length → ¬ p = q →
      ¬ L.getD p 0 = L.getD q 0 :=
    fun p q hp hq hpq he => hpq (getD_inj hnd hp hq he)
  have hSlen : ((L.set i (L.getD j 0)).set j (L.getD i 0)).length =
      L.length := by
    rw [List.length_set, List.length_set]
  have hSnd : ((L.set i (L.getD j 0)).set j (L.getD i 0)).Nodup :=
    nodup_swap hnd hi hj
  have hSi : ((L.set i (L.getD j 0)).set j (L.getD i 0)).getD i 0 =
      L.getD j 0 := by
    rw [swap_getD hi hj i, if_neg hij, if_pos rfl]
  have hSj : ((L.set i (L.getD j 0)).set j (L.getD i 0)).getD j 0 =
      L.getD i 0 := by
    rw [swap_getD hi hj j, if_pos rfl]
  have hSother : ∀ m, ¬ m = i → ¬ m = j →
      ((L.set i (L.getD j 0)).set j (L.getD i 0)).getD m 0 = L.getD m 0 := by
    intro m hmi hmj
    rw [swap_getD hi hj m, if_neg hmj, if_neg hmi]
  have hwnxt : ∀ m, m < L.length → w.nxt (L.getD m 0) =
      some (L.getD (if m = L.length - 1 then 0 else m + 1) 0) := by
    intro m hm
    have h := (hch.2 m hm).1
    rw [cyc_of_lt hm, cyc_succ_idx hm] at h
    exact h
  have hwprv : ∀ m, m < L.length →
      w.prv (L.getD (if m = L.length - 1 then 0 else m + 1) 0) =
        some (L.getD m 0) := by
    intro m hm
    have h := (hch.2 m hm).2
    rw [cyc_of_lt hm, cyc_succ_idx hm] at h
    exact h
  have hilt' : i < ((L.set i (L.getD j 0)).set j (L.getD i 0)).length := by
    rw [hSlen]; omega
  have hjlt' : j < ((L.set i (L.getD j 0)).set j (L.getD i 0)).length := by
    rw [hSlen]; omega
  have hcySi : cyc ((L.set i (L.getD j 0)).set j (L.getD i 0)) i =
      L.getD j 0 := by
    rw [cyc_of_lt hilt', hSi]
  have hcySj : cyc ((L.set i (L.getD j 0)).set j (L.getD i 0)) j =
      L.getD i 0 := by
    rw [cyc_of_lt hjlt', hSj]
  have hcySpi : cyc ((L.set i (L.getD j 0)).set j (L.getD i 0))
      (i + ((L.set i (L.getD j 0)).set j (L.getD i 0)).length - 1) =
      ((L.set i (L.getD j 0)).set j (L.getD i 0)).getD ip 0 := by
    rw [cyc_pred_idx hilt', hSlen, ← hip]
  have hcySsi : cyc ((L.set i (L.getD j 0)).set j (L.getD i 0)) (i + 1) =
      ((L.set i (L.getD j 0)).set j (L.getD i 0)).getD inx 0 := by
    rw [cyc_succ_idx hilt', hSlen, ← hinx]
  have hcySpj : cyc ((L.set i (L.getD j 0)).set j (L.getD i 0))
      (j + ((L.set i (L.getD j 0)).set j (L.getD i 0)).length - 1) =
      ((L.set i (L.getD j 0)).set j (L.getD i 0)).getD jp 0 := by
    rw [cyc_pred_idx hjlt', hSlen, ← hjp]
  have hcySsj : cyc ((L.set i (L.getD j 0)).set j (L.getD i 0)) (j + 1) =
      ((L.set i (L.getD j 0)).set j (L.getD i 0)).getD jn 0 := by
    rw [cyc_succ_idx hjlt', hSlen, ← hjn]
  have hne1 : ¬ w.lastOf it.list = none := by rw [hitl, hlast]; simp
  have hne2 : ¬ w.lastOf ot.list = none := by rw [hotl, hlast]; simp
  have hdist : ¬ it.current = ot.current := by
    rw [hcur1, hcur2]
    simp only [Option.some.injEq]
    exact hne i j hi hj hij
  have hexch := exchange_ok hne1 hne2 hdist hcur1 hcur2
  have hcond1 : it.next = ot.current ↔ inx = j := by
    rw [hnext1, hcur2]
    simp only [Option.some.injEq]
    constructor
    · intro he
      exact getD_inj hnd hinxlt hj he
    · intro he
      rw [he]
  have hcond2 : ot.next = it.current ↔ jn = i := by
    rw [hnext2, hcur1]
    simp only [Option.some.injEq]
    constructor
    · intro he
      exact getD_inj hnd hjnlt hi he
    · intro he
      rw [he]
  by_cases ha1 : inx = j
  · by_cases ha2 : jn = i
    · -- doubleton list: the world is untouched
      have ha1' := ha1
      have ha2' := ha2
      rw [hinx] at ha1'
      rw [hjn] at ha2'
      have h2 : L.length = 2 := by split_ifs at ha1' ha2' <;> omega
      have hipj : ip = j := hipjn.mpr ha2
      have hjpi : jp = i := hjpinx.mpr ha1
      rw [exchange_relink, if_pos (Or.inl (hcond1.mpr ha1)),
        if_pos ⟨hcond1.mpr ha1, hcond2.mpr ha2⟩] at hexch
      obtain ⟨R, hR⟩ : ∃ R,
          ((w, ({it with
                  prev := it.current,
                  next := it.current} : ELIST2_ITERATOR),
            ({ot with
                  prev := ot.current,
                  next := ot.current} : ELIST2_ITERATOR)) :
            World × ELIST2_ITERATOR × ELIST2_ITERATOR) = R := ⟨_, rfl⟩
      rw [hR] at hexch
      have hRw : R.1 = w := by rw [← hR]
      have hRl1 : R.2.1.list = lid := by rw [← hR]; exact hitl
      have hRl2 : R.2.2.list = lid := by rw [← hR]; exact hotl
      have hRc1 : R.2.1.current = some (L.getD i 0) := by rw [← hR]; exact hcur1
      have hRc2 : R.2.2.current = some (L.getD j 0) := by rw [← hR]; exact hcur2
      have hRp1 : R.2.1.prev = some (L.getD i 0) := by rw [← hR]; exact hcur1
      have hRn1 : R.2.1.next = some (L.getD i 0) := by rw [← hR]; exact hcur1
      have hRp2 : R.2.2.prev = some (L.getD j 0) := by rw [← hR]; exact hcur2
      have hRn2 : R.2.2.next = some (L.getD j 0) := by rw [← hR]; exact hcur2
      have hchainS : chainOk w ((L.set i (L.getD j 0)).set j (L.getD i 0)) := by
        refine chainOk_getD hSnd ?_
        intro k hk
        rw [hSlen] at hk
        rw [hSlen]
        rcases (by omega : k = i ∨ k = j) with hk1 | hk1
        · rw [hk1]
          constructor
          · rw [hSi, ← hinx, ha1, hSj]
            have h := hwnxt j hj
            rw [← hjn, ha2] at h
            exact h
          · rw [← hinx, ha1, hSj, hSi]
            have h := hwprv j hj
            rw [← hjn, ha2] at h
            exact h
        · rw [hk1]
          constructor
          · rw [hSj, ← hjn, ha2, hSi]
            have h := hwnxt i hi
            rw [← hinx, ha1] at h
            exact h
          · rw [← hjn, ha2, hSi, hSj]
            have h := hwprv i hi
            rw [← hinx, ha1] at h
            exact h
      refine ⟨(exchange_roles R).1, (exchange_roles R).2.1,
        (exchange_roles R).2.2, hexch, ?_, ?_, ?_, ?_, ?_, ?_, ?_⟩
      · exact chainOk_of_links (exchange_roles_links R).1
          (exchange_roles_links R).2 (by rw [hRw]; exact hchainS)
      · exact (exchange_roles_last_same R lid t (L.getD i 0) (L.getD j 0)
          hRl1 hRl2 hRc1 hRc2 (by rw [hRw]; exact hlast)).1
      · intro l hl
        refine ((exchange_roles_last_same R lid t (L.getD i 0) (L.getD j 0)
          hRl1 hRl2 hRc1 hRc2 (by rw [hRw]; exact hlast)).2 l hl).trans ?_
        rw [hRw]
      · exact (exchange_roles_fields R).1.trans hRl1
      · exact (exchange_roles_fields R).2.2.2.1.trans hRl2
      · refine ⟨?_, ?_, ?_⟩
        · rw [hcySi, (exchange_roles_currents R).1, hRc2]
        · rw [hcySpi, (exchange_roles_fields R).2.1, hRp1, hipj, hSj]
        · rw [hcySsi, (exchange_roles_fields R).2.2.1, hRn1, ha1, hSj]
      · refine ⟨?_, ?_, ?_⟩
        · rw [hcySj, (exchange_roles_currents R).2.1, hRc1]
        · rw [hcySpj, (exchange_roles_fields R).2.2.2.2.1, hRp2, hjpi, hSi]
        · rw [hcySsj, (exchange_roles_fields R).2.2.2.2.2, hRn2, ha2, hSi]
    · -- non-doubleton, adjacent, this before other
      have ha1' := ha1
      have ha2' := ha2
      rw [hinx] at ha1'
      rw [hjn] at ha2'
      have h3 : 3 ≤ L.length := by split_ifs at ha1' ha2' <;> omega
      have hipj : ¬ ip = j := fun he => ha2 (hipjn.mp he)
      have hjpi : jp = i := hjpinx.mpr ha1
      have hcadj : it.next = ot.current ∨ ot.next = it.current :=
        Or.inl (hcond1.mpr ha1)
      have hcd : ¬ (it.next = ot.current ∧ ot.next = it.current) :=
        fun hpair => ha2 (hcond2.mp hpair.2)
      have hcno : ¬ ot.next = it.current := fun he => ha2 (hcond2.mp he)
      rw [exchange_relink, if_pos hcadj, if_neg hcd, if_neg hcno, hprev1,
        hnext2] at hexch
      simp only [setNxtP_some, setPrvP_some] at hexch
      obtain ⟨BW, hBW⟩ : ∃ BW,
          ((((((w.setNxt (L.getD ip 0) (some (L.getD j 0))).setNxt
            (L.getD i 0) (some (L.getD jn 0))).setPrv (L.getD i 0)
            (some (L.getD j 0))).setNxt (L.getD j 0)
            (some (L.getD i 0))).setPrv (L.getD j 0)
            (some (L.getD ip 0))).setPrv (L.getD jn 0)
            (some (L.getD i 0))) = BW := ⟨_, rfl⟩
      rw [hBW] at hexch
      obtain ⟨R, hR⟩ : ∃ R,
          ((BW, ({it with
                  prev := some (L.getD ip 0),
                  next := some (L.getD i 0)} : ELIST2_ITERATOR),
            ({ot with
                  prev := some (L.getD j 0),
                  next := some (L.getD jn 0)} : ELIST2_ITERATOR)) :
            World × ELIST2_ITERATOR × ELIST2_ITERATOR) = R := ⟨_, rfl⟩
      rw [hR] at hexch
      have hRw : R.1 = BW := by rw [← hR]
      have hRl1 : R.2.1.list = lid := by rw [← hR]; exact hitl
      have hRl2 : R.2.2.list = lid := by rw [← hR]; exact hotl
      have hRc1 : R.2.1.current = some (L.getD i 0) := by rw [← hR]; exact hcur1
      have hRc2 : R.2.2.current = some (L.getD j 0) := by rw [← hR]; exact hcur2
      have hRp1 : R.2.1.prev = some (L.getD ip 0) := by rw [← hR]
      have hRn1 : R.2.1.next = some (L.getD i 0) := by rw [← hR]
      have hRp2 : R.2.2.prev = some (L.getD j 0) := by rw [← hR]
      have hRn2 : R.2.2.next = some (L.getD jn 0) := by rw [← hR]
      have hBWlast : ∀ l, BW.lastOf l = w.lastOf l := by
        intro l
        rw [← hBW]
        simp only [lastOf_setNxt, lastOf_setPrv]
      have hBWnxt : ∀ z, BW.nxt z =
          if z = L.getD j 0 then some (L.getD i 0)
          else if z = L.getD i 0 then some (L.getD jn 0)
          else if z = L.getD ip 0 then some (L.getD j 0)
          else w.nxt z := by
        intro z
        rw [← hBW]
        simp only [nxt_setPrv, nxt_setNxt]
      have hBWprv : ∀ z, BW.prv z =
          if z = L.getD jn 0 then some (L.getD i 0)
          else if z = L.getD j 0 then some (L.getD ip 0)
          else if z = L.getD i 0 then some (L.getD j 0)
          else w.prv z := by
        intro z
        rw [← hBW]
        simp only [prv_setNxt, prv_setPrv]
      have hchainS : chainOk BW ((L.set i (L.getD j 0)).set j (L.getD i 0)) := by
        refine chainOk_getD hSnd ?_
        intro k hk
        rw [hSlen] at hk
        rw [hSlen]
        rcases (by omega : k = i ∨ k = j ∨ k = ip ∨
            (¬ k = i ∧ ¬ k = j ∧ ¬ k = ip)) with hk1 | hk1 | hk1 | ⟨hk1, hk2, hk3⟩
        · rw [hk1]
          constructor
          · rw [hSi, ← hinx, ha1, hSj, hBWnxt, if_pos rfl]
          · rw [← hinx, ha1, hSj, hSi, hBWprv,
              if_neg (hne i jn hi hjnlt (fun he => ha2 he.symm)),
              if_neg (hne i j hi hj hij), if_pos rfl]
        · rw [hk1]
          constructor
          · rw [hSj, ← hjn, hSother jn ha2 hjnj, hBWnxt,
              if_neg (hne i j hi hj hij), if_pos rfl]
          · rw [← hjn, hSother jn ha2 hjnj, hSj, hBWprv, if_pos rfl]
        · rw [hk1]
          have hsucc : (if ip = L.length - 1 then 0 else ip + 1) = i := by
            rw [hip]
            split_ifs <;> omega
          constructor
          · rw [hSother ip hipi hipj, hsucc, hSi, hBWnxt,
              if_neg (hne ip j hiplt hj hipj),
              if_neg (hne ip i hiplt hi hipi), if_pos rfl]
          · rw [hsucc, hSi, hSother ip hipi hipj, hBWprv,
              if_neg (hne j jn hj hjnlt (fun he => hjnj he.symm)),
              if_pos rfl]
        · have hfa : ¬ (if k = L.length - 1 then 0 else k + 1) = i := by
            have h' := hk3
            rw [hip] at h'
            split_ifs at h' ⊢ <;> omega
          have hfb : ¬ (if k = L.length - 1 then 0 else k + 1) = j := by
            intro he
            rw [← ha1, hinx] at he
            split_ifs at he <;> omega
          have hfc : ¬ (if k = L.length - 1 then 0 else k + 1) = jn := by
            intro he
            rw [hjn] at he
            split_ifs at he <;> omega
          have hslt : (if k = L.length - 1 then 0 else k + 1) < L.length := by
            split_ifs <;> omega
          constructor
          · rw [hSother k hk1 hk2, hSother _ hfa hfb, hBWnxt,
              if_neg (hne k j hk hj hk2), if_neg (hne k i hk hi hk1),
              if_neg (hne k ip hk hiplt hk3)]
            exact hwnxt k hk
          · rw [hSother _ hfa hfb, hSother k hk1 hk2, hBWprv,
              if_neg (hne _ jn hslt hjnlt hfc),
              if_neg (hne _ j hslt hj hfb),
              if_neg (hne _ i hslt hi hfa)]
            exact hwprv k hk
      refine ⟨(exchange_roles R).1, (exchange_roles R).2.1,
        (exchange_roles R).2.2, hexch, ?_, ?_, ?_, ?_, ?_, ?_, ?_⟩
      · exact chainOk_of_links (exchange_roles_links R).1
          (exchange_roles_links R).2 (by rw [hRw]; exact hchainS)
      · exact (exchange_roles_last_same R lid t (L.getD i 0) (L.getD j 0)
          hRl1 hRl2 hRc1 hRc2
          (by rw [hRw]; exact (hBWlast lid).trans hlast)).1
      · intro l hl
        refine ((exchange_roles_last_same R lid t (L.getD i 0) (L.getD j 0)
          hRl1 hRl2 hRc1 hRc2
          (by rw [hRw]; exact (hBWlast lid).trans hlast)).2 l hl).trans ?_
        rw [hRw]
        exact hBWlast l
      · exact (exchange_roles_fields R).1.trans hRl1
      · exact (exchange_roles_fields R).2.2.2.1.trans hRl2
      · refine ⟨?_, ?_, ?_⟩
        · rw [hcySi, (exchange_roles_currents R).1, hRc2]
        · rw [hcySpi, (exchange_roles_fields R).2.1, hRp1,
            hSother ip hipi hipj]
        · rw [hcySsi, (exchange_roles_fields R).2.2.1, hRn1, ha1, hSj]
      · refine ⟨?_, ?_, ?_⟩
        · rw [hcySj, (exchange_roles_currents R).2.1, hRc1]
        · rw [hcySpj, (exchange_roles_fields R).2.2.2.2.1, hRp2, hjpi, hSi]
        · rw [hcySsj, (exchange_roles_fields R).2.2.2.2.2, hRn2,
            hSother jn ha2 hjnj]
  · by_cases ha2 : jn = i
    · -- non-doubleton, adjacent, other before this
      have ha1' := ha1
      have ha2' := ha2
      rw [hinx] at ha1'
      rw [hjn] at ha2'
      have h3 : 3 ≤ L.length := by split_ifs at ha1' ha2' <;> omega
      have hipj : ip = j := hipjn.mpr ha2
      have hjpi : ¬ jp = i := fun he => ha1 (hjpinx.mp he)
      have hcadj : it.next = ot.current ∨ ot.next = it.current :=
        Or.inr (hcond2.mpr ha2)
      have hcd : ¬ (it.next = ot.current ∧ ot.next = it.current) :=
        fun hpair => ha1 (hcond1.mp hpair.1)
      rw [exchange_relink, if_pos hcadj, if_neg hcd,
        if_pos (hcond2.mpr ha2), hprev2, hnext1] at hexch
      simp only [setNxtP_some, setPrvP_some] at hexch
      obtain ⟨BW, hBW⟩ : ∃ BW,
          ((((((w.setNxt (L.getD jp 0) (some (L.getD i 0))).setNxt
            (L.getD j 0) (some (L.getD inx 0))).setPrv (L.getD j 0)
            (some (L.getD i 0))).setNxt (L.getD i 0)
            (some (L.getD j 0))).setPrv (L.getD i 0)
            (some (L.getD jp 0))).setPrv (L.getD inx 0)
            (some (L.getD j 0))) = BW := ⟨_, rfl⟩
      rw [hBW] at hexch
      obtain ⟨R, hR⟩ : ∃ R,
          ((BW, ({it with
                  prev := some (L.getD i 0),
                  next := some (L.getD inx 0)} : ELIST2_ITERATOR),
            ({ot with
                  prev := some (L.getD jp 0),
                  next := some (L.getD j 0)} : ELIST2_ITERATOR)) :
            World × ELIST2_ITERATOR × ELIST2_ITERATOR) = R := ⟨_, rfl⟩
      rw [hR] at hexch
      have hRw : R.1 = BW := by rw [← hR]
      have hRl1 : R.2.1.list = lid := by rw [← hR]; exact hitl
      have hRl2 : R.2.2.list = lid := by rw [← hR]; exact hotl
      have hRc1 : R.2.1.current = some (L.getD i 0) := by rw [← hR]; exact hcur1
      have hRc2 : R.2.2.current = some (L.getD j 0) := by rw [← hR]; exact hcur2
      have hRp1 : R.2.1.prev = some (L.getD i 0) := by rw [← hR]
      have hRn1 : R.2.1.next = some (L.getD inx 0) := by rw [← hR]
      have hRp2 : R.2.2.prev = some (L.getD jp 0) := by rw [← hR]
      have hRn2 : R.2.2.next = some (L.getD j 0) := by rw [← hR]
      have hBWlast : ∀ l, BW.lastOf l = w.lastOf l := by
        intro l
        rw [← hBW]
        simp only [lastOf_setNxt, lastOf_setPrv]
      have hBWnxt : ∀ z, BW.nxt z =
          if z = L.getD i 0 then some (L.getD j 0)
          else if z = L.getD j 0 then some (L.getD inx 0)
          else if z = L.getD jp 0 then some (L.getD i 0)
          else w.nxt z := by
        intro z
        rw [← hBW]
        simp only [nxt_setPrv, nxt_setNxt]
      have hBWprv : ∀ z, BW.prv z =
          if z = L.getD inx 0 then some (L.getD j 0)
          else if z = L.getD i 0 then some (L.getD jp 0)
          else if z = L.getD j 0 then some (L.getD i 0)
          else w.prv z := by
        intro z
        rw [← hBW]
        simp only [prv_setNxt, prv_setPrv]
      have hchainS : chainOk BW ((L.set i (L.getD j 0)).set j (L.getD i 0)) := by
        refine chainOk_getD hSnd ?_
        intro k hk
        rw [hSlen] at hk
        rw [hSlen]
        rcases (by omega : k = i ∨ k = j ∨ k = jp ∨
            (¬ k = i ∧ ¬ k = j ∧ ¬ k = jp)) with hk1 | hk1 | hk1 | ⟨hk1, hk2, hk3⟩
        · rw [hk1]
          constructor
          · rw [hSi, ← hinx, hSother inx hinxi ha1, hBWnxt,
              if_neg (hne j i hj hi (fun he => hij he.symm)), if_pos rfl]
          · rw [← hinx, hSother inx hinxi ha1, hSi, hBWprv, if_pos rfl]
        · rw [hk1]
          constructor
          · rw [hSj, ← hjn, ha2, hSi, hBWnxt, if_pos rfl]
          · rw [← hjn, ha2, hSi, hSj, hBWprv,
              if_neg (hne j inx hj hinxlt (fun he => ha1 he.symm)),
              if_neg (hne j i hj hi (fun he => hij he.symm)), if_pos rfl]
        · rw [hk1]
          have hsucc : (if jp = L.length - 1 then 0 else jp + 1) = j := by
            rw [hjp]
            split_ifs <;> omega
          constructor
          · rw [hSother jp hjpi hjpj, hsucc, hSj, hBWnxt,
              if_neg (hne jp i hjplt hi hjpi),
              if_neg (hne jp j hjplt hj hjpj), if_pos rfl]
          · rw [hsucc, hSj, hSother jp hjpi hjpj, hBWprv,
              if_neg (hne i inx hi hinxlt (fun he => hinxi he.symm)),
              if_pos rfl]
        · have hfb : ¬ (if k = L.length - 1 then 0 else k + 1) = j := by
            have h' := hk3
            rw [hjp] at h'
            split_ifs at h' ⊢ <;> omega
          have hfa : ¬ (if k = L.length - 1 then 0 else k + 1) = i := by
            intro he
            rw [← ha2, hjn] at he
            split_ifs at he <;> omega
          have hfd : ¬ (if k = L.length - 1 then 0 else k + 1) = inx := by
            intro he
            rw [hinx] at he
            split_ifs at he <;> omega
          have hslt : (if k = L.length - 1 then 0 else k + 1) < L.length := by
            split_ifs <;> omega
          constructor
          · rw [hSother k hk1 hk2, hSother _ hfa hfb, hBWnxt,
              if_neg (hne k i hk hi hk1), if_neg (hne k j hk hj hk2),
              if_neg (hne k jp hk hjplt hk3)]
            exact hwnxt k hk
          · rw [hSother _ hfa hfb, hSother k hk1 hk2, hBWprv,
              if_neg (hne _ inx hslt hinxlt hfd),
              if_neg (hne _ i hslt hi hfa),
              if_neg (hne _ j hslt hj hfb)]
            exact hwprv k hk
      refine ⟨(exchange_roles R).1, (exchange_roles R).2.1,
        (exchange_roles R).2.2, hexch, ?_, ?_, ?_, ?_, ?_, ?_, ?_⟩
      · exact chainOk_of_links (exchange_roles_links R).1
          (exchange_roles_links R).2 (by rw [hRw]; exact hchainS)
      · exact (exchange_roles_last_same R lid t (L.getD i 0) (L.getD j 0)
          hRl1 hRl2 hRc1 hRc2
          (by rw [hRw]; exact (hBWlast lid).trans hlast)).1
      · intro l hl
        refine ((exchange_roles_last_same R lid t (L.getD i 0) (L.getD j 0)
          hRl1 hRl2 hRc1 hRc2
          (by rw [hRw]; exact (hBWlast lid).trans hlast)).2 l hl).trans ?_
        rw [hRw]
        exact hBWlast l
      · exact (exchange_roles_fields R).1.trans hRl1
      · exact (exchange_roles_fields R).2.2.2.1.trans hRl2
      · refine ⟨?_, ?_, ?_⟩
        · rw [hcySi, (exchange_roles_currents R).1, hRc2]
        · rw [hcySpi, (exchange_roles_fields R).2.1, hRp1, hipj, hSj]
        · rw [hcySsi, (exchange_roles_fields R).2.2.1, hRn1,
            hSother inx hinxi ha1]
      · refine ⟨?_, ?_, ?_⟩
        · rw [hcySj, (exchange_roles_currents R).2.1, hRc1]
        · rw [hcySpj, (exchange_roles_fields R).2.2.2.2.1, hRp2,
            hSother jp hjpi hjpj]
        · rw [hcySsj, (exchange_roles_fields R).2.2.2.2.2, hRn2, ha2, hSi]
    · -- non-adjacent
      have ha1' := ha1
      have ha2' := ha2
      rw [hinx] at ha1'
      rw [hjn] at ha2'
      have h3 : 3 ≤ L.length := by split_ifs at ha1' ha2' <;> omega
      have hipj : ¬ ip = j := fun he => ha2 (hipjn.mp he)
      have hjpi : ¬ jp = i := fun he => ha1 (hjpinx.mp he)
      have hipjp : ¬ ip = jp := by
        intro he
        rw [hip, hjp] at he
        split_ifs at he <;> omega
      have hinxjn : ¬ inx = jn := by
        intro he
        rw [hinx, hjn] at he
        split_ifs at he <;> omega
      have hadj : ¬ (it.next = ot.current ∨ ot.next = it.current) := by
        push_neg
        exact ⟨fun he => ha1 (hcond1.mp he), fun he => ha2 (hcond2.mp he)⟩
      rw [exchange_relink, if_neg hadj, hprev1, hnext1, hprev2, hnext2]
        at hexch
      simp only [setNxtP_some, setPrvP_some] at hexch
      obtain ⟨BW, hBW⟩ : ∃ BW,
          ((((((((w.setNxt (L.getD ip 0) (some (L.getD j 0))).setNxt
            (L.getD i 0) (some (L.getD jn 0))).setPrv (L.getD i 0)
            (some (L.getD jp 0))).setPrv (L.getD inx 0)
            (some (L.getD j 0))).setNxt (L.getD jp 0)
            (some (L.getD i 0))).setNxt (L.getD j 0)
            (some (L.getD inx 0))).setPrv (L.getD j 0)
            (some (L.getD ip 0))).setPrv (L.getD jn 0)
            (some (L.getD i 0))) = BW := ⟨_, rfl⟩
      rw [hBW] at hexch
      obtain ⟨R, hR⟩ : ∃ R, ((BW, it, ot) :
          World × ELIST2_ITERATOR × ELIST2_ITERATOR) = R := ⟨_, rfl⟩
      rw [hR] at hexch
      have hRw : R.1 = BW := by rw [← hR]
      have hRl1 : R.2.1.list = lid := by rw [← hR]; exact hitl
      have hRl2 : R.2.2.list = lid := by rw [← hR]; exact hotl
      have hRc1 : R.2.1.current = some (L.getD i 0) := by rw [← hR]; exact hcur1
      have hRc2 : R.2.2.current = some (L.getD j 0) := by rw [← hR]; exact hcur2
      have hRp1 : R.2.1.prev = some (L.getD ip 0) := by rw [← hR]; exact hprev1
      have hRn1 : R.2.1.next = some (L.getD inx 0) := by rw [← hR]; exact hnext1
      have hRp2 : R.2.2.prev = some (L.getD jp 0) := by rw [← hR]; exact hprev2
      have hRn2 : R.2.2.next = some (L.getD jn 0) := by rw [← hR]; exact hnext2
      have hBWlast : ∀ l, BW.lastOf l = w.lastOf l := by
        intro l
        rw [← hBW]
        simp only [lastOf_setNxt, lastOf_setPrv]
      have hBWnxt : ∀ z, BW.nxt z =
          if z = L.getD j 0 then some (L.getD inx 0)
          else if z = L.getD jp 0 then some (L.getD i 0)
          else if z = L.getD i 0 then some (L.getD jn 0)
          else if z = L.getD ip 0 then some (L.getD j 0)
          else w.nxt z := by
        intro z
        rw [← hBW]
        simp only [nxt_setPrv, nxt_setNxt]
      have hBWprv : ∀ z, BW.prv z =
          if z = L.getD jn 0 then some (L.getD i 0)
          else if z = L.getD j 0 then some (L.getD ip 0)
          else if z = L.getD inx 0 then some (L.getD j 0)
          else if z = L.getD i 0 then some (L.getD jp 0)
          else w.prv z := by
        intro z
        rw [← hBW]
        simp only [prv_setNxt, prv_setPrv]
      have hchainS : chainOk BW ((L.set i (L.getD j 0)).set j (L.getD i 0)) := by
        refine chainOk_getD hSnd ?_
        intro k hk
        rw [hSlen] at hk
        rw [hSlen]
        rcases (by omega : k = i ∨ k = j ∨ k = ip ∨ k = jp ∨
            (¬ k = i ∧ ¬ k = j ∧ ¬ k = ip ∧ ¬ k = jp)) with
          hk1 | hk1 | hk1 | hk1 | ⟨hk1, hk2, hk3, hk4⟩
        · rw [hk1]
          constructor
          · rw [hSi, ← hinx, hSother inx hinxi ha1, hBWnxt, if_pos rfl]
          · rw [← hinx, hSother inx hinxi ha1, hSi, hBWprv,
              if_neg (hne inx jn hinxlt hjnlt hinxjn),
              if_neg (hne inx j hinxlt hj ha1), if_pos rfl]
        · rw [hk1]
          constructor
          · rw [hSj, ← hjn, hSother jn ha2 hjnj, hBWnxt,
              if_neg (hne i j hi hj hij),
              if_neg (hne i jp hi hjplt (fun he => hjpi he.symm)),
              if_pos rfl]
          · rw [← hjn, hSother jn ha2 hjnj, hSj, hBWprv, if_pos rfl]
        · rw [hk1]
          have hsucc : (if ip = L.length - 1 then 0 else ip + 1) = i := by
            rw [hip]
            split_ifs <;> omega
          constructor
          · rw [hSother ip hipi hipj, hsucc, hSi, hBWnxt,
              if_neg (hne ip j hiplt hj hipj),
              if_neg (hne ip jp hiplt hjplt hipjp),
              if_neg (hne ip i hiplt hi hipi), if_pos rfl]
          · rw [hsucc, hSi, hSother ip hipi hipj, hBWprv,
              if_neg (hne j jn hj hjnlt (fun he => hjnj he.symm)),
              if_pos rfl]
        · rw [hk1]
          have hsucc : (if jp = L.length - 1 then 0 else jp + 1) = j := by
            rw [hjp]
            split_ifs <;> omega
          constructor
          · rw [hSother jp hjpi hjpj, hsucc, hSj, hBWnxt,
              if_neg (hne jp j hjplt hj hjpj), if_pos rfl]
          · rw [hsucc, hSj, hSother jp hjpi hjpj, hBWprv,
              if_neg (hne i jn hi hjnlt (fun he => ha2 he.symm)),
              if_neg (hne i j hi hj hij),
              if_neg (hne i inx hi hinxlt (fun he => hinxi he.symm)),
              if_pos rfl]
        · have hfa : ¬ (if k = L.length - 1 then 0 else k + 1) = i := by
            have h' := hk3
            rw [hip] at h'
            split_ifs at h' ⊢ <;> omega
          have hfb : ¬ (if k = L.length - 1 then 0 else k + 1) = j := by
            have h' := hk4
            rw [hjp] at h'
            split_ifs at h' ⊢ <;> omega
          have hfc : ¬ (if k = L.length - 1 then 0 else k + 1) = jn := by
            intro he
            rw [hjn] at he
            split_ifs at he <;> omega
          have hfd : ¬ (if k = L.length - 1 then 0 else k + 1) = inx := by
            intro he
            rw [hinx] at he
            split_ifs at he <;> omega
          have hslt : (if k = L.length - 1 then 0 else k + 1) < L.length := by
            split_ifs <;> omega
          constructor
          · rw [hSother k hk1 hk2, hSother _ hfa hfb, hBWnxt,
              if_neg (hne k j hk hj hk2), if_neg (hne k jp hk hjplt hk4),
              if_neg (hne k i hk hi hk1), if_neg (hne k ip hk hiplt hk3)]
            exact hwnxt k hk
          · rw [hSother _ hfa hfb, hSother k hk1 hk2, hBWprv,
              if_neg (hne _ jn hslt hjnlt hfc),
              if_neg (hne _ j hslt hj hfb),
              if_neg (hne _ inx hslt hinxlt hfd),
              if_neg (hne _ i hslt hi hfa)]
            exact hwprv k hk
      refine ⟨(exchange_roles R).1, (exchange_roles R).2.1,
        (exchange_roles R).2.2, hexch, ?_, ?_, ?_, ?_, ?_, ?_, ?_⟩
      · exact chainOk_of_links (exchange_roles_links R).1
          (exchange_roles_links R).2 (by rw [hRw]; exact hchainS)
      · exact (exchange_roles_last_same R lid t (L.getD i 0) (L.getD j 0)
          hRl1 hRl2 hRc1 hRc2
          (by rw [hRw]; exact (hBWlast lid).trans hlast)).1
      · intro l hl
        refine ((exchange_roles_last_same R lid t (L.getD i 0) (L.getD j 0)
          hRl1 hRl2 hRc1 hRc2
          (by rw [hRw]; exact (hBWlast lid).trans hlast)).2 l hl).trans ?_
        rw [hRw]
        exact hBWlast l
      · exact (exchange_roles_fields R).1.trans hRl1
      · exact (exchange_roles_fields R).2.2.2.1.trans hRl2
      · refine ⟨?_, ?_, ?_⟩
        · rw [hcySi, (exchange_roles_currents R).1, hRc2]
        · rw [hcySpi, (exchange_roles_fields R).2.1, hRp1,
            hSother ip hipi hipj]
        · rw [hcySsi, (exchange_roles_fields R).2.2.1, hRn1,
            hSother inx hinxi ha1]
      · refine ⟨?_, ?_, ?_⟩
        · rw [hcySj, (exchange_roles_currents R).2.1, hRc1]
        · rw [hcySpj, (exchange_roles_fields R).2.2.2.2.1, hRp2,
            hSother jp hjpi hjpj]
        · rw [hcySsj, (exchange_roles_fields R).2.2.2.2.2, hRn2,
            hSother jn ha2 hjnj]

/-- Double `exchange` across two different lists (disjoint node sets, each
of length at least two) restores the chain topology of both lists —
including each list's `last` — and both cursors' positions and currents. -/
theorem exchange_cross_double {w : World} {l1 l2 : Nat} {L1 L2 : List Nat}
    {it ot : ELIST2_ITERATOR} {i j : Nat}
    (hrep1 : represents w l1 L1) (hrep2 : represents w l2 L2)
    (hdisj : ∀ x, x ∈ L1 → x ∉ L2) (hl12 : ¬ l1 = l2)
    (h1 : 2 ≤ L1.length) (h2 : 2 ≤ L2.length)
    (hitl : it.list = l1) (hotl : ot.list = l2)
    (hpos1 : posAt L1 i it) (hpos2 : posAt L2 j ot)
    (hi : i < L1.length) (hj : j < L2.length) :
    ∃ w1 it1 ot1 w2 it2 ot2,
      it.exchange w ot = .ok (w1, it1, ot1) ∧
      it1.exchange w1 ot1 = .ok (w2, it2, ot2) ∧
      represents w2 l1 L1 ∧ represents w2 l2 L2 ∧
      posAt L1 i it2 ∧ posAt L2 j ot2 ∧
      it2.current = it.current ∧ ot2.current = ot.current := by
  obtain ⟨w1, it1, ot1, he1, hr1, hr2, hl1', hl2', hp1, hp2⟩ :=
    exchange_cross hrep1 hrep2 hdisj hl12 h1 h2 hitl hotl hpos1 hpos2 hi hj
  have hnd1 := (represents_chainOk hrep1
    (by intro h; rw [h] at h1; simp at h1)).1
  have hnd2 := (represents_chainOk hrep2
    (by intro h; rw [h] at h2; simp at h2)).1
  have hdisj' : ∀ x, x ∈ L1.set i (L2.getD j 0) →
      x ∉ L2.set j (L1.getD i 0) := by
    intro x hx1 hx2
    rcases mem_set_cases hnd1 hi hx1 with hxa | ⟨hxL1, hxnc⟩
    · subst hxa
      rcases mem_set_cases hnd2 hj hx2 with hca | ⟨_, hne⟩
      · exact hdisj _ (getD_mem hi) (hca ▸ getD_mem hj)
      · exact hne rfl
    · rcases mem_set_cases hnd2 hj hx2 with hxc | ⟨hxL2, _⟩
      · exact hxnc hxc
      · exact hdisj x hxL1 hxL2
  have hlen1' : 2 ≤ (L1.set i (L2.getD j 0)).length := by
    rw [List.length_set]
    omega
  have hlen2' : 2 ≤ (L2.set j (L1.getD i 0)).length := by
    rw [List.length_set]
    omega
  obtain ⟨w2, it2, ot2, he2, hs1, hs2, hl1'', hl2'', hq1, hq2⟩ :=
    exchange_cross hr1 hr2 hdisj' hl12 hlen1' hlen2' hl1' hl2' hp1 hp2
      (by rw [List.length_set]; omega) (by rw [List.length_set]; omega)
  have hfix1 : (L1.set i (L2.getD j 0)).set i
      ((L2.set j (L1.getD i 0)).getD j 0) = L1 := by
    rw [getD_set_self hj, List.set_set, set_getD_self L1 i hi]
  have hfix2 : (L2.set j (L1.getD i 0)).set j
      ((L1.set i (L2.getD j 0)).getD i 0) = L2 := by
    rw [getD_set_self hi, List.set_set, set_getD_self L2 j hj]
  rw [hfix1] at hs1 hq1
  rw [hfix2] at hs2 hq2
  refine ⟨w1, it1, ot1, w2, it2, ot2, he1, he2, hs1, hs2, hq1, hq2, ?_, ?_⟩
  · rw [hq1.1, hpos1.1]
  · rw [hq2.1, hpos2.1]

/-- Double `exchange` on one shared list (distinct positions `i ≠ j`):
chain topology, both cursors' positions and both currents are always
restored; the list's `last` is restored whenever this cursor's current is
not the tail, and ends at the other cursor's original current when it is. -/
theorem exchange_same_double {w : World} {lid : Nat} {L : List Nat}
    {it ot : ELIST2_ITERATOR} {i j : Nat}
    (hrep : represents w lid L) (hlen : 2 ≤ L.length)
    (hitl : it.list = lid) (hotl : ot.list = lid)
    (hpos1 : posAt L i it) (hpos2 : posAt L j ot)
    (hi : i < L.length) (hj : j < L.length) (hij : ¬ i = j) :
    ∃ w1 it1 ot1 w2 it2 ot2,
      it.exchange w ot = .ok (w1, it1, ot1) ∧
      it1.exchange w1 ot1 = .ok (w2, it2, ot2) ∧
      chainOk w2 L ∧ posAt L i it2 ∧ posAt L j ot2 ∧
      it2.current = it.current ∧ ot2.current = ot.current ∧
      (¬ i = L.length - 1 → represents w2 lid L) ∧
      (i = L.length - 1 → w2.lastOf lid = some (L.getD j 0)) := by
  have hL : L ≠ [] := by intro h; rw [h] at hlen; simp at hlen
  have hch := represents_chainOk hrep hL
  have hnd := hch.1
  have hlast : w.lastOf lid = some (L.getD (L.length - 1) 0) := by
    have := represents_lastOf hrep hL
    rwa [cyc_of_lt (by omega)] at this
  have hne : ∀ p q, p < L.length → q < L.length → ¬ p = q →
      ¬ L.getD p 0 = L.getD q 0 :=
    fun p q hp hq hpq he => hpq (getD_inj hnd hp hq he)
  obtain ⟨w1, it1, ot1, he1, hch1, hlast1, hlo1, hl1, hl2, hp1, hp2⟩ :=
    exchange_same hch hlen hlast hitl hotl hpos1 hpos2 hi hj hij
  have hSlen : ((L.set i (L.getD j 0)).set j (L.getD i 0)).length =
      L.length := by
    rw [List.length_set, List.length_set]
  have hSi : ((L.set i (L.getD j 0)).set j (L.getD i 0)).getD i 0 =
      L.getD j 0 := by
    rw [swap_getD hi hj i, if_neg hij, if_pos rfl]
  have hSj : ((L.set i (L.getD j 0)).set j (L.getD i 0)).getD j 0 =
      L.getD i 0 := by
    rw [swap_getD hi hj j, if_pos rfl]
  obtain ⟨w2, it2, ot2, he2, hch2, hlast2, hlo2, hl1', hl2', hq1, hq2⟩ :=
    exchange_same hch1 (by rw [hSlen]; omega) hlast1 hl1 hl2 hp1 hp2
      (by rw [hSlen]; omega) (by rw [hSlen]; omega) hij
  have hT : (((L.set i (L.getD j 0)).set j (L.getD i 0)).set i
      (((L.set i (L.getD j 0)).set j (L.getD i 0)).getD j 0)).set j
      (((L.set i (L.getD j 0)).set j (L.getD i 0)).getD i 0) = L := by
    rw [hSi, hSj]
    rw [List.set_comm (L.getD i 0) (L.getD i 0) (L.set i (L.getD j 0))
        (fun hh : j = i => hij hh.symm),
      List.set_set, List.set_set, set_getD_self L i hi, set_getD_self L j hj]
  rw [hT] at hch2 hq1 hq2
  rw [hSi, hSj] at hlast2
  refine ⟨w1, it1, ot1, w2, it2, ot2, he1, he2, hch2, hq1, hq2,
    hq1.1.trans hpos1.1.symm, hq2.1.trans hpos2.1.symm, ?_, ?_⟩
  · intro hi1
    rw [represents, if_neg hL]
    refine ⟨?_, hch2⟩
    by_cases hj1 : j = L.length - 1
    · have hcnd : L.getD (L.length - 1) 0 = L.getD i 0 ∨
          L.getD (L.length - 1) 0 = L.getD j 0 := Or.inr (by rw [hj1])
      rw [if_pos hcnd] at hlast2
      rw [if_pos (Or.inr rfl)] at hlast2
      rw [hlast2, ← hj1]
    · have hta : ¬ L.getD (L.length - 1) 0 = L.getD i 0 :=
        hne (L.length - 1) i (by omega) hi (fun hh => hi1 hh.symm)
      have htb : ¬ L.getD (L.length - 1) 0 = L.getD j 0 :=
        hne (L.length - 1) j (by omega) hj (fun hh => hj1 hh.symm)
      have hn1 : ¬ (L.getD (L.length - 1) 0 = L.getD i 0 ∨
          L.getD (L.length - 1) 0 = L.getD j 0) := by
        push_neg
        exact ⟨hta, htb⟩
      rw [if_neg hn1] at hlast2
      have hn2 : ¬ (L.getD (L.length - 1) 0 = L.getD j 0 ∨
          L.getD (L.length - 1) 0 = L.getD i 0) := by
        push_neg
        exact ⟨htb, hta⟩
      rw [if_neg hn2] at hlast2
      exact hlast2
  · intro hi1
    have hcnd : L.getD (L.length - 1) 0 = L.getD i 0 ∨
        L.getD (L.length - 1) 0 = L.getD j 0 := Or.inl (by rw [hi1])
    rw [if_pos hcnd] at hlast2
    rw [if_pos (Or.inr rfl)] at hlast2
    exact hlast2

/-- **C4** (amended): double `exchange` with the same two cursors as an
involution, over the original claim's full scope.  Across two different
lists (disjoint node sets, each of length at least two) everything is
restored: both chains including each list's `last`, and both cursors'
positions and currents.  On one shared list (distinct positions) the chain
topology, both cursors' positions and both currents are likewise always
restored, and the list's `last` is restored whenever this cursor's current
is not the list's tail; when this cursor's current is the tail, the
sequential `last` update refires and the double exchange leaves `last` at
the other cursor's original current — the involution fails only in that one
component (see the counterexample). -/
theorem claim_C4_amended :
    (∀ (w : World) (l1 l2 : Nat) (L1 L2 : List Nat)
      (it ot : ELIST2_ITERATOR) (i j : Nat),
      represents w l1 L1 → represents w l2 L2 →
      (∀ x, x ∈ L1 → x ∉ L2) → ¬ l1 = l2 →
      2 ≤ L1.length → 2 ≤ L2.length → it.list = l1 → ot.list = l2 →
      posAt L1 i it → posAt L2 j ot → i < L1.length → j < L2.length →
      ∃ w1 it1 ot1 w2 it2 ot2,
        it.exchange w ot = .ok (w1, it1, ot1) ∧
        it1.exchange w1 ot1 = .ok (w2, it2, ot2) ∧
        represents w2 l1 L1 ∧ represents w2 l2 L2 ∧
        posAt L1 i it2 ∧ posAt L2 j ot2 ∧
        it2.current = it.current ∧ ot2.current = ot.current) ∧
    (∀ (w : World) (lid : Nat) (L : List Nat) (it ot : ELIST2_ITERATOR)
      (i j : Nat),
      represents w lid L → 2 ≤ L.length → it.list = lid → ot.list = lid →
      posAt L i it → posAt L j ot → i < L.length → j < L.length → ¬ i = j →
      ∃ w1 it1 ot1 w2 it2 ot2,
        it.exchange w ot = .ok (w1, it1, ot1) ∧
        it1.exchange w1 ot1 = .ok (w2, it2, ot2) ∧
        chainOk w2 L ∧ posAt L i it2 ∧ posAt L j ot2 ∧
        it2.current = it.current ∧ ot2.current = ot.current ∧
        (¬ i = L.length - 1 → represents w2 lid L) ∧
        (i = L.length - 1 → w2.lastOf lid = some (L.getD j 0))) :=
  ⟨fun _ _ _ _ _ _ _ _ _ h1 h2 h3 h4 h5 h6 h7 h8 h9 h10 h11 h12 =>
    exchange_cross_double h1 h2 h3 h4 h5 h6 h7 h8 h9 h10 h11 h12,
   fun _ _ _ _ _ _ _ h1 h2 h3 h4 h5 h6 h7 h8 h9 =>
    exchange_same_double h1 h2 h3 h4 h5 h6 h7 h8 h9⟩

/-- Witness for the amended C4, one instance per scope.  Cross-list: on `wX`
(list 1 holds `[0, 1]`, list 2 holds `[2, 3, 4]`), exchanging the cursor at
node 0 with the cursor at node 3 twice restores both chains, both `last`
references and both cursors' positions.  Shared-list: on `w3` (list 0 holds
`[0, 1, 2]`), exchanging the cursor at position 0 with the cursor at
position 2 twice restores the chain, the positions, the currents, and —
since this cursor is not at the tail — the full `represents` including
`last`. -/
theorem claim_C4_amended_witness :
    (∃ w1 it1 ot1 w2 it2 ot2,
      itX.exchange wX otX = .ok (w1, it1, ot1) ∧
      it1.exchange w1 ot1 = .ok (w2, it2, ot2) ∧
      represents w2 1 [0, 1] ∧ represents w2 2 [2, 3, 4] ∧
      posAt [0, 1] 0 it2 ∧ posAt [2, 3, 4] 1 ot2 ∧
      it2.current = itX.current ∧ ot2.current = otX.current) ∧
    (∃ w1 it1 ot1 w2 it2 ot2,
      otHead3.exchange w3 itTail3 = .ok (w1, it1, ot1) ∧
      it1.exchange w1 ot1 = .ok (w2, it2, ot2) ∧
      chainOk w2 [0, 1, 2] ∧ posAt [0, 1, 2] 0 it2 ∧ posAt [0, 1, 2] 2 ot2 ∧
      it2.current = otHead3.current ∧ ot2.current = itTail3.current ∧
      (¬ 0 = ([0, 1, 2] : List Nat).length - 1 →
        represents w2 0 [0, 1, 2]) ∧
      (0 = ([0, 1, 2] : List Nat).length - 1 →
        w2.lastOf 0 = some (([0, 1, 2] : List Nat).getD 2 0))) :=
  ⟨claim_C4_amended.1 wX 1 2 [0, 1] [2, 3, 4] itX otX 0 1 (by decide)
      (by decide) (by decide) (by decide) (by decide) (by decide) rfl rfl
      (by decide) (by decide) (by decide) (by decide),
    claim_C4_amended.2 w3 0 [0, 1, 2] otHead3 itTail3 0 2 (by decide)
      (by decide) rfl rfl (by decide) (by decide) (by decide) (by decide)
      (by decide)⟩

/-- Claim C3 counterexample: on the list `[0, 1, 2]` of `w3`, the cursor
`itTail3` stands on node 2 — simultaneously the list's tail and its own
cycle marker — and `otHead3` stands on node 0 with cycle marker node 1.  The
claim says that after `exchange` both the tail role and `itTail3`'s cycle
marker land on the node now occupying that position, `otHead3`'s former
current (node 0).  In fact the exchange succeeds and leaves the cursor's
cycle marker at node 1 (the other cursor's marker, not its current) and the
list's `last` at node 2 (the node that moved away), neither equal to node 0. -/
theorem claim_C3_counterexample :
    itTail3.current = itTail3.cycle_pt ∧
    w3.lastOf itTail3.list = itTail3.current ∧
    (itTail3.exchange w3 otHead3).toOption.isSome = true ∧
    ((itTail3.exchange w3 otHead3).toOption.map fun p => p.2.1.cycle_pt) =
      some (some 1) ∧
    ((itTail3.exchange w3 otHead3).toOption.map fun p => p.1.lastOf itTail3.list)
      = some (some 2) ∧
    otHead3.current = some 0 := by
  refine ⟨rfl, by decide, by decide, by decide, by decide, rfl⟩

/-- Claim C3 (amended): after a successful `exchange` the roles move as the
source computes them, which follows position only in part.  This cursor's
cycle marker becomes the other cursor's cycle marker (not the other's former
current) when this cursor's current was its own marker; the other cursor's
marker becomes this cursor's already-updated marker when its current was its
own marker — so when both currents were simultaneously their own markers the
other cursor's marker ends up at its own former current.  Each list's `last`
follows the position except when both cursors share one list and this
cursor's current is its tail: then `last` ends at this cursor's former
current, the node that moved away. -/
theorem claim_C3_amended {w : World} {it ot : ELIST2_ITERATOR} {c oc : Nat}
    (hne1 : ¬ w.lastOf it.list = none) (hne2 : ¬ w.lastOf ot.list = none)
    (hic : it.current = some c) (hoc : ot.current = some oc)
    (hdist : ¬ it.current = ot.current) :
    ∃ w' it' ot', it.exchange w ot = .ok (w', it', ot') ∧
      it'.current = ot.current ∧ ot'.current = it.current ∧
      it'.cycle_pt =
        (if it.current = it.cycle_pt then ot.cycle_pt else it.cycle_pt) ∧
      ot'.cycle_pt =
        (if ot.current = ot.cycle_pt then
          (if it.current = it.cycle_pt then ot.cycle_pt else it.cycle_pt)
         else ot.cycle_pt) ∧
      (w.lastOf it.list = it.current → it.list = ot.list →
        w'.lastOf it.list = it.current) ∧
      (w.lastOf it.list = it.current → ¬ it.list = ot.list →
        w'.lastOf it.list = ot.current) ∧
      (w.lastOf ot.list = ot.current →
        (¬ w.lastOf it.list = it.current ∨ ¬ it.list = ot.list) →
        w'.lastOf ot.list = it.current) ∧
      (¬ w.lastOf it.list = it.current → ¬ w.lastOf ot.list = ot.current →
        ∀ l, w'.lastOf l = w.lastOf l) := by
  obtain ⟨hl1, hc1, hp1, hl2, hc2, hp2, hlast⟩ :=
    exchange_relink_proj w it ot c oc
  obtain ⟨e1, e2, e3, e4⟩ :=
    exchange_roles_currents (exchange_relink w it ot c oc)
  refine ⟨(exchange_roles (exchange_relink w it ot c oc)).1,
    (exchange_roles (exchange_relink w it ot c oc)).2.1,
    (exchange_roles (exchange_relink w it ot c oc)).2.2,
    exchange_ok hne1 hne2 hdist hic hoc, ?_, ?_, ?_, ?_, ?_, ?_, ?_, ?_⟩
  · rw [e1, hc2]
  · rw [e2, hc1]
  · rw [e3, hc1, hp1, hp2]
  · rw [e4, hc1, hc2, hp1, hp2]
  · intro htail hsame
    rw [exchange_roles_lastOf]
    simp only [hl1, hl2, hc1, hc2, hlast]
    rw [if_pos htail]
    simp [lastOf_setLast, hlast, hsame]
  · intro htail hdiffl
    rw [exchange_roles_lastOf]
    simp only [hl1, hl2, hc1, hc2, hlast]
    rw [if_pos htail]
    simp only [lastOf_setLast, hlast]
    have hol : ¬ ot.list = it.list := fun hh => hdiffl hh.symm
    by_cases h2 : w.lastOf ot.list = ot.current
    · simp [hol, hdiffl, h2]
    · simp [hol, hdiffl, h2]
  · intro htail2 hside
    rw [exchange_roles_lastOf]
    simp only [hl1, hl2, hc1, hc2, hlast]
    rcases hside with hnt | hdiffl
    · rw [if_neg hnt]
      simp [hlast, htail2]
    · have hol : ¬ ot.list = it.list := fun hh => hdiffl hh.symm
      by_cases htail : w.lastOf it.list = it.current
      · rw [if_pos htail]
        simp [lastOf_setLast, hlast, hol, htail2]
      · rw [if_neg htail]
        simp [hlast, htail2]
  · intro hnt1 hnt2 l
    rw [exchange_roles_lastOf]
    simp only [hl1, hl2, hc1, hc2, hlast]
    rw [if_neg hnt1]
    simp only [hlast]
    rw [if_neg hnt2]

/-- Witness for the amended C3 at the concrete input of the counterexample
(`itTail3`/`otHead3` on `w3`): the quirky same-list tail case — `last` stays
at node 2, and the cursor's marker becomes node 1. -/
theorem claim_C3_amended_witness :
    (¬ w3.lastOf itTail3.list = none) ∧ (¬ w3.lastOf otHead3.list = none) ∧
    itTail3.current = some 2 ∧ otHead3.current = some 0 ∧
    (¬ itTail3.current = otHead3.current) ∧
    ∃ w' it' ot', itTail3.exchange w3 otHead3 = .ok (w', it', ot') ∧
      it'.current = otHead3.current ∧ ot'.current = itTail3.current ∧
      it'.cycle_pt = (if itTail3.current = itTail3.cycle_pt then
        otHead3.cycle_pt else itTail3.cycle_pt) ∧
      ot'.cycle_pt = (if otHead3.current = otHead3.cycle_pt then
          (if itTail3.current = itTail3.cycle_pt then otHead3.cycle_pt
           else itTail3.cycle_pt)
         else otHead3.cycle_pt) ∧
      (w3.lastOf itTail3.list = itTail3.current → itTail3.list = otHead3.list →
        w'.lastOf itTail3.list = itTail3.current) := by
  refine ⟨by decide, by decide, rfl, rfl, by decide, ?_⟩
  obtain ⟨w', it', ot', heq, h1, h2, h3, h4, h5, _, _, _⟩ :=
    @claim_C3_amended w3 itTail3 otHead3 2 0 (by decide) (by decide) rfl rfl
      (by decide)
  exact ⟨w', it', ot', heq, h1, h2, h3, h4, h5⟩

theorem nth_next_succ (w : World) (p : Ptr) (k : Nat) :
    nth_next w p (k + 1) =
      (match nth_next w p k with
       | some a => w.nxt a
       | none => none) := by
  induction k generalizing p with
  | zero => cases p <;> rfl
  | succ n ih =>
      cases p with
      | none => rfl
      | some a =>
          show nth_next w (w.nxt a) (n + 1) = _
          rw [ih]
          rfl

/-- Claim C1 (violated by the code on one input): the circularity invariant —
if `last` is set after a public operation then walking `next` from
`last->next` visits every live node once and returns to `last` — fails after
`exchange` between a cursor on a singleton list (list 1 = `[5]`) and a cursor
on a two-element list (list 2 = `[6, 7]`): the call succeeds, leaves list 1's
`last` set to node 7, yet every node reachable from `last->next` by `next`
lies in `{5, 6}`, so the walk never returns to `last`.  The source's
non-adjacent relink overwrites the singleton's own freshly written links
(`next->prev = other_it->current` clobbers `current->prev` when
`next == current`), while its special cases only guard the shared doubleton
list, not a singleton. -/
theorem claim_C1_exchange_breaks_circularity :
    (itSing.exchange wSing otSing).toOption.isSome = true ∧
    ((itSing.exchange wSing otSing).toOption.map fun q => q.1.lastOf 1) =
      some (some 7) ∧
    ∀ p, (itSing.exchange wSing otSing).toOption = some p →
      ∀ k : Nat, ¬ nth_next p.1 (p.1.nxt 7) k = some 7 := by
  refine ⟨by decide, by decide, ?_⟩
  intro p hp
  have h7 : p.1.nxt 7 = some 5 := by
    have hh : ((itSing.exchange wSing otSing).toOption.map fun q => q.1.nxt 7)
        = some (some 5) := by decide
    rw [hp] at hh
    simpa using hh
  have h5 : p.1.nxt 5 = some 6 := by
    have hh : ((itSing.exchange wSing otSing).toOption.map fun q => q.1.nxt 5)
        = some (some 6) := by decide
    rw [hp] at hh
    simpa using hh
  have h6 : p.1.nxt 6 = some 5 := by
    have hh : ((itSing.exchange wSing otSing).toOption.map fun q => q.1.nxt 6)
        = some (some 5) := by decide
    rw [hp] at hh
    simpa using hh
  have hmem : ∀ k : Nat, nth_next p.1 (p.1.nxt 7) k = some 5 ∨
      nth_next p.1 (p.1.nxt 7) k = some 6 := by
    intro k
    induction k with
    | zero => exact Or.inl h7
    | succ n ih =>
        rw [nth_next_succ]
        rcases ih with h | h <;> rw [h]
        · exact Or.inr h5
        · exact Or.inl h6
  intro k
  rcases hmem k with h | h <;> simp [h]

/-- Claim C4 counterexample: both cursors on `w3`'s single list `[0, 1, 2]`,
`itC4a` on node 2 (the tail) and `otC4a` on node 0.  Both exchanges succeed
and the double exchange brings the chain links and both currents back, but
the list's `last` does not return: it was node 2 before and is node 0 after
the two calls. -/
theorem claim_C4_counterexample :
    (itC4a.exchange w3 otC4a).toOption.isSome = true ∧
    ((itC4a.exchange w3 otC4a).toOption.bind fun p =>
        (p.2.1.exchange p.1 p.2.2).toOption).isSome = true ∧
    w3.lastOf 0 = some 2 ∧
    (((itC4a.exchange w3 otC4a).toOption.bind fun p =>
        (p.2.1.exchange p.1 p.2.2).toOption).map fun q => q.1.lastOf 0) =
      some (some 0) := by
  refine ⟨by decide, by decide, by decide, by decide⟩

/-! ## Claim C6: sort correctness -/

/-- Claim C6: for every represented list and every comparator that is a total
preorder (antisymmetric across the zero line and transitive), `sort`
rebuilds the very same multiset of nodes — the final chain is the
comparator-sorted permutation of the original — and every adjacent pair
`(a, b)` of the resulting forward order satisfies `cmp a b ≤ 0`.
Concretely (scenario A), sorting `[3, 1, 0, 2]` (D, B, A, C) by ascending
identifier yields the forward order `[0, 1, 2, 3]` (A, B, C, D). -/
theorem claim_C6_sort {w : World} {lid : Nat} {L : List Nat}
    {cmp : Nat → Nat → Int} {fuel : Nat} (hrep : represents w lid L)
    (hanti : ∀ a b : Nat, ¬ cmp a b ≤ 0 → cmp b a ≤ 0)
    (htrans : ∀ a b c : Nat, cmp a b ≤ 0 → cmp b c ≤ 0 → cmp a c ≤ 0)
    (hfuel : L.length ≤ fuel) :
    represents (ELIST2.sort w lid cmp fuel) lid (qsort_model cmp L) ∧
    (qsort_model cmp L).Perm L ∧
    List.Chain' (fun a b => cmp a b ≤ 0) (qsort_model cmp L) ∧
    represents (ELIST2.sort wA 0 cmpId 10) 0 [0, 1, 2, 3] := by
  have hperm : (qsort_model cmp L).Perm L := List.perm_insertionSort _ L
  have hchain : List.Chain' (fun a b => cmp a b ≤ 0) (qsort_model cmp L) := by
    haveI : IsTotal Nat (fun a b => cmp a b ≤ 0) := ⟨by
      intro a b
      by_cases h : cmp a b ≤ 0
      · exact Or.inl h
      · exact Or.inr (hanti a b h)⟩
    haveI : IsTrans Nat (fun a b => cmp a b ≤ 0) := ⟨htrans⟩
    exact (List.sorted_insertionSort _ L).chain'
  refine ⟨?_, hperm, hchain, by decide⟩
  by_cases hL : L = []
  · subst hL
    rw [sort_on_empty (represents_nil hrep) cmp fuel]
    have : qsort_model cmp [] = [] := rfl
    rw [this]
    exact hrep
  · have hlen : 0 < L.length := List.length_pos.mpr hL
    rw [ELIST2.sort, length_spec hrep fuel hfuel, set_to_list_spec hrep hL]
    have hmark : ELIST2_ITERATOR.mark_cycle_pt
        ⟨lid, some (cyc L 0), some (cyc L (L.length - 1)), some (cyc L 1), none,
          false, false, false⟩ =
        ⟨lid, some (cyc L 0), some (cyc L (L.length - 1)), some (cyc L 1),
          some (cyc L 0), false, false, false⟩ := rfl
    rw [hmark]
    obtain ⟨e1, e2, e3⟩ := sort_extract_spec L w
      (⟨lid, some (cyc L 0), some (cyc L (L.length - 1)), some (cyc L 1),
        some (cyc L 0), false, false, false⟩ : ELIST2_ITERATOR) fuel hrep hL
      rfl (by show some (cyc L 0) = _; rw [cyc_of_lt hlen])
      (by show some (cyc L (L.length - 1)) = _; rw [cyc_of_lt (by omega)])
      rfl (by show some (cyc L 0) = _; rw [cyc_of_lt hlen]) rfl hfuel
    rw [e1]
    have htake : (qsort_model cmp L).take L.length = qsort_model cmp L :=
      List.take_of_length_le (by rw [hperm.length_eq])
    rw [htake]
    have hrep0 : represents (ELIST2.sort_extract w
        (⟨lid, some (cyc L 0), some (cyc L (L.length - 1)), some (cyc L 1),
          some (cyc L 0), false, false, false⟩ : ELIST2_ITERATOR) fuel).1 lid
        [] := by
      rw [represents, if_pos rfl]
      exact e2
    have hnodup : (([] : List Nat) ++ qsort_model cmp L).Nodup := by
      rw [List.nil_append]
      exact hperm.nodup_iff.mpr (represents_chainOk hrep hL).1
    have := (fold_add_to_end_represents (qsort_model cmp L) _ _ [] hrep0 e3
      hnodup).1
    rwa [List.nil_append] at this

/-- Witness for C6: the four-node chain `[0, 1, 2, 3]` of `w4` with the
identifier comparator. -/
theorem claim_C6_sort_witness :
    represents w4 0 [0, 1, 2, 3] ∧
    represents (ELIST2.sort w4 0 cmpId 10) 0 (qsort_model cmpId [0, 1, 2, 3]) ∧
    (qsort_model cmpId [0, 1, 2, 3]).Perm [0, 1, 2, 3] ∧
    List.Chain' (fun a b => cmpId a b ≤ 0) (qsort_model cmpId [0, 1, 2, 3]) := by
  have h := @claim_C6_sort w4 0 [0, 1, 2, 3] cmpId 10 (by decide)
    (by
      intro a b h
      unfold cmpId at *
      omega)
    (by
      intro a b c h1 h2
      unfold cmpId at *
      omega)
    (by decide)
  exact ⟨by decide, h.1, h.2.1, h.2.2.1⟩

/-! ## Claim C7: clear semantics and round-trip emptiness -/

theorem zap_walk_drop {w : World} {lid : Nat} {L : List Nat}
    (hrep : represents w lid L) (hL : L ≠ []) :
    ∀ m k fuel, k < L.length → k + m = L.length → m ≤ fuel →
    zap_walk ((w.setNxt (L.getD (L.length - 1) 0) none).setLast lid none)
      (some (L.getD k 0)) fuel = L.drop k := by
  have hlen : 0 < L.length := List.length_pos.mpr hL
  have hnd : L.Nodup := (represents_chainOk hrep hL).1
  have hc := represents_chainOk hrep hL
  intro m
  induction m with
  | zero => omega
  | succ mm ih =>
      intro k fuel hk hkm hfuel
      obtain ⟨f, rfl⟩ : ∃ f, fuel = f + 1 := ⟨fuel - 1, by omega⟩
      rw [zap_walk]
      have hdk : L.drop k = L.getD k 0 :: L.drop (k + 1) := by
        rw [List.getD_eq_getElem _ _ hk]
        exact List.drop_eq_getElem_cons hk
      by_cases hkl : k = L.length - 1
      · subst hkl
        have hnone : ((w.setNxt (L.getD (L.length - 1) 0) none).setLast lid
            none).nxt (L.getD (L.length - 1) 0) = none := by
          simp
        rw [hnone]
        rw [hdk, (show zap_walk ((w.setNxt (L.getD (L.length - 1) 0)
          none).setLast lid none) none f = [] from by cases f <;> rfl),
          List.drop_eq_nil_iff.mpr (by omega)]
      · have hkk : k + 1 < L.length := by omega
        have hnn : ((w.setNxt (L.getD (L.length - 1) 0) none).setLast lid
            none).nxt (L.getD k 0) = some (L.getD (k + 1) 0) := by
          have hne : ¬ L.getD k 0 = L.getD (L.length - 1) 0 := by
            intro he
            have := getD_inj hnd (by omega) (by omega) he
            omega
          simp only [nxt_setLast, nxt_setNxt]
          rw [if_neg hne]
          have := (hc.2 k (by omega)).1
          rwa [cyc_of_lt (by omega), cyc_of_lt (by omega)] at this
        rw [hnn, ih (k + 1) f (by omega) (by omega) (by omega), hdk]

/-- `internal_clear` on a represented chain: the zapper receives exactly the
chain's nodes in head-to-tail order, and the zap walk runs over a world whose
list is already marked empty. -/
theorem internal_clear_spec {w : World} {lid : Nat} {L : List Nat}
    (hrep : represents w lid L) (fuel : Nat) (hfuel : L.length ≤ fuel) :
    (ELIST2.internal_clear w lid fuel).2 = L ∧
    (ELIST2.internal_clear w lid fuel).1.lastOf lid = none := by
  by_cases hL : L = []
  · subst hL
    have h0 := represents_nil hrep
    rw [ELIST2.internal_clear, h0]
    exact ⟨rfl, h0⟩
  · have hlen : 0 < L.length := List.length_pos.mpr hL
    have hc := represents_chainOk hrep hL
    have hlast : w.lastOf lid = some (L.getD (L.length - 1) 0) := by
      have := represents_lastOf hrep hL
      rwa [cyc_of_lt (by omega)] at this
    have hhd : w.nxt (L.getD (L.length - 1) 0) = some (L.getD 0 0) := by
      have := chainOk_nxt hc hL (L.length - 1)
      rw [cyc_of_lt (by omega)] at this
      rwa [(by omega : L.length - 1 + 1 = L.length),
        (by
          show cyc L L.length = L.getD 0 0
          unfold cyc
          rw [Nat.mod_self] : cyc L L.length = L.getD 0 0)] at this
    rw [ELIST2.internal_clear, hlast]
    dsimp only
    rw [hhd]
    refine ⟨?_, by simp⟩
    have := zap_walk_drop hrep hL L.length 0 fuel (by omega) (by omega)
      (by omega)
    rw [List.drop_zero] at this
    exact this

/-- Claim C7: build a list by `N` appends of fresh nodes, then clear it.  The
destructor callback receives exactly the `N` appended nodes, once each, in
head-to-tail (append) order; the destruction walk happens in a world whose
list is already marked empty (the existential names that world and shows its
`last` is unset); and afterwards the list is empty with `length() = 0`. -/
theorem claim_C7_clear_roundtrip {w0 : World} {lid : Nat}
    {it0 : ELIST2_ITERATOR} {ns : List Nat} (hempty : w0.lastOf lid = none)
    (hl : it0.list = lid) (hnd : ns.Nodup) (fuel : Nat)
    (hfuel : ns.length ≤ fuel) :
    (ELIST2.internal_clear
      (ns.foldl (fun p c => p.2.add_to_end p.1 c) (w0, it0)).1 lid fuel).2 = ns ∧
    (ELIST2.internal_clear
      (ns.foldl (fun p c => p.2.add_to_end p.1 c) (w0, it0)).1 lid fuel).2.length
      = ns.length ∧
    (∃ wmid first, ELIST2.internal_clear
        (ns.foldl (fun p c => p.2.add_to_end p.1 c) (w0, it0)).1 lid fuel =
        (wmid, zap_walk wmid first fuel) ∧ wmid.lastOf lid = none) ∧
    (ELIST2.internal_clear
      (ns.foldl (fun p c => p.2.add_to_end p.1 c) (w0, it0)).1 lid
        fuel).1.emptyList lid = true ∧
    ELIST2.length (ELIST2.internal_clear
      (ns.foldl (fun p c => p.2.add_to_end p.1 c) (w0, it0)).1 lid fuel).1 lid
      fuel = 0 := by
  have hrep0 : represents w0 lid [] := by
    rw [represents, if_pos rfl]
    exact hempty
  have hrepN := (fold_add_to_end_represents ns w0 it0 [] hrep0 hl
    (by simpa using hnd)).1
  rw [List.nil_append] at hrepN
  obtain ⟨hz, hlastN⟩ := internal_clear_spec hrepN fuel hfuel
  have hrepE : represents (ELIST2.internal_clear
      (ns.foldl (fun p c => p.2.add_to_end p.1 c) (w0, it0)).1 lid fuel).1 lid
      [] := by
    rw [represents, if_pos rfl]
    exact hlastN
  refine ⟨hz, by rw [hz], ?_, ?_, ?_⟩
  · by_cases hns : ns = []
    · subst hns
      refine ⟨w0, none, ?_, hempty⟩
      show ELIST2.internal_clear w0 lid fuel = (w0, zap_walk w0 none fuel)
      rw [ELIST2.internal_clear, hempty]
      rw [show zap_walk w0 none fuel = [] from by cases fuel <;> rfl]
    · have hlenN : 0 < ns.length := List.length_pos.mpr hns
      have hlastform : (ns.foldl (fun p c => p.2.add_to_end p.1 c)
          ((w0, it0) : World × ELIST2_ITERATOR)).1.lastOf lid =
          some (ns.getD (ns.length - 1) 0) := by
        have := represents_lastOf hrepN hns
        rwa [cyc_of_lt (by omega)] at this
      refine ⟨((ns.foldl (fun p c => p.2.add_to_end p.1 c)
          ((w0, it0) : World × ELIST2_ITERATOR)).1.setNxt
            (ns.getD (ns.length - 1) 0) none).setLast lid none,
        (ns.foldl (fun p c => p.2.add_to_end p.1 c)
          ((w0, it0) : World × ELIST2_ITERATOR)).1.nxt
            (ns.getD (ns.length - 1) 0), ?_, by simp⟩
      rw [ELIST2.internal_clear, hlastform]
  · rw [World.emptyList, hlastN]
    rfl
  · exact length_spec hrepE fuel (by simp)

/-- Witness for C7: three appends `[4, 5, 6]` onto an empty list 0, then
clear with fuel 5. -/
theorem claim_C7_clear_roundtrip_witness :
    emptyWorld.lastOf 0 = none ∧
    (ELIST2.internal_clear
      ([4, 5, 6].foldl (fun p c => p.2.add_to_end p.1 c)
        (emptyWorld, ELIST2_ITERATOR.set_to_list emptyWorld 0)).1 0 5).2 =
      [4, 5, 6] := by
  refine ⟨rfl, ?_⟩
  exact (@claim_C7_clear_roundtrip emptyWorld 0
    (ELIST2_ITERATOR.set_to_list emptyWorld 0) [4, 5, 6] rfl rfl (by decide) 5
    (by decide)).1

/-! ## Claim C2: the extract_sublist partition law -/

/-- `forward` on a mid-march cursor, keeping the extraction flags. -/
theorem forward_march_ex {w : World} {lid : Nat} {L : List Nat}
    (hc : chainOk w L) (hL : L ≠ []) (hne : ¬ w.lastOf lid = none)
    (i : Nat) (cp : Ptr) (b f1 f2 : Bool) :
    (⟨lid, some (cyc L i), some (cyc L (i + L.length - 1)),
      some (cyc L (i + 1)), cp, b, f1, f2⟩ : ELIST2_ITERATOR).forward w =
      ⟨lid, some (cyc L (i + 1)), some (cyc L (i + 1 + L.length - 1)),
        some (cyc L (i + 2)), cp, true, f1, f2⟩ := by
  have hlen : 0 < L.length := List.length_pos.mpr hL
  have h1 : w.nxt (cyc L i) = some (cyc L (i + 1)) := chainOk_nxt hc hL i
  have h2 : w.nxt (cyc L (i + 1)) = some (cyc L (i + 2)) :=
    chainOk_nxt hc hL (i + 1)
  have hprev : cyc L i = cyc L (i + 1 + L.length - 1) := by
    rw [(by omega : i + 1 + L.length - 1 = i + L.length), cyc_add_length]
  rw [ELIST2_ITERATOR.forward]
  simp [hne, h1, h2, ELIST2_ITERATOR.mk.injEq, ← hprev]
  rw [cyc_add_length]

/-- The range walk of `extract_sublist`: from any in-range position it runs
to the range end, retargeting `last` at the caller's `prev` exactly when the
range contains the source tail, and stops with the cursor just past the
end. -/
theorem extract_loop_spec {w : World} {lid : Nat} {L : List Nat} {i j : Nat}
    (hc : chainOk w L) (hL : L ≠ [])
    (hlast : w.lastOf lid = some (L.getD (L.length - 1) 0))
    (hi : i < L.length) (hj : j < L.length) (pv : Nat) (cp1 cp2 : Ptr)
    (f1 f2 : Bool) :
    ∀ m p fuel exl e1 e2 b, p + m = j → i ≤ p → m < fuel →
      (b = false ∨ i < p) →
      ∃ exl' e1' e2' tfin,
        extract_sublist_loop w lid (some pv) cp1 cp2 (some (cyc L j))
          (⟨lid, some (cyc L p), some (cyc L (p + L.length - 1)),
            some (cyc L (p + 1)), some (cyc L i), b, f1, f2⟩ : ELIST2_ITERATOR)
          exl e1 e2 fuel =
        .ok ((if j = L.length - 1 then w.setLast lid (some pv) else w),
          exl', e1', e2', tfin) := by
  have hlen : 0 < L.length := List.length_pos.mpr hL
  intro m
  induction m with
  | zero =>
      intro p fuel exl e1 e2 b hp hip hfuel hb
      obtain ⟨f, rfl⟩ : ∃ f, fuel = f + 1 := ⟨fuel - 1, by omega⟩
      have hpj : p = j := by omega
      subst hpj
      have hcyc : ¬ (⟨lid, some (cyc L p), some (cyc L (p + L.length - 1)),
          some (cyc L (p + 1)), some (cyc L i), b, f1, f2⟩
          : ELIST2_ITERATOR).cycled_list w = true := by
        rw [cycled_list_iff]
        push_neg
        refine ⟨by rw [hlast]; simp, fun hbt h => ?_⟩
        rcases hb with hb0 | hilt
        · rw [hb0] at hbt
          simp at hbt
        · have hii : cyc L p = cyc L i := by
            simpa using h
          have := cyc_inj hc.1 hj hi hii
          omega
      by_cases hjl : p = L.length - 1
      · have hal : ((⟨lid, some (cyc L p), some (cyc L (p + L.length - 1)),
            some (cyc L (p + 1)), some (cyc L i), b, f1, f2⟩
            : ELIST2_ITERATOR).at_last w) = true := by
          show (w.lastOf lid == some (cyc L p)) = true
          rw [hlast]
          simp only [beq_iff_eq, Option.some.injEq]
          rw [hjl, cyc_of_lt (show L.length - 1 < L.length by omega)]
        refine ⟨exl || true, e1 || (some (cyc L p) == cp1),
          e2 || (some (cyc L p) == cp2),
          ⟨lid, some (cyc L (p + 1)), some (cyc L (p + 1 + L.length - 1)),
            some (cyc L (p + 2)), some (cyc L i), true, f1, f2⟩, ?_⟩
        rw [extract_sublist_loop, if_neg hcyc]
        dsimp only
        rw [hal, if_pos (show (true : Bool) = true from rfl)]
        have hcW : chainOk (w.setLast lid (some pv)) L :=
          chainOk_of_links rfl rfl hc
        have hneW : ¬ (w.setLast lid (some pv)).lastOf lid = none := by
          rw [lastOf_setLast]
          simp
        rw [forward_march_ex hcW hL hneW]
        rw [if_pos (by
          show some (cyc L (p + 1 + L.length - 1)) = some (cyc L p)
          rw [(by omega : p + 1 + L.length - 1 = p + L.length),
            cyc_add_length]), if_pos hjl]
      · have hal : ((⟨lid, some (cyc L p), some (cyc L (p + L.length - 1)),
            some (cyc L (p + 1)), some (cyc L i), b, f1, f2⟩
            : ELIST2_ITERATOR).at_last w) = false := by
          show (w.lastOf lid == some (cyc L p)) = false
          rw [hlast]
          simp only [beq_eq_false_iff_ne, ne_eq, Option.some.injEq]
          intro he
          rw [← cyc_of_lt (show L.length - 1 < L.length by omega)] at he
          have := cyc_inj hc.1 (by omega) hj he
          omega
        refine ⟨exl || false, e1 || (some (cyc L p) == cp1),
          e2 || (some (cyc L p) == cp2),
          ⟨lid, some (cyc L (p + 1)), some (cyc L (p + 1 + L.length - 1)),
            some (cyc L (p + 2)), some (cyc L i), true, f1, f2⟩, ?_⟩
        rw [extract_sublist_loop, if_neg hcyc]
        dsimp only
        rw [hal]
        simp only [Bool.false_eq_true, if_false]
        have hne : ¬ w.lastOf lid = none := by rw [hlast]; simp
        rw [forward_march_ex hc hL hne]
        rw [if_pos (by
          show some (cyc L (p + 1 + L.length - 1)) = some (cyc L p)
          rw [(by omega : p + 1 + L.length - 1 = p + L.length),
            cyc_add_length]), if_neg hjl]
  | succ m ih =>
      intro p fuel exl e1 e2 b hp hip hfuel hb
      obtain ⟨f, rfl⟩ : ∃ f, fuel = f + 1 := ⟨fuel - 1, by omega⟩
      have hplt : p < L.length := by omega
      have hcyc : ¬ (⟨lid, some (cyc L p), some (cyc L (p + L.length - 1)),
          some (cyc L (p + 1)), some (cyc L i), b, f1, f2⟩
          : ELIST2_ITERATOR).cycled_list w = true := by
        rw [cycled_list_iff]
        push_neg
        refine ⟨by rw [hlast]; simp, fun hbt h => ?_⟩
        rcases hb with hb0 | hilt
        · rw [hb0] at hbt
          simp at hbt
        · have hii : cyc L p = cyc L i := by
            simpa using h
          have := cyc_inj hc.1 hplt hi hii
          omega
      have hal : ((⟨lid, some (cyc L p), some (cyc L (p + L.length - 1)),
          some (cyc L (p + 1)), some (cyc L i), b, f1, f2⟩
          : ELIST2_ITERATOR).at_last w) = false := by
        show (w.lastOf lid == some (cyc L p)) = false
        rw [hlast]
        simp only [beq_eq_false_iff_ne, ne_eq, Option.some.injEq]
        intro he
        rw [← cyc_of_lt (show L.length - 1 < L.length by omega)] at he
        have := cyc_inj hc.1 (by omega) hplt he
        omega
      obtain ⟨exl', e1', e2', tfin, hrec⟩ :=
        ih (p + 1) f (exl || false)
          (e1 || (some (cyc L p) == cp1)) (e2 || (some (cyc L p) == cp2))
          true (by omega) (by omega) (by omega) (Or.inr (by omega))
      refine ⟨exl', e1', e2', tfin, ?_⟩
      rw [extract_sublist_loop, if_neg hcyc]
      dsimp only
      rw [hal]
      simp only [Bool.false_eq_true, if_false]
      have hne : ¬ w.lastOf lid = none := by rw [hlast]; simp
      rw [forward_march_ex hc hL hne]
      rw [if_neg (by
        show ¬ some (cyc L (p + 1 + L.length - 1)) = some (cyc L j)
        rw [(by omega : p + 1 + L.length - 1 = p + L.length), cyc_add_length]
        simp only [Option.some.injEq]
        intro he
        have := cyc_inj hc.1 hplt hj he
        omega)]
      exact hrec

theorem getD_drop_take {L : List Nat} {i d k : Nat} (hk : k < d) :
    ((L.drop i).take d).getD k 0 = L.getD (i + k) 0 := by
  rw [List.getD_eq_getElem?_getD, List.getElem?_take, if_pos hk,
    List.getElem?_drop, ← List.getD_eq_getElem?_getD]

theorem getD_remove_lt {L : List Nat} {i j k : Nat} (hk : k < i)
    (hi : i ≤ L.length) :
    (L.take i ++ L.drop (j + 1)).getD k 0 = L.getD k 0 := by
  rw [List.getD_append _ _ _ _ (by rw [List.length_take]; omega)]
  rw [List.getD_eq_getElem?_getD, List.getElem?_take, if_pos hk,
    ← List.getD_eq_getElem?_getD]

theorem getD_remove_ge {L : List Nat} {i j k : Nat} (hik : i ≤ k)
    (hi : i ≤ L.length) :
    (L.take i ++ L.drop (j + 1)).getD k 0 = L.getD (j + 1 + (k - i)) 0 := by
  rw [List.getD_append_right _ _ _ _ (by rw [List.length_take]; omega)]
  rw [List.length_take, Nat.min_eq_left hi]
  rw [List.getD_eq_getElem?_getD, List.getElem?_drop,
    ← List.getD_eq_getElem?_getD]

theorem length_remove {L : List Nat} {i j : Nat} (hi : i ≤ L.length) :
    (L.take i ++ L.drop (j + 1)).length = i + (L.length - (j + 1)) := by
  rw [List.length_append, List.length_take, List.length_drop,
    Nat.min_eq_left hi]

theorem nodup_remove {L : List Nat} {i j : Nat} (hij : i ≤ j + 1)
    (hnd : L.Nodup) : (L.take i ++ L.drop (j + 1)).Nodup := by
  have h1 : L.drop (j + 1) = (L.drop i).drop (j + 1 - i) := by
    rw [List.drop_drop]
    congr 1
    omega
  have hsub : (L.take i ++ L.drop (j + 1)).Sublist (L.take i ++ L.drop i) :=
    List.Sublist.append_left (by rw [h1]; exact List.drop_sublist _ _) _
  rw [List.take_append_drop] at hsub
  exact List.Nodup.sublist hsub hnd

/-- The circularised extracted range is a standalone chain whose forward
order is the original range. -/
theorem chainOk_range {w W : World} {L : List Nat} {i j : Nat}
    (hc : chainOk w L) (hij : i ≤ j) (hj : j < L.length)
    (hwn : W.nxt (L.getD j 0) = some (L.getD i 0))
    (hwp : W.prv (L.getD i 0) = some (L.getD j 0))
    (hrn : ∀ k, i ≤ k → k < j → W.nxt (L.getD k 0) = w.nxt (L.getD k 0))
    (hrp : ∀ k, i < k → k ≤ j → W.prv (L.getD k 0) = w.prv (L.getD k 0)) :
    chainOk W ((L.drop i).take (j - i + 1)) := by
  have hlenS : ((L.drop i).take (j - i + 1)).length = j - i + 1 := by
    rw [List.length_take, List.length_drop]
    omega
  refine ⟨List.Nodup.sublist ((List.take_sublist _ _).trans
    (List.drop_sublist _ _)) hc.1, ?_⟩
  intro k hk
  rw [hlenS] at hk
  have hgk : ∀ m, m < j - i + 1 → cyc ((L.drop i).take (j - i + 1)) m =
      L.getD (i + m) 0 := by
    intro m hm
    rw [cyc_of_lt (by rw [hlenS]; omega), getD_drop_take hm]
  by_cases hkend : k + 1 = j - i + 1
  · have h0 : cyc ((L.drop i).take (j - i + 1)) (k + 1) = L.getD i 0 := by
      rw [hkend]
      have hwr : cyc ((L.drop i).take (j - i + 1)) (j - i + 1) =
          ((L.drop i).take (j - i + 1)).getD 0 0 := by
        unfold cyc
        rw [hlenS, Nat.mod_self]
      rw [hwr, getD_drop_take (show 0 < j - i + 1 by omega), Nat.add_zero]
    have hkj : i + k = j := by omega
    constructor
    · rw [hgk k (by omega), h0, hkj]
      exact hwn
    · rw [h0, hgk k (by omega), hkj]
      exact hwp
  · have hk1 : k + 1 < j - i + 1 := by omega
    have hp1 := (hc.2 (i + k) (by omega)).1
    have hp2 := (hc.2 (i + k) (by omega)).2
    rw [cyc_of_lt (show i + k < L.length by omega),
      (by omega : i + k + 1 = i + (k + 1)),
      cyc_of_lt (show i + (k + 1) < L.length by omega)] at hp1 hp2
    constructor
    · rw [hgk k (by omega), hgk (k + 1) hk1,
        hrn (i + k) (by omega) (by omega)]
      exact hp1
    · rw [hgk (k + 1) hk1, hgk k (by omega),
        hrp (i + (k + 1)) (by omega) (by omega)]
      exact hp2

/-- Removing the inclusive range `[i, j]` and bridging the boundary yields
the remaining chain: before-range then after-range, in order. -/
theorem chainOk_remove {w W : World} {L : List Nat} {i j : Nat}
    (hc : chainOk w L) (hij : i ≤ j) (hj : j < L.length)
    (hnf : ¬ (i = 0 ∧ j = L.length - 1))
    (hbn : W.nxt (cyc L (i + L.length - 1)) = some (cyc L (j + 1)))
    (hbp : W.prv (cyc L (j + 1)) = some (cyc L (i + L.length - 1)))
    (hont : ∀ k, k < L.length → (k < i ∨ j < k) →
      ¬ cyc L k = cyc L (i + L.length - 1) →
      W.nxt (cyc L k) = w.nxt (cyc L k))
    (hopr : ∀ k, k < L.length → (k < i ∨ j < k) →
      ¬ cyc L k = cyc L (j + 1) →
      W.prv (cyc L k) = w.prv (cyc L k)) :
    chainOk W (L.take i ++ L.drop (j + 1)) := by
  have hlen : 0 < L.length := by omega
  have hi : i ≤ L.length := by omega
  have hnd := hc.1
  have hlR : (L.take i ++ L.drop (j + 1)).length =
      i + (L.length - (j + 1)) := length_remove hi
  set n := i + (L.length - (j + 1)) with hn
  have hnpos : 0 < n := by
    rcases Nat.lt_or_ge j (L.length - 1) with hlt | hge
    · omega
    · have hje : j = L.length - 1 := by omega
      have hi0 : ¬ i = 0 := fun h0 => hnf ⟨h0, hje⟩
      omega
  have hP : cyc L (i + L.length - 1) =
      L.getD (if i = 0 then L.length - 1 else i - 1) 0 := by
    rw [(by split_ifs <;> omega :
      i + L.length - 1 = (if i = 0 then L.length - 1 else i - 1) +
        (if i = 0 then 0 else L.length))]
    split_ifs with h0
    · rw [Nat.add_zero, cyc_of_lt (by omega)]
    · rw [cyc_add_length, cyc_of_lt (by omega)]
  have hQ : cyc L (j + 1) =
      L.getD (if j = L.length - 1 then 0 else j + 1) 0 := by
    by_cases hjl : j = L.length - 1
    · rw [if_pos hjl, hjl, (by omega : L.length - 1 + 1 = L.length)]
      unfold cyc
      rw [Nat.mod_self]
    · rw [if_neg hjl, cyc_of_lt (by omega)]
  refine ⟨nodup_remove (by omega) hnd, ?_⟩
  intro k hk
  rw [hlR] at hk
  have hcycR : ∀ m, m < n → cyc (L.take i ++ L.drop (j + 1)) m =
      (L.take i ++ L.drop (j + 1)).getD m 0 := by
    intro m hm
    exact cyc_of_lt (by rw [hlR]; omega)
  have hwrapR : cyc (L.take i ++ L.drop (j + 1)) n =
      (L.take i ++ L.drop (j + 1)).getD 0 0 := by
    unfold cyc
    rw [hlR, Nat.mod_self]
  have hR0 : (L.take i ++ L.drop (j + 1)).getD 0 0 =
      if i = 0 then L.getD (j + 1) 0 else L.getD 0 0 := by
    split_ifs with h0
    · rw [getD_remove_ge (by omega) hi]
      congr 1
      omega
    · rw [getD_remove_lt (by omega) hi]
  rcases (by omega : (k + 1 < i) ∨ (k + 1 = i ∧ k + 1 < n) ∨
      (i ≤ k ∧ k + 1 < n) ∨ (k + 1 = n)) with hA | ⟨hB, hBn⟩ | ⟨hC, hCn⟩ | hD
  · -- both endpoints strictly inside the prefix
    have hg1 : cyc (L.take i ++ L.drop (j + 1)) k = L.getD k 0 := by
      rw [hcycR k (by omega), getD_remove_lt (by omega) hi]
    have hg2 : cyc (L.take i ++ L.drop (j + 1)) (k + 1) =
        L.getD (k + 1) 0 := by
      rw [hcycR (k + 1) (by omega), getD_remove_lt (by omega) hi]
    have hA1 : ¬ cyc L k = cyc L (i + L.length - 1) := by
      rw [hP, cyc_of_lt (show k < L.length by omega)]
      intro he
      have := getD_inj hnd (by omega) (by split_ifs <;> omega) he
      split_ifs at this <;> omega
    have hA2 : ¬ cyc L (k + 1) = cyc L (j + 1) := by
      rw [hQ, cyc_of_lt (show k + 1 < L.length by omega)]
      intro he
      have := getD_inj hnd (by omega) (by split_ifs <;> omega) he
      split_ifs at this <;> omega
    have hp1 := (hc.2 k (by omega)).1
    have hp2 := (hc.2 k (by omega)).2
    rw [cyc_of_lt (show k < L.length by omega),
      cyc_of_lt (show k + 1 < L.length by omega)] at hp1 hp2
    constructor
    · rw [hg1, hg2, ← cyc_of_lt (show k < L.length by omega),
        hont k (by omega) (Or.inl (by omega)) hA1,
        cyc_of_lt (show k < L.length by omega)]
      exact hp1
    · rw [hg2, hg1, ← cyc_of_lt (show k + 1 < L.length by omega),
        hopr (k + 1) (by omega) (Or.inl (by omega)) hA2,
        cyc_of_lt (show k + 1 < L.length by omega)]
      exact hp2
  · -- the bridged pair: end of prefix to start of suffix
    have hjlt : j + 1 < L.length := by omega
    have hg1 : cyc (L.take i ++ L.drop (j + 1)) k = L.getD (i - 1) 0 := by
      rw [hcycR k (by omega), getD_remove_lt (by omega) hi]
      congr 1
      omega
    have hg2 : cyc (L.take i ++ L.drop (j + 1)) (k + 1) =
        L.getD (j + 1) 0 := by
      rw [hcycR (k + 1) (by omega), getD_remove_ge (by omega) hi]
      congr 1
      omega
    have hPi : cyc L (i + L.length - 1) = L.getD (i - 1) 0 := by
      rw [hP, if_neg (by omega)]
    have hQj : cyc L (j + 1) = L.getD (j + 1) 0 := by
      rw [hQ, if_neg (by omega)]
    constructor
    · have hbn' := hbn
      rw [hPi, hQj] at hbn'
      rw [hg1, hg2]
      exact hbn'
    · have hbp' := hbp
      rw [hPi, hQj] at hbp'
      rw [hg2, hg1]
      exact hbp'
  · -- both endpoints inside the suffix
    have hjlt : j + 1 < L.length := by omega
    have hb1 : j + 1 + (k - i) + 1 < L.length := by omega
    have hg1 : cyc (L.take i ++ L.drop (j + 1)) k =
        L.getD (j + 1 + (k - i)) 0 := by
      rw [hcycR k (by omega), getD_remove_ge hC hi]
    have hg2 : cyc (L.take i ++ L.drop (j + 1)) (k + 1) =
        L.getD (j + 1 + (k - i) + 1) 0 := by
      rw [hcycR (k + 1) (by omega), getD_remove_ge (by omega) hi]
      congr 1
      omega
    have hA1 : ¬ cyc L (j + 1 + (k - i)) = cyc L (i + L.length - 1) := by
      rw [hP, cyc_of_lt (show j + 1 + (k - i) < L.length by omega)]
      intro he
      have := getD_inj hnd (by omega) (by split_ifs <;> omega) he
      split_ifs at this <;> omega
    have hA2 : ¬ cyc L (j + 1 + (k - i) + 1) = cyc L (j + 1) := by
      rw [hQ, if_neg (by omega),
        cyc_of_lt (show j + 1 + (k - i) + 1 < L.length by omega)]
      intro he
      have := getD_inj hnd (by omega) (by omega) he
      omega
    have hp1 := (hc.2 (j + 1 + (k - i)) (by omega)).1
    have hp2 := (hc.2 (j + 1 + (k - i)) (by omega)).2
    rw [cyc_of_lt (show j + 1 + (k - i) < L.length by omega),
      cyc_of_lt (show j + 1 + (k - i) + 1 < L.length by omega)] at hp1 hp2
    constructor
    · rw [hg1, hg2, ← cyc_of_lt (show j + 1 + (k - i) < L.length by omega),
        hont (j + 1 + (k - i)) (by omega) (Or.inr (by omega)) hA1,
        cyc_of_lt (show j + 1 + (k - i) < L.length by omega)]
      exact hp1
    · rw [hg2, hg1,
        ← cyc_of_lt (show j + 1 + (k - i) + 1 < L.length by omega),
        hopr (j + 1 + (k - i) + 1) (by omega) (Or.inr (by omega)) hA2,
        cyc_of_lt (show j + 1 + (k - i) + 1 < L.length by omega)]
      exact hp2
  · -- the wrap pair
    by_cases hjl : j = L.length - 1
    · -- suffix empty: the remaining chain is the prefix, ending at the
      -- bridged predecessor
      have hni : n = i := by omega
      have hi1 : 1 ≤ i := by omega
      have hg1 : cyc (L.take i ++ L.drop (j + 1)) k = L.getD (i - 1) 0 := by
        rw [hcycR k (by omega), getD_remove_lt (by omega) hi]
        congr 1
        omega
      have hg0 : cyc (L.take i ++ L.drop (j + 1)) (k + 1) = L.getD 0 0 := by
        rw [hD, hwrapR, hR0, if_neg (by omega)]
      have hPi : cyc L (i + L.length - 1) = L.getD (i - 1) 0 := by
        rw [hP, if_neg (by omega)]
      have hQ0 : cyc L (j + 1) = L.getD 0 0 := by
        rw [hQ, if_pos hjl]
      constructor
      · have hbn' := hbn
        rw [hPi, hQ0] at hbn'
        rw [hg1, hg0]
        exact hbn'
      · have hbp' := hbp
        rw [hPi, hQ0] at hbp'
        rw [hg0, hg1]
        exact hbp'
    · by_cases hi0 : i = 0
      · -- prefix empty: the remaining chain is the suffix; its tail is the
        -- bridged predecessor (the source tail)
        have hg1 : cyc (L.take i ++ L.drop (j + 1)) k =
            L.getD (L.length - 1) 0 := by
          rw [hcycR k (by omega), getD_remove_ge (by omega) hi]
          congr 1
          omega
        have hg0 : cyc (L.take i ++ L.drop (j + 1)) (k + 1) =
            L.getD (j + 1) 0 := by
          rw [hD, hwrapR, hR0, if_pos hi0]
        have hPi : cyc L (i + L.length - 1) = L.getD (L.length - 1) 0 := by
          rw [hP, if_pos hi0]
        have hQj : cyc L (j + 1) = L.getD (j + 1) 0 := by
          rw [hQ, if_neg hjl]
        constructor
        · have hbn' := hbn
          rw [hPi, hQj] at hbn'
          rw [hg1, hg0]
          exact hbn'
        · have hbp' := hbp
          rw [hPi, hQj] at hbp'
          rw [hg0, hg1]
          exact hbp'
      · -- untouched wrap: source tail back to source head
        have hnlt : i < n := by omega
        have hg1 : cyc (L.take i ++ L.drop (j + 1)) k =
            L.getD (L.length - 1) 0 := by
          rw [hcycR k (by omega), getD_remove_ge (by omega) hi]
          congr 1
          omega
        have hg0 : cyc (L.take i ++ L.drop (j + 1)) (k + 1) =
            L.getD 0 0 := by
          rw [hD, hwrapR, hR0, if_neg hi0]
        have hA1 : ¬ cyc L (L.length - 1) = cyc L (i + L.length - 1) := by
          rw [hP, if_neg hi0,
            cyc_of_lt (show L.length - 1 < L.length by omega)]
          intro he
          have := getD_inj hnd (by omega) (by omega) he
          omega
        have hA2 : ¬ cyc L 0 = cyc L (j + 1) := by
          rw [hQ, if_neg hjl, cyc_of_lt (show 0 < L.length by omega)]
          intro he
          have := getD_inj hnd (by omega) (by omega) he
          omega
        have hp1 := (hc.2 (L.length - 1) (by omega)).1
        have hp2 := (hc.2 (L.length - 1) (by omega)).2
        have hwrapL : cyc L (L.length - 1 + 1) = L.getD 0 0 := by
          rw [(by omega : L.length - 1 + 1 = L.length)]
          unfold cyc
          rw [Nat.mod_self]
        rw [cyc_of_lt (show L.length - 1 < L.length by omega), hwrapL]
          at hp1 hp2
        constructor
        · rw [hg1, hg0,
            ← cyc_of_lt (show L.length - 1 < L.length by omega),
            hont (L.length - 1) (by omega) (Or.inr (by omega)) hA1,
            cyc_of_lt (show L.length - 1 < L.length by omega)]
          exact hp1
        · rw [hg0, hg1, ← cyc_of_lt (show 0 < L.length by omega),
            hopr 0 (by omega) (Or.inl (by omega)) hA2,
            cyc_of_lt (show 0 < L.length by omega)]
          exact hp2

/-- **C2** (partition law): on a list of length `N` with cursors at forward
positions `i ≤ j`, `extract_sublist` succeeds, returns the range's last node,
leaves the remaining chain `before-i ++ after-j` (of length `N - (j-i+1)`)
represented by the source list object, and splices the inclusive range
(of length `j-i+1`, in original forward order) into a standalone circular
chain; concatenating before-range, range and after-range reproduces the
original order.  When the range is the whole list the source's `last`
goes unset, and both cursors' `current`/`prev`/`next` go unset; the
cursors' currents are unset in every case. -/
theorem claim_C2_extract_sublist {w : World} {lid : Nat} {L : List Nat}
    {it ot : ELIST2_ITERATOR} {i j : Nat} {fuel : Nat}
    (hrep : represents w lid L) (hitl : it.list = lid) (hotl : ot.list = lid)
    (hpos1 : posAt L i it) (hpos2 : posAt L j ot)
    (hij : i ≤ j) (hj : j < L.length) (hfuel : L.length + 1 ≤ fuel) :
    ∃ w' it' ot' endp,
      it.extract_sublist w ot fuel = .ok (w', it', ot', endp) ∧
      endp = some (L.getD j 0) ∧
      chainOk w' ((L.drop i).take (j - i + 1)) ∧
      ((L.drop i).take (j - i + 1)).length = j - i + 1 ∧
      represents w' lid (L.take i ++ L.drop (j + 1)) ∧
      (L.take i ++ L.drop (j + 1)).length = L.length - (j - i + 1) ∧
      L.take i ++ ((L.drop i).take (j - i + 1) ++ L.drop (j + 1)) = L ∧
      ((i = 0 ∧ j = L.length - 1) →
        w'.lastOf lid = none ∧ it'.prev = none ∧ it'.next = none ∧
        ot'.prev = none ∧ ot'.next = none) ∧
      it'.current = none ∧ ot'.current = none := by
  have hL : L ≠ [] := by intro h; rw [h] at hj; simp at hj
  have hlen : 0 < L.length := List.length_pos.mpr hL
  have hi : i < L.length := by omega
  have hc := represents_chainOk hrep hL
  have hnd := hc.1
  have hlast : w.lastOf lid = some (L.getD (L.length - 1) 0) := by
    have := represents_lastOf hrep hL
    rwa [cyc_of_lt (by omega)] at this
  obtain ⟨hcur1, hprev1, hnext1⟩ := hpos1
  obtain ⟨hcur2, hprev2, hnext2⟩ := hpos2
  have hg1 : ¬ it.list ≠ ot.list := by rw [hitl, hotl]; simp
  have hg2 : ¬ w.lastOf it.list = none := by rw [hitl, hlast]; simp
  have hg3 : ¬ (it.current = none ∨ ot.current = none) := by
    rw [hcur1, hcur2]
    simp
  have htemp : ({ it with cycle_pt := it.current, started_cycling := false }
      : ELIST2_ITERATOR) =
      ⟨lid, some (cyc L i), some (cyc L (i + L.length - 1)),
        some (cyc L (i + 1)), some (cyc L i), false, it.ex_current_was_last,
        it.ex_current_was_cycle_pt⟩ := by
    rw [ELIST2_ITERATOR.mk.injEq]
    exact ⟨hitl, hcur1, hprev1, hnext1, hcur1, rfl, rfl, rfl⟩
  obtain ⟨exl, e1, e2, tfin, hloop⟩ :=
    extract_loop_spec hc hL hlast hi hj (cyc L (i + L.length - 1))
      it.cycle_pt ot.cycle_pt it.ex_current_was_last
      it.ex_current_was_cycle_pt (j - i) i fuel false false false false
      (by omega) (by omega) (by omega) (Or.inl rfl)
  have hPd : cyc L (i + L.length - 1) =
      L.getD (if i = 0 then L.length - 1 else i - 1) 0 := by
    rw [(by split_ifs <;> omega :
      i + L.length - 1 = (if i = 0 then L.length - 1 else i - 1) +
        (if i = 0 then 0 else L.length))]
    split_ifs with h0
    · rw [Nat.add_zero, cyc_of_lt (by omega)]
    · rw [cyc_add_length, cyc_of_lt (by omega)]
  have hQd : cyc L (j + 1) =
      L.getD (if j = L.length - 1 then 0 else j + 1) 0 := by
    by_cases hjl : j = L.length - 1
    · rw [if_pos hjl, hjl, (by omega : L.length - 1 + 1 = L.length)]
      unfold cyc
      rw [Nat.mod_self]
    · rw [if_neg hjl, cyc_of_lt (by omega)]
  have hfull_iff : (some (cyc L (i + L.length - 1)) : Ptr) =
      some (cyc L j) ↔ (i = 0 ∧ j = L.length - 1) := by
    constructor
    · intro he
      simp only [Option.some.injEq] at he
      rw [hPd, cyc_of_lt hj] at he
      have := getD_inj hnd (by split_ifs <;> omega) hj he
      split_ifs at this with hq
      · exact ⟨hq, by omega⟩
      · omega
    · intro hf
      obtain ⟨h0, hjl⟩ := hf
      simp only [Option.some.injEq]
      exact congrArg (cyc L) (by omega)
  have hW1n : ∀ z, (if j = L.length - 1 then
      w.setLast lid (some (cyc L (i + L.length - 1))) else w).nxt z =
      w.nxt z := by
    intro z
    split_ifs <;> rfl
  have hW1p : ∀ z, (if j = L.length - 1 then
      w.setLast lid (some (cyc L (i + L.length - 1))) else w).prv z =
      w.prv z := by
    intro z
    split_ifs <;> rfl
  have hlenS : ((L.drop i).take (j - i + 1)).length = j - i + 1 := by
    rw [List.length_take, List.length_drop]
    omega
  have hlenR : (L.take i ++ L.drop (j + 1)).length =
      L.length - (j - i + 1) := by
    rw [length_remove (by omega)]
    omega
  have hconcat : L.take i ++ ((L.drop i).take (j - i + 1) ++
      L.drop (j + 1)) = L := by
    have hdd : (L.drop i).drop (j - i + 1) = L.drop (j + 1) := by
      rw [List.drop_drop]
      congr 1
      omega
    rw [← hdd, List.take_append_drop, List.take_append_drop]
  rw [ELIST2_ITERATOR.extract_sublist, if_neg hg1, if_neg hg2, if_neg hg3]
  dsimp only
  rw [htemp, hitl, hprev1, hcur1, hcur2, hnext2]
  rw [hloop]
  dsimp only
  simp only [setNxtP_some, setPrvP_some]
  by_cases hfull : i = 0 ∧ j = L.length - 1
  · obtain ⟨h0, hjl⟩ := hfull
    rw [if_pos (hfull_iff.mpr ⟨h0, hjl⟩), if_pos hjl]
    refine ⟨_, _, _, _, rfl, ?_, ?_, hlenS, ?_, hlenR, hconcat, ?_, rfl, rfl⟩
    · rw [cyc_of_lt hj]
    · refine chainOk_range hc hij hj ?_ ?_ ?_ ?_
      · simp only [nxt_setLast, nxt_setPrv, nxt_setNxt]
        rw [cyc_of_lt hj, cyc_of_lt hi]
        simp
      · simp only [prv_setLast, prv_setPrv, prv_setNxt]
        rw [cyc_of_lt hj, cyc_of_lt hi]
        simp
      · intro k hik hkj
        simp only [nxt_setLast, nxt_setPrv, nxt_setNxt]
        rw [cyc_of_lt hj,
          if_neg (fun he => absurd (getD_inj hnd (by omega) hj he)
            (by omega))]
      · intro k hik hkj
        simp only [prv_setLast, prv_setPrv, prv_setNxt]
        rw [cyc_of_lt hi,
          if_neg (fun he => absurd (getD_inj hnd (by omega) hi he)
            (by omega))]
    · have hRnil : L.take i ++ L.drop (j + 1) = [] := by
        rw [h0, List.take_zero, (by omega : j + 1 = L.length),
          List.drop_length]
        rfl
      rw [hRnil, represents, if_pos rfl]
      simp only [lastOf_setLast, lastOf_setPrv, lastOf_setNxt]
      simp
    · intro _
      refine ⟨?_, rfl, rfl, rfl, rfl⟩
      simp only [lastOf_setLast, lastOf_setPrv, lastOf_setNxt]
      simp
  · rw [if_neg (fun he => hfull (hfull_iff.mp he))]
    refine ⟨_, _, _, _, rfl, ?_, ?_, hlenS, ?_, hlenR, hconcat,
      fun hff => absurd hff hfull, rfl, rfl⟩
    · rw [cyc_of_lt hj]
    · refine chainOk_range hc hij hj ?_ ?_ ?_ ?_
      · simp only [nxt_setPrv, nxt_setNxt]
        rw [if_neg (by
          rw [hPd]
          intro he
          have := getD_inj hnd hj (by split_ifs <;> omega) he
          split_ifs at this with hq
          · exact hfull ⟨hq, by omega⟩
          · omega)]
        rw [cyc_of_lt hj, cyc_of_lt hi]
        simp [hW1n]
      · simp only [prv_setPrv, prv_setNxt]
        rw [if_neg (by
          rw [hQd]
          intro he
          have := getD_inj hnd hi (by split_ifs <;> omega) he
          split_ifs at this with hq
          · exact hfull ⟨by omega, hq⟩
          · omega)]
        rw [cyc_of_lt hi, cyc_of_lt hj]
        simp [hW1p]
      · intro k hik hkj
        simp only [nxt_setPrv, nxt_setNxt]
        rw [if_neg (by
          rw [hPd]
          intro he
          have := getD_inj hnd (by omega) (by split_ifs <;> omega) he
          split_ifs at this <;> omega),
          if_neg (by
            rw [cyc_of_lt hj]
            intro he
            exact absurd (getD_inj hnd (by omega) hj he) (by omega))]
        exact hW1n _
      · intro k hik hkj
        simp only [prv_setPrv, prv_setNxt]
        rw [if_neg (by
          rw [hQd]
          intro he
          have := getD_inj hnd (by omega) (by split_ifs <;> omega) he
          split_ifs at this <;> omega),
          if_neg (by
            rw [cyc_of_lt hi]
            intro he
            exact absurd (getD_inj hnd (by omega) hi he) (by omega))]
        exact hW1p _
    · have hRne : ¬ L.take i ++ L.drop (j + 1) = [] := by
        intro h
        have := congrArg List.length h
        rw [length_remove (by omega)] at this
        simp only [List.length_nil] at this
        rcases Nat.lt_or_ge j (L.length - 1) with hlt | hge
        · omega
        · exact hfull ⟨by omega, by omega⟩
      rw [represents, if_neg hRne]
      constructor
      · simp only [lastOf_setPrv, lastOf_setNxt]
        rw [apply_ite (fun ww : World => ww.lastOf lid)]
        rw [length_remove (by omega)]
        by_cases hjl : j = L.length - 1
        · have hi0 : ¬ i = 0 := fun hz => hfull ⟨hz, hjl⟩
          rw [if_pos hjl, lastOf_setLast]
          rw [(by omega : i + (L.length - (j + 1)) - 1 = i - 1),
            getD_remove_lt (by omega) (by omega), hPd, if_neg hi0]
          simp
        · rw [if_neg hjl, hlast,
            getD_remove_ge (by omega) (by omega)]
          congr 2
          omega
      · refine chainOk_remove hc hij hj hfull ?_ ?_ ?_ ?_
        · simp only [nxt_setPrv, nxt_setNxt]
          simp
        · simp only [prv_setPrv, prv_setNxt]
          simp
        · intro k hk hrange hkp
          simp only [nxt_setPrv, nxt_setNxt]
          rw [if_neg hkp,
            if_neg (by
              rw [cyc_of_lt hk, cyc_of_lt hj]
              intro he
              exact absurd (getD_inj hnd hk hj he) (by omega))]
          exact hW1n _
        · intro k hk hrange hkq
          simp only [prv_setPrv, prv_setNxt]
          rw [if_neg hkq,
            if_neg (by
              rw [cyc_of_lt hk, cyc_of_lt hi]
              intro he
              exact absurd (getD_inj hnd hk hi he) (by omega))]
          exact hW1p _

/-- Witness for C2 (the spec's scenario B): on `w4` (list 0 holding
`[0, 1, 2, 3]`), extracting from the cursor at position 1 through the cursor
at position 2 leaves `[0, 3]`, extracts the standalone chain `[1, 2]` and
returns end pointer node 2. -/
theorem claim_C2_extract_sublist_witness :
    ∃ w' it' ot' endp,
      itPos1.extract_sublist w4 otPos2 5 = .ok (w', it', ot', endp) ∧
      endp = some (([0, 1, 2, 3] : List Nat).getD 2 0) ∧
      chainOk w' ((([0, 1, 2, 3] : List Nat).drop 1).take (2 - 1 + 1)) ∧
      ((([0, 1, 2, 3] : List Nat).drop 1).take (2 - 1 + 1)).length =
        2 - 1 + 1 ∧
      represents w' 0 (([0, 1, 2, 3] : List Nat).take 1 ++
        ([0, 1, 2, 3] : List Nat).drop (2 + 1)) ∧
      (([0, 1, 2, 3] : List Nat).take 1 ++
        ([0, 1, 2, 3] : List Nat).drop (2 + 1)).length =
        ([0, 1, 2, 3] : List Nat).length - (2 - 1 + 1) ∧
      ([0, 1, 2, 3] : List Nat).take 1 ++
        ((([0, 1, 2, 3] : List Nat).drop 1).take (2 - 1 + 1) ++
          ([0, 1, 2, 3] : List Nat).drop (2 + 1)) = [0, 1, 2, 3] ∧
      ((1 = 0 ∧ 2 = ([0, 1, 2, 3] : List Nat).length - 1) →
        w'.lastOf 0 = none ∧ it'.prev = none ∧ it'.next = none ∧
        ot'.prev = none ∧ ot'.next = none) ∧
      it'.current = none ∧ ot'.current = none :=
  @claim_C2_extract_sublist w4 0 [0, 1, 2, 3] itPos1 otPos2 1 2 5
    (by decide) rfl rfl (by decide) (by decide) (by decide) (by decide)
    (by decide)

end Elst2
